import Mathlib

/-!
# nginx-inside-out: the pool allocator (src/core/ngx_palloc.c)

Shallow embedding of the arena ("pool") allocator.  Addresses and sizes are
natural numbers; every C operation on `size_t`, `uintptr_t` or a pointer is
taken modulo `2 ^ 64` (LP64 target).  The structure sizes are those of the
LP64 layout of `ngx_palloc.h`:
`sizeof(ngx_pool_data_t) = 32`, `sizeof(ngx_pool_t) = 80`,
`sizeof(ngx_pool_large_t) = 16`, `sizeof(ngx_pool_cleanup_t) = 24`.

The backing heap (`malloc`, `posix_memalign`, `free`) is outside the program.
A call that may ask the heap for memory takes the value the heap returns as an
argument (`0` is `NULL`), and a call that may release memory returns the list
of addresses it passed to `free`, in call order.

The cleanup list is kept cell by cell, each cell at its address: the cells
lie in memory that the pool hands out, and after `ngx_reset_pool` a
registration can be given a cell that is still on the list.
-/

namespace NgxPalloc

/-! ## Machine constants and macros -/

/-- Number of values of `size_t` / `uintptr_t`. -/
def WORD : Nat := 18446744073709551616

/-- The macro `NGX_ALIGMENT`, `sizeof(unsigned long)` (ngx_config.h:62). -/
def NGX_ALIGMENT : Nat := 8

/-- The macro `NGX_POOL_ALIGNMENT` (ngx_palloc.h:20). -/
def NGX_POOL_ALIGNMENT : Nat := 16

/-- Size of `ngx_pool_data_t`: two pointers, a pointer and a word. -/
def sizeof_ngx_pool_data_t : Nat := 32

/-- Size of `ngx_pool_t`: `ngx_pool_data_t` followed by six words. -/
def sizeof_ngx_pool_t : Nat := 80

/-- Size of `ngx_pool_large_t`: two pointers. -/
def sizeof_ngx_pool_large_t : Nat := 16

/-- Size of `ngx_pool_cleanup_t`: three pointers. -/
def sizeof_ngx_pool_cleanup_t : Nat := 24

/-- The status `NGX_OK` (ngx_core.h:15). -/
def NGX_OK : Int := 0

/-- The status `NGX_DECLINED` (ngx_core.h:20). -/
def NGX_DECLINED : Int := -5

/-- The macro `NGX_MAX_ALLOC_FROM_POOL`, `(ngx_pagesize - 1)` on `ngx_uint_t`
(ngx_palloc.h:14). -/
def NGX_MAX_ALLOC_FROM_POOL (ngx_pagesize : Nat) : Nat :=
  (ngx_pagesize + WORD - 1) % WORD

/-- The macro `ngx_align_ptr(p, a)`:
`(((uintptr_t) p + ((uintptr_t) a - 1)) & ~((uintptr_t) a - 1))`
(ngx_config.h:66).  The complement of `a - 1` on 64 bits is `2^64 - 1 - (a - 1)`. -/
def ngx_align_ptr (p a : Nat) : Nat :=
  ((p + (a - 1)) % WORD) &&& (WORD - 1 - (a - 1))

/-- The C expression `(size_t) (e - m)` on two pointers. -/
def ptr_diff (e m : Nat) : Nat := (e + WORD - m) % WORD

/-- The C expression `m + n` on a pointer `m` and a `size_t` `n`. -/
def ptr_add (m n : Nat) : Nat := (m + n) % WORD

/-! ## Data model (ngx_palloc.h) -/

/-- One block of the chain: the `ngx_pool_data_t` header `d` of the block that
starts at address `addr`.  The link `d.next` is the order of the list that
holds the blocks. -/
structure Block where
  addr : Nat
  last : Nat
  end_ : Nat
  failed : Nat
deriving DecidableEq, Repr

/-- One `ngx_pool_large_t` node at address `node`; `alloc = 0` is `NULL`. -/
structure Large where
  node : Nat
  alloc : Nat
deriving DecidableEq, Repr

/-- One `ngx_pool_cleanup_t` cell at address `node` with the content of its
fields `handler` (at offset 0) and `data` (at offset 8); `handler = 0` is
`NULL`.  The field `next` (at offset 16) is the order of the list that holds
the cell. -/
structure Cleanup where
  node : Nat
  handler : Nat
  data : Nat
deriving DecidableEq, Repr

/-- The pool `ngx_pool_t`: `blocks` is the chain `pool, pool->d.next, ...`
(its head is the pool's own `d`), `current` is the position in the chain of
`pool->current`, `large` and `cleanup` are the two singly linked lists, head
first.  The fields `chain` and `log` play no part in allocation and are left
out.

`cleanup` is the walk from `pool->cleanup` along `next`: the cells in the
order they are met, each with the content it has in memory now.  A cell lies
in memory that the pool hands out, so the list can come back to a cell it has
passed (`ngx_pool_cleanup_add` was given a cell that was still on the list, as
happens after `ngx_reset_pool`); the walk then ends with that cell, listed a
second time.  It also ends with `unknown_cell` where it reaches a cell some
bytes of which were overwritten through another cell that overlaps it.  The
model follows the writes of `ngx_pool_cleanup_add` and the caller's
`c->handler = h` to the cells.  It does not follow the other writes to
memory: what callers write to the memory that `ngx_palloc` returned to them,
the zero fill of `ngx_pcalloc`, and the records the pool keeps elsewhere (the
`ngx_pool_large_t` records and the block headers).  What is stated about the
content of the cells for every pool is stated under the condition that those
records lie apart from the cells (`Intact`). -/
structure Pool where
  blocks : List Block
  max : Nat
  current : Nat
  large : List Large
  cleanup : List Cleanup
deriving DecidableEq, Repr

/-- The header `pool->d` of the pool itself, the first block of the chain. -/
def Pool.d (pool : Pool) : Block := pool.blocks.headD ⟨0, 0, 0, 0⟩

/-- What the environment decides during one `ngx_palloc` call: the value
returned by `ngx_alloc` (malloc), the value returned by `ngx_memalign`, and
the value the local `n` of `ngx_palloc_large` happens to hold (it is read
without having been assigned, ngx_palloc.c:333 and 358). -/
structure Env where
  malloc : Nat
  memalign : Nat
  n : Nat
deriving DecidableEq, Repr

/-- What `ngx_destroy_pool` does to the outside world, in order: a call
`h(data)` of a cleanup handler, a call `ngx_free(a)`.  Two more events can
only end a list.  `forever`: the loop over the cleanup cells
(ngx_palloc.c:69-74) has come back to a cell it has visited, so it goes round
from that cell again and again and the function never returns.  `undefined`:
the loop has reached a cell whose content the model does not know
(`unknown_cell`), and what it does from there is not described. -/
inductive Event where
  | handler (h : Nat) (data : Nat)
  | free (a : Nat)
  | forever
  | undefined
deriving DecidableEq, Repr

/-- Two byte ranges `[a, a + n)` and `[b, b + k)` share a byte. -/
def overlaps (a n b k : Nat) : Prop := a < b + k ∧ b < a + n

instance (a n b k : Nat) : Decidable (overlaps a n b k) := by
  unfold overlaps; infer_instance

/-- Stands on `Pool.cleanup` for a cell whose content the model does not know;
no cell has the address 0. -/
def unknown_cell : Cleanup := ⟨0, 0, 0⟩

/-! ## Operations (ngx_palloc.c) -/

/-- The function `ngx_create_pool(size, log)` (ngx_palloc.c:8); `p` is the value
returned by `ngx_memalign(NGX_POOL_ALIGNMENT, size, log)`. -/
def ngx_create_pool (ngx_pagesize size p : Nat) : Option Pool :=
  if p = 0 then none
  else
    let size1 := (size + WORD - sizeof_ngx_pool_t) % WORD
    some
      { blocks := [{ addr := p
                     last := ptr_add p sizeof_ngx_pool_t
                     end_ := ptr_add p size
                     failed := 0 }]
        max := if size1 < NGX_MAX_ALLOC_FROM_POOL ngx_pagesize then size1
               else NGX_MAX_ALLOC_FROM_POOL ngx_pagesize
        current := 0
        large := []
        cleanup := [] }

/-- The do-while loop of `ngx_palloc_small` (ngx_palloc.c:186-206) over the
chain starting at `pool->current`: the first block whose distance
`(size_t) (d.end - m)` is at least `size` serves the request. -/
def ngx_palloc_small_scan (size : Nat) (align : Bool) : List Block → Option (Nat × List Block)
  | [] => none
  | b :: bs =>
    let m := if align then ngx_align_ptr b.last NGX_ALIGMENT else b.last
    if size ≤ ptr_diff b.end_ m then
      some (m, { b with last := ptr_add m size } :: bs)
    else
      match ngx_palloc_small_scan size align bs with
      | none => none
      | some (r, bs1) => some (r, b :: bs1)

/-- The loop of `ngx_palloc_block` (ngx_palloc.c:311-315) over the blocks from
`pool->current` (at position `i`) that have a successor: each gets
`failed++`, and `pool->current` moves right after a block whose counter was
above 4.  Returns the updated blocks and the new `current`. -/
def ngx_palloc_block_failed : List Block → Nat → Nat → List Block × Nat
  | [], _, cur => ([], cur)
  | [b], _, cur => ([b], cur)
  | b :: b1 :: bs, i, cur =>
    let r := ngx_palloc_block_failed (b1 :: bs) (i + 1) (if 4 < b.failed then i + 1 else cur)
    ({ b with failed := (b.failed + 1) % WORD } :: r.1, r.2)

/-- The function `ngx_palloc_block(pool, size)` (ngx_palloc.c:233); `m` is the
value returned by `ngx_memalign(NGX_POOL_ALIGNMENT, psize, pool->log)`. -/
def ngx_palloc_block (pool : Pool) (size m : Nat) : Nat × Pool :=
  let psize := ptr_diff pool.d.end_ pool.d.addr
  if m = 0 then (0, pool)
  else
    let m1 := ngx_align_ptr (ptr_add m sizeof_ngx_pool_data_t) NGX_ALIGMENT
    let new : Block := { addr := m, last := ptr_add m1 size, end_ := ptr_add m psize, failed := 0 }
    let r := ngx_palloc_block_failed (pool.blocks.drop pool.current) pool.current pool.current
    (m1, { pool with blocks := pool.blocks.take pool.current ++ r.1 ++ [new], current := r.2 })

/-- The function `ngx_palloc_small(pool, size, align)` (ngx_palloc.c:174). -/
def ngx_palloc_small (pool : Pool) (size : Nat) (align : Bool) (mem : Nat) : Nat × Pool :=
  match ngx_palloc_small_scan size align (pool.blocks.drop pool.current) with
  | some (m, bs) => (m, { pool with blocks := pool.blocks.take pool.current ++ bs })
  | none => ngx_palloc_block pool size mem

/-- The loop of `ngx_palloc_large` (ngx_palloc.c:345-361): the first node with
`alloc == NULL` met before the `n++ > 3` break takes the address `p`. -/
def ngx_palloc_large_scan (p : Nat) : List Large → Nat → Option (List Large)
  | [], _ => none
  | l :: ls, n =>
    if l.alloc = 0 then some ({ l with alloc := p } :: ls)
    else if 3 < n then none
    else
      match ngx_palloc_large_scan p ls ((n + 1) % WORD) with
      | none => none
      | some ls1 => some (l :: ls1)

/-- The function `ngx_palloc_large(pool, size)` (ngx_palloc.c:331); `p` is the value
returned by `ngx_alloc(size, pool->log)`, `n` the initial content of the local
`n`, `mem` the value `ngx_memalign` returns if a block is needed for the node.
Returns the pointer, the pool and the addresses passed to `ngx_free`. -/
def ngx_palloc_large (pool : Pool) (_size p n mem : Nat) : Nat × Pool × List Nat :=
  if p = 0 then (0, pool, [])
  else
    match ngx_palloc_large_scan p pool.large n with
    | some ls => (p, { pool with large := ls }, [])
    | none =>
      let r := ngx_palloc_small pool sizeof_ngx_pool_large_t true mem
      if r.1 = 0 then (0, r.2, [p])
      else (p, { r.2 with large := { node := r.1, alloc := p } :: r.2.large }, [])

/-- The function `ngx_palloc(pool, size)` (ngx_palloc.c:145), `NGX_DEBUG_PALLOC` off. -/
def ngx_palloc (pool : Pool) (size : Nat) (env : Env) : Nat × Pool × List Nat :=
  if size ≤ pool.max then
    let r := ngx_palloc_small pool size true env.memalign
    (r.1, r.2, [])
  else ngx_palloc_large pool size env.malloc env.n env.memalign

/-- The function `ngx_pnalloc(pool, size)` (ngx_palloc.c:157), `NGX_DEBUG_PALLOC` off. -/
def ngx_pnalloc (pool : Pool) (size : Nat) (env : Env) : Nat × Pool × List Nat :=
  if size ≤ pool.max then
    let r := ngx_palloc_small pool size false env.memalign
    (r.1, r.2, [])
  else ngx_palloc_large pool size env.malloc env.n env.memalign

/-- The function `ngx_pcalloc(pool, size)` (ngx_palloc.c:429).  The zero fill writes
the bytes of the returned region only; the contents of the memory handed out
are not part of the pool state (for the cells of the cleanup list see `Pool`). -/
def ngx_pcalloc (pool : Pool) (size : Nat) (env : Env) : Nat × Pool × List Nat :=
  ngx_palloc pool size env

/-- The loop of `ngx_pfree` (ngx_palloc.c:415-423): the first node whose `alloc`
equals `p` is cleared. -/
def ngx_pfree_scan (p : Nat) : List Large → Option (List Large)
  | [] => none
  | l :: ls =>
    if p = l.alloc then some ({ l with alloc := 0 } :: ls)
    else
      match ngx_pfree_scan p ls with
      | none => none
      | some ls1 => some (l :: ls1)

/-- The function `ngx_pfree(pool, p)` (ngx_palloc.c:412): status, pool, and the
addresses passed to `ngx_free`. -/
def ngx_pfree (pool : Pool) (p : Nat) : Int × Pool × List Nat :=
  match ngx_pfree_scan p pool.large with
  | some ls => (NGX_OK, { pool with large := ls }, [p])
  | none => (NGX_DECLINED, pool, [])

/-- The addresses freed by the loop `for (l = pool->large; l; l = l->next)`
with body `if (l->alloc) ngx_free(l->alloc)` (ngx_palloc.c:102 and 127). -/
def free_large (ls : List Large) : List Nat :=
  (ls.filter (fun l => l.alloc ≠ 0)).map (fun l => l.alloc)

/-- The function `ngx_reset_pool(pool)` (ngx_palloc.c:123): the pool and the addresses
passed to `ngx_free`. -/
def ngx_reset_pool (pool : Pool) : Pool × List Nat :=
  ({ pool with
      blocks := pool.blocks.map
        (fun b => { b with last := ptr_add b.addr sizeof_ngx_pool_t, failed := 0 })
      current := 0
      large := [] },
   free_large pool.large)

/-- The loop `for (c = pool->cleanup; c; c = c->next)` with body
`if (c->handler) c->handler(c->data)` (ngx_palloc.c:69-74) from the cell at
the head of `cs` on, `seen` being the addresses of the cells visited so far.
A cell that was visited before is the start of a round that repeats without
end. -/
def run_cleanup_from (seen : List Nat) : List Cleanup → List Event
  | [] => []
  | c :: cs =>
    if c.node = 0 then [Event.undefined]
    else if c.node ∈ seen then [Event.forever]
    else if c.handler ≠ 0 then
      Event.handler c.handler c.data :: run_cleanup_from (c.node :: seen) cs
    else run_cleanup_from (c.node :: seen) cs

/-- The first loop of `ngx_destroy_pool` (ngx_palloc.c:69-74). -/
def run_cleanup (cs : List Cleanup) : List Event := run_cleanup_from [] cs

/-- The function `ngx_destroy_pool(pool)` (ngx_palloc.c:56), `NGX_DEBUG` off: the handler
calls, the `ngx_free` of the large allocations, and the last loop, which runs
once for each block of the chain and calls `ngx_free(pool)` each time.  When
the first loop does not end, or reads a cell of unknown content, nothing
follows it. -/
def ngx_destroy_pool (pool : Pool) : List Event :=
  if (run_cleanup pool.cleanup).getLast? = some Event.forever
      ∨ (run_cleanup pool.cleanup).getLast? = some Event.undefined then
    run_cleanup pool.cleanup
  else
    run_cleanup pool.cleanup
      ++ (free_large pool.large).map Event.free
      ++ pool.blocks.map (fun _ => Event.free pool.d.addr)

/-- A write of `len` bytes at offset `off` of the cell at address `c`, `f`
being what it does to the content of that cell, as seen on the walk `cs`.
Every listing of the cell `c` takes the new content.  A listed cell at
another address that shares a byte with the bytes written has no known
content afterwards. -/
def poke (c off len : Nat) (f : Cleanup → Cleanup) : List Cleanup → List Cleanup
  | [] => []
  | e :: es =>
    if e.node = 0 then e :: es
    else if e.node = c then f e :: poke c off len f es
    else if overlaps (c + off) len e.node sizeof_ngx_pool_cleanup_t then [unknown_cell]
    else e :: poke c off len f es

/-- The old walk `cs` after the three fields of the cell at `c` were written
and before `p->cleanup = c`: it is followed up to the first cell that the
writes touched.  If that cell is `c` itself, the walk is back at the cell
just written, whose content is `new` and whose `next` leads to the old head
again.  If it is a cell that overlaps the 24 bytes at `c`, its content is not
known. -/
def relink (c : Nat) (new : Cleanup) : List Cleanup → List Cleanup
  | [] => []
  | e :: es =>
    if e.node = 0 then e :: es
    else if e.node = c then [new]
    else if overlaps c sizeof_ngx_pool_cleanup_t e.node sizeof_ngx_pool_cleanup_t then
      [unknown_cell]
    else e :: relink c new es

/-- The lines `c->handler = NULL; c->next = p->cleanup; p->cleanup = c;`
(ngx_palloc.c:479-482) after `c->data` was set: the cell `new` becomes the
head and its `next` is the old head. -/
def link (new : Cleanup) (cs : List Cleanup) : List Cleanup :=
  new :: relink new.node new cs

/-- The function `ngx_pool_cleanup_add(p, size)` (ngx_palloc.c:450); `env1` and `env2`
serve its first and second `ngx_palloc` call.  Returns the entry address
(`0` for `NULL`), the pool, and the addresses passed to `ngx_free`.

The entry is the cell `c` that the first `ngx_palloc` returned, wherever it
lies; the function writes its fields in memory.  Line 471 stores the result
of the second `ngx_palloc` in `c->data` before it is tested, so `c->data` is
set to `NULL` also on the path that returns `NULL` (`poke`).  On the paths
that succeed all three fields of the cell are written and the cell becomes
the head (`link`): a cell that was on the list already is overwritten where
it lies, and the list comes back to it. -/
def ngx_pool_cleanup_add (p : Pool) (size : Nat) (env1 env2 : Env) : Nat × Pool × List Nat :=
  let r1 := ngx_palloc p sizeof_ngx_pool_cleanup_t env1
  if r1.1 = 0 then (0, r1.2.1, r1.2.2)
  else if size ≠ 0 then
    let r2 := ngx_palloc r1.2.1 size env2
    if r2.1 = 0 then
      (0,
       { r2.2.1 with
           cleanup := poke r1.1 8 8 (fun e => { e with data := 0 }) r2.2.1.cleanup },
       r1.2.2 ++ r2.2.2)
    else
      (r1.1,
       { r2.2.1 with
           cleanup := link { node := r1.1, handler := 0, data := r2.1 } r2.2.1.cleanup },
       r1.2.2 ++ r2.2.2)
  else
    (r1.1,
     { r1.2.1 with cleanup := link { node := r1.1, handler := 0, data := 0 } r1.2.1.cleanup },
     r1.2.2)

/-- The assignment `c->handler = h` a caller makes on the entry at address `c`
that `ngx_pool_cleanup_add` returned (ngx_palloc.c:479: the handler is "set by
the caller after this function returns"): a write of 8 bytes at offset 0 of
the cell. -/
def set_handler (c h : Nat) (cs : List Cleanup) : List Cleanup :=
  poke c 0 8 (fun e => { e with handler := h }) cs


/-! ## Sequences of calls and state predicates -/

/-- One operation on a pool, with what the environment decides during it. -/
inductive Op where
  | palloc (size : Nat) (env : Env)
  | pnalloc (size : Nat) (env : Env)
  | pcalloc (size : Nat) (env : Env)
  | cleanup_add (size : Nat) (env1 env2 : Env)
  | reset
deriving DecidableEq, Repr

/-- The pool after one operation. -/
def Op.run (pool : Pool) : Op → Pool
  | Op.palloc size env => (ngx_palloc pool size env).2.1
  | Op.pnalloc size env => (ngx_pnalloc pool size env).2.1
  | Op.pcalloc size env => (ngx_pcalloc pool size env).2.1
  | Op.cleanup_add size env1 env2 => (ngx_pool_cleanup_add pool size env1 env2).2.1
  | Op.reset => (ngx_reset_pool pool).1

/-- The pool after a sequence of operations. -/
def run_ops (pool : Pool) (ops : List Op) : Pool := ops.foldl Op.run pool

/-- One small request: through `ngx_palloc` (`align = true`) or `ngx_pnalloc`. -/
structure Req where
  size : Nat
  align : Bool
  env : Env
deriving DecidableEq, Repr

/-- Serves the requests in order; returns the regions `(address, size)` handed
out, in request order, and the final pool. -/
def run_requests : Pool → List Req → List (Nat × Nat) × Pool
  | pool, [] => ([], pool)
  | pool, r :: rs =>
    let a := if r.align then ngx_palloc pool r.size r.env else ngx_pnalloc pool r.size r.env
    let rest := run_requests a.2.1 rs
    ((a.1, r.size) :: rest.1, rest.2)

/-- The bytes of the header of the block at position `i` of the chain:
`ngx_pool_t` for the pool itself, `ngx_pool_data_t` for an appended block. -/
def header_size (i : Nat) : Nat :=
  if i = 0 then sizeof_ngx_pool_t else sizeof_ngx_pool_data_t

/-- The state of a block that lies in the address space, was obtained with
block size `psize` at a word-aligned address, and has its cursor between its
`ngx_pool_data_t` header and its end. -/
def BlockOK (psize : Nat) (b : Block) : Prop :=
  b.end_ = b.addr + psize ∧ b.end_ < WORD ∧ NGX_ALIGMENT ∣ b.addr ∧
    b.addr + sizeof_ngx_pool_data_t ≤ b.last ∧ b.last ≤ b.end_

/-- The state of a pool whose block size `psize` holds a pool header and is a
multiple of the word size, and all of whose blocks satisfy `BlockOK`. -/
def PoolOK (psize : Nat) (pool : Pool) : Prop :=
  sizeof_ngx_pool_t ≤ psize ∧ NGX_ALIGMENT ∣ psize ∧ pool.max + sizeof_ngx_pool_t ≤ psize ∧
    pool.blocks ≠ [] ∧ ∀ b ∈ pool.blocks, BlockOK psize b

/-- What the heap may answer to `ngx_memalign(NGX_POOL_ALIGNMENT, psize, log)`:
`NULL`, or a word-aligned address of `psize` bytes inside the address space. -/
def MemOK (psize mem : Nat) : Prop :=
  mem = 0 ∨ (NGX_ALIGMENT ∣ mem ∧ mem + psize < WORD)

/-- The heap answers of one operation are all `MemOK`. -/
def Op.OK (psize : Nat) : Op → Prop
  | Op.palloc _ env => MemOK psize env.memalign
  | Op.pnalloc _ env => MemOK psize env.memalign
  | Op.pcalloc _ env => MemOK psize env.memalign
  | Op.cleanup_add _ env1 env2 => MemOK psize env1.memalign ∧ MemOK psize env2.memalign
  | Op.reset => True

/-- One registration of a cleanup: `ngx_pool_cleanup_add(p, size)` followed by
the caller's `c->handler = handler` on the returned entry. -/
structure Reg where
  size : Nat
  handler : Nat
  env1 : Env
  env2 : Env
deriving DecidableEq, Repr

/-- The entry at address `c` of a cleanup list. -/
def entry_at (c : Nat) (cs : List Cleanup) : Option Cleanup :=
  cs.find? (fun e => e.node = c)

/-- Performs one registration; `none` when `ngx_pool_cleanup_add` returns
`NULL`.  Returns the pool and the `(handler, data)` pair held by the entry. -/
def register (pool : Pool) (r : Reg) : Option (Pool × (Nat × Nat)) :=
  let a := ngx_pool_cleanup_add pool r.size r.env1 r.env2
  if a.1 = 0 then none
  else
    match entry_at a.1 a.2.1.cleanup with
    | none => none
    | some e =>
      some ({ a.2.1 with cleanup := set_handler a.1 r.handler a.2.1.cleanup }, (r.handler, e.data))

/-- Performs the registrations in order; returns the final pool and the
`(handler, data)` pairs in registration order. -/
def register_all : Pool → List Reg → Option (Pool × List (Nat × Nat))
  | pool, [] => some (pool, [])
  | pool, r :: rs =>
    match register pool r with
    | none => none
    | some (pool1, e) =>
      match register_all pool1 rs with
      | none => none
      | some (pool2, es) => some (pool2, e :: es)

/-- The handler calls among the events, as `(handler, data)` pairs in order. -/
def handler_calls : List Event → List (Nat × Nat)
  | [] => []
  | Event.handler h d :: es => (h, d) :: handler_calls es
  | Event.free _ :: es => handler_calls es
  | Event.forever :: es => handler_calls es
  | Event.undefined :: es => handler_calls es

/-- The addresses passed to `ngx_free` among the events, in order. -/
def freed : List Event → List Nat
  | [] => []
  | Event.handler _ _ :: es => freed es
  | Event.free a :: es => a :: freed es
  | Event.forever :: es => freed es
  | Event.undefined :: es => freed es

/-- The cells of a walk lie apart: no two of them share a byte (so none is
listed twice) and none is `unknown_cell`. -/
def Apart (cs : List Cleanup) : Prop :=
  cs.Pairwise
      (fun a b => ¬ overlaps a.node sizeof_ngx_pool_cleanup_t b.node sizeof_ngx_pool_cleanup_t) ∧
    ∀ c ∈ cs, c.node ≠ 0

instance (cs : List Cleanup) : Decidable (Apart cs) := by
  unfold Apart; infer_instance

/-- The cells of the cleanup list share no byte with each other nor with a
record that the pool itself keeps in memory: the `ngx_pool_large_t` records
of the large list and the headers of the blocks. -/
def Intact (pool : Pool) : Prop :=
  Apart pool.cleanup ∧
    ∀ c ∈ pool.cleanup,
      (∀ l ∈ pool.large,
        ¬ overlaps c.node sizeof_ngx_pool_cleanup_t l.node sizeof_ngx_pool_large_t) ∧
      (∀ ib ∈ pool.blocks.enum,
        ¬ overlaps c.node sizeof_ngx_pool_cleanup_t ib.2.addr (header_size ib.1))

instance (pool : Pool) : Decidable (Intact pool) := by
  unfold Intact; infer_instance

/-! ## The backing allocator wrappers (src/os/unix/ngx_alloc.c) -/

/-- The function `ngx_alloc(size, log)` (ngx_alloc.c:5): it returns what `malloc` returned. -/
def ngx_alloc (malloc_ret : Nat) : Nat := malloc_ret

/-- The function `ngx_memalign`, variant under `NGX_HAVE_POSIX_MEMALIGN` (ngx_alloc.c:86):
`err` is the status of `posix_memalign(&p, alignment, size)`, `out` the address
it stores in `p` when it succeeds, and `p0` the content of the local `p`
before the call, which was never assigned and which `posix_memalign` leaves as
it is when it fails (ngx_alloc.c:36-38).  The function returns `p` in both
cases. -/
def ngx_memalign_posix (err out p0 : Nat) : Nat :=
  if err = 0 then out else p0

/-- The function `ngx_memalign`, variant under `NGX_HAVE_MEMALIGN` (ngx_alloc.c:103): it
returns what `memalign` returned, `NULL` on failure. -/
def ngx_memalign_memalign (memalign_ret : Nat) : Nat := memalign_ret

end NgxPalloc

/-!
# The slab allocator (src/core/ngx_slab.c)

Pointers to `ngx_slab_page_t` structures are references into the three
places where such structures live: the sentinel `pool->free`, the slot array
after the pool header, and the page descriptor array `pool->pages`.  Addresses
of the arrays and of the data pages are natural numbers, as for the pool
allocator.  A loop that may fail to end is run with fuel, and an execution
that reads or writes outside these objects, or reaches the end of a function
that has to return a value, has the outcome `undefined`.
-/

namespace NgxSlab

open NgxPalloc (WORD ngx_align_ptr ptr_add ptr_diff)

/-- The macro `NGX_SLAB_PAGE` (ngx_slab.c:5). -/
def NGX_SLAB_PAGE : Nat := 0

/-- The macro `NGX_SLAB_BIG` (ngx_slab.c:6). -/
def NGX_SLAB_BIG : Nat := 1

/-- The macro `NGX_SLAB_PAGE_START` for 8-byte pointers (ngx_slab.c:17). -/
def NGX_SLAB_PAGE_START : Nat := 0x8000000000000000

/-- The macro `NGX_SLAB_MAP_SHIFT` for 8-byte pointers (ngx_slab.c:19). -/
def NGX_SLAB_MAP_SHIFT : Nat := 32

/-- Modelled from the spec: the platform globals `ngx_pagesize` and
`ngx_pagesize_shift` and the sizes of the three structure types of
`ngx_slab.h`, a header that is not among the sources.  They are parameters of
every slab operation. -/
structure Cfg where
  ngx_pagesize : Nat
  ngx_pagesize_shift : Nat
  sizeof_ngx_slab_pool_t : Nat
  sizeof_ngx_slab_page_t : Nat
  sizeof_ngx_slab_stat_t : Nat
deriving DecidableEq, Repr

/-- A pointer to an `ngx_slab_page_t`: `NULL`, `&pool->free`, `&slots[i]`,
`&pool->pages[i]`, or a pointer to none of these. -/
inductive PageRef where
  | null
  | free
  | slot (i : Nat)
  | page (i : Nat)
  | wild
deriving DecidableEq, Repr

/-- A `uintptr_t` that holds a pointer to an `ngx_slab_page_t` with a page type
in its low bits, as the field `prev` does. -/
structure UPtr where
  ref : PageRef
  bits : Nat
deriving DecidableEq, Repr

/-- Modelled from the spec: the declaration of `ngx_slab_page_t` in the missing
header `ngx_slab.h`; the fields are those `ngx_slab.c` reads and writes:
the word `slab`, the pointer `next` and the `uintptr_t` `prev`. -/
structure ngx_slab_page_t where
  slab : Nat
  next : PageRef
  prev : UPtr
deriving DecidableEq, Repr

/-- Modelled from the spec: the declaration of `ngx_slab_stat_t` in the missing
header `ngx_slab.h`; the counters are those `ngx_slab.c` updates. -/
structure ngx_slab_stat_t where
  total : Nat
  used : Nat
  reqs : Nat
deriving DecidableEq, Repr

/-- Modelled from the spec: the declaration of `ngx_slab_pool_t` in the missing
header `ngx_slab.h`; the fields are those `ngx_slab.c` uses.  `addr` is the
address of the structure, `slots`, `stats` and `pages` are the contents of the
three arrays, `stats_addr` and `pages_addr` the pointers `pool->stats` and
`pool->pages`, and `last` the index with `pool->last = pool->pages + last`. -/
structure ngx_slab_pool_t where
  addr : Nat
  min_size : Nat
  min_shift : Nat
  slots : List ngx_slab_page_t
  stats_addr : Nat
  stats : List ngx_slab_stat_t
  pages_addr : Nat
  pages : List ngx_slab_page_t
  last : Nat
  free : ngx_slab_page_t
  pfree : Nat
  start : Nat
  end_ : Nat
deriving DecidableEq, Repr

/-- The three static variables of ngx_slab.c:54-56. -/
structure Sizes where
  ngx_slab_max_size : Nat
  ngx_slab_exact_size : Nat
  ngx_slab_exact_shift : Nat
deriving DecidableEq, Repr

/-- What an unassigned local variable of `ngx_slab_alloc_locked` holds when it
is read: `slot` (assigned only when `size > pool->min_size`, ngx_slab.c:210)
and `p` (assigned only on the two paths that reach `goto done`). -/
structure Junk where
  slot : Nat
  p : Nat
deriving DecidableEq, Repr

/-- How a call ends: with a value, with undefined behaviour, or not within
the given fuel. -/
inductive Outcome (α : Type) where
  | done (a : α)
  | undefined
  | timeout
deriving DecidableEq, Repr

/-- The macro `ngx_slab_slots(pool)` (ngx_slab.c:25): the address after the pool header. -/
def ngx_slab_slots (cfg : Cfg) (addr : Nat) : Nat :=
  ptr_add addr cfg.sizeof_ngx_slab_pool_t

/-- Pointer arithmetic `page + k` on a pointer to an array element. -/
def PageRef.add : PageRef → Nat → PageRef
  | PageRef.slot i, k => PageRef.slot (i + k)
  | PageRef.page i, k => PageRef.page (i + k)
  | r, 0 => r
  | _, _ => PageRef.wild

/-- The cast `(ngx_slab_page_t *) u` of a `uintptr_t`. -/
def UPtr.cast (u : UPtr) : PageRef :=
  if u.bits = 0 then u.ref else PageRef.wild

/-- Reads the structure a pointer refers to; `none` outside the pool's objects. -/
def load (pool : ngx_slab_pool_t) : PageRef → Option ngx_slab_page_t
  | PageRef.free => some pool.free
  | PageRef.slot i => pool.slots[i]?
  | PageRef.page i => pool.pages[i]?
  | _ => none

/-- Writes the structure a pointer refers to; `none` outside the pool's objects. -/
def store (pool : ngx_slab_pool_t) (r : PageRef) (v : ngx_slab_page_t) :
    Option ngx_slab_pool_t :=
  match r with
  | PageRef.free => some { pool with free := v }
  | PageRef.slot i =>
    if i < pool.slots.length then some { pool with slots := pool.slots.set i v } else none
  | PageRef.page i =>
    if i < pool.pages.length then some { pool with pages := pool.pages.set i v } else none
  | _ => none

/-- The assignment `r->slab = x`. -/
def set_slab (pool : ngx_slab_pool_t) (r : PageRef) (x : Nat) : Option ngx_slab_pool_t :=
  (load pool r).bind (fun v => store pool r { v with slab := x })

/-- The assignment `r->next = x`. -/
def set_next (pool : ngx_slab_pool_t) (r x : PageRef) : Option ngx_slab_pool_t :=
  (load pool r).bind (fun v => store pool r { v with next := x })

/-- The assignment `r->prev = x`. -/
def set_prev (pool : ngx_slab_pool_t) (r : PageRef) (x : UPtr) : Option ngx_slab_pool_t :=
  (load pool r).bind (fun v => store pool r { v with prev := x })

/-- The macro `ngx_slab_page_addr(pool, page)` (ngx_slab.c:33):
`((page - pool->pages) << ngx_pagesize_shift) + (uintptr_t) pool->start`;
the difference is defined for pointers into the descriptor array only. -/
def ngx_slab_page_addr (cfg : Cfg) (pool : ngx_slab_pool_t) : PageRef → Option Nat
  | PageRef.page i => some (((i <<< cfg.ngx_pagesize_shift) % WORD + pool.start) % WORD)
  | _ => none

/-- The loop `for (n = ngx_slab_exact_size; n >>= 1; ngx_slab_exact_shift++)`
(ngx_slab.c:64); a 64-bit word is halved at most 64 times. -/
def exact_shift_loop : Nat → Nat → Nat → Nat
  | 0, _, shift => shift
  | fuel + 1, n, shift =>
    if n >>> 1 = 0 then shift else exact_shift_loop fuel (n >>> 1) ((shift + 1) % WORD)

/-- The function `ngx_slab_sizes_init()` (ngx_slab.c:59), with `sizeof(uintptr_t) = 8`. -/
def ngx_slab_sizes_init (cfg : Cfg) (g : Sizes) : Sizes :=
  { ngx_slab_max_size := cfg.ngx_pagesize / 2
    ngx_slab_exact_size := cfg.ngx_pagesize / (8 * 8)
    ngx_slab_exact_shift :=
      exact_shift_loop 64 (cfg.ngx_pagesize / (8 * 8)) g.ngx_slab_exact_shift }

/-- The number `n` of size classes of `ngx_slab_init`:
`ngx_pagesize_shift - pool->min_shift` on `ngx_uint_t` (ngx_slab.c:116). -/
def slab_classes (cfg : Cfg) (min_shift : Nat) : Nat :=
  (cfg.ngx_pagesize_shift + WORD - min_shift) % WORD

/-- The first value of `pages` in `ngx_slab_init` (ngx_slab.c:102, 152, 154): the bytes
from the slot array to `pool->end`, less the slot and stats arrays, divided by
the size of a page with its descriptor. -/
def slab_pages0 (cfg : Cfg) (addr end_ min_shift : Nat) : Nat :=
  ((ptr_diff end_ (ngx_slab_slots cfg addr) + WORD
      - (slab_classes cfg min_shift
          * (cfg.sizeof_ngx_slab_page_t + cfg.sizeof_ngx_slab_stat_t)) % WORD) % WORD)
    / (cfg.ngx_pagesize + cfg.sizeof_ngx_slab_page_t)

/-- The function `ngx_slab_init(pool)` (ngx_slab.c:70) for a pool header at `addr` whose
fields `end` and `min_shift` the caller has set.  `ngx_pagesize` is an
`ngx_uint_t`, so `(pool->end - pool->start) / ngx_pagesize` divides unsigned
words, and `m`, an `ngx_int_t`, is positive when the difference
`pages - ...` is a non-zero word below `2^63`. -/
def ngx_slab_init (cfg : Cfg) (addr end_ min_shift : Nat) : ngx_slab_pool_t :=
  let n := slab_classes cfg min_shift
  let slots := ngx_slab_slots cfg addr
  let stats := ptr_add slots (n * cfg.sizeof_ngx_slab_page_t)
  let p := ptr_add stats (n * cfg.sizeof_ngx_slab_stat_t)
  let pages0 := slab_pages0 cfg addr end_ min_shift
  let start := ngx_align_ptr (ptr_add p (pages0 * cfg.sizeof_ngx_slab_page_t)) cfg.ngx_pagesize
  let m := (pages0 + WORD - ptr_diff end_ start / cfg.ngx_pagesize) % WORD
  let pages := if 0 < m ∧ m < WORD / 2 then (pages0 + WORD - m) % WORD else pages0
  { addr := addr
    min_size := (1 <<< min_shift) % WORD
    min_shift := min_shift
    slots := (List.range n).map (fun i => ⟨0, PageRef.slot i, ⟨PageRef.null, 0⟩⟩)
    stats_addr := stats
    stats := List.replicate n ⟨0, 0, 0⟩
    pages_addr := p
    pages := (List.replicate pages0 ⟨0, PageRef.null, ⟨PageRef.null, 0⟩⟩).set 0
      ⟨pages, PageRef.free, ⟨PageRef.free, 0⟩⟩
    last := pages
    free := ⟨0, PageRef.page 0, ⟨PageRef.null, 0⟩⟩
    pfree := pages
    start := start
    end_ := end_ }

/-- The statements of the branch `page->slab > pages` of `ngx_slab_alloc_pages`
(ngx_slab.c:332-356), in order; `none` when one of them leaves the pool's objects. -/
def split_run (pool : ngx_slab_pool_t) (page : PageRef) (pages : Nat) :
    Option ngx_slab_pool_t := do
  let pg ← load pool page
  let s1 ← set_prev pool (page.add (pg.slab - 1)) ⟨page.add pages, 0⟩
  let pg1 ← load s1 page
  let s2 ← set_slab s1 (page.add pages) (pg1.slab - pages)
  let pg2 ← load s2 page
  let s3 ← set_next s2 (page.add pages) pg2.next
  let pg3 ← load s3 page
  let s4 ← set_prev s3 (page.add pages) pg3.prev
  let pg4 ← load s4 page
  let s5 ← set_next s4 pg4.prev.cast pg4.next
  let pg5 ← load s5 page
  set_prev s5 pg5.next pg5.prev

/-- The statements ngx_slab.c:361-369 that mark `page` as the start of an allocated
run of `pages` pages and count the pages out of `pool->pfree`. -/
def take_run (pool : ngx_slab_pool_t) (page : PageRef) (pages : Nat) :
    Option ngx_slab_pool_t := do
  let s1 ← set_slab pool page (pages ||| NGX_SLAB_PAGE_START)
  let s2 ← set_next s1 page PageRef.null
  let s3 ← set_prev s2 page ⟨PageRef.null, NGX_SLAB_PAGE⟩
  pure { s3 with pfree := (s3.pfree + WORD - pages) % WORD }

/-- The loop of `ngx_slab_alloc_pages` (ngx_slab.c:316-381) from the descriptor `page`
on.  When the walk comes back to `&pool->free` the function ends without a
return statement. -/
def ngx_slab_alloc_pages_loop :
    Nat → ngx_slab_pool_t → PageRef → Nat → Outcome (PageRef × ngx_slab_pool_t)
  | 0, _, _, _ => Outcome.timeout
  | fuel + 1, pool, page, pages =>
    if page = PageRef.free then Outcome.undefined
    else
      match load pool page with
      | none => Outcome.undefined
      | some pg =>
        if pages ≤ pg.slab then
          match (if pages < pg.slab then split_run pool page pages else some pool) with
          | none => Outcome.undefined
          | some s1 =>
            match take_run s1 page pages with
            | none => Outcome.undefined
            | some s2 =>
              if (pages + WORD - 1) % WORD = 0 then Outcome.done (page, s2)
              else
                match load s2 page with
                | none => Outcome.undefined
                | some pg2 =>
                  ngx_slab_alloc_pages_loop fuel s2 pg2.next ((pages + WORD - 1) % WORD)
        else ngx_slab_alloc_pages_loop fuel pool pg.next pages

/-- The function `ngx_slab_alloc_pages(pool, pages)` (ngx_slab.c:309). -/
def ngx_slab_alloc_pages (fuel : Nat) (pool : ngx_slab_pool_t) (pages : Nat) :
    Outcome (PageRef × ngx_slab_pool_t) :=
  ngx_slab_alloc_pages_loop fuel pool pool.free.next pages

/-- The loop `for (s = size - 1; s >> 1; shift++)` (ngx_slab.c:209): the condition
shifts a copy of `s`, and `s` itself is never changed. -/
def shift_loop : Nat → Nat → Nat → Option Nat
  | 0, _, _ => none
  | fuel + 1, s, shift =>
    if s >>> 1 ≠ 0 then shift_loop fuel s ((shift + 1) % WORD) else some shift

/-- The size class computation of `ngx_slab_alloc_locked` (ngx_slab.c:207-213): the values
of `shift` and `slot` after it; `none` when the loop does not end within the
fuel.  In the `else` branch `shift` gets `pool->min_size` and `slot` is left
unassigned. -/
def slab_class (fuel : Nat) (junk : Junk) (pool : ngx_slab_pool_t) (size : Nat) :
    Option (Nat × Nat) :=
  if pool.min_size < size then
    match shift_loop fuel ((size + WORD - 1) % WORD) 1 with
    | none => none
    | some shift => some (shift, (shift + WORD - pool.min_shift) % WORD)
  else some (pool.min_size, junk.slot)

/-- The loop `for (m = 1 << NGX_SLAB_MAP_SHIFT, i = 0; m & mask; m << 1, i++)`
(ngx_slab.c:246-268) on a page whose `slab` word is `slab`: `some (some i)` when the
body reaches `goto done` with chunk index `i`, `some none` when the condition
fails, `none` when the fuel runs out.  The expression `m << 1` changes
nothing, so `m` and the condition stay as they are while `i` counts. -/
def bitmap_loop : Nat → Nat → Nat → Nat → Nat → Option (Option Nat)
  | 0, _, _, _, _ => none
  | fuel + 1, m, mask, slab, i =>
    if m &&& mask ≠ 0 then
      if slab &&& m ≠ 0 then bitmap_loop fuel m mask slab ((i + 1) % WORD)
      else some (some i)
    else some none

/-- The statement `pool->stats[slot].reqs++` and its two siblings on `used` and
`total`; `none` when `slot` is outside the stats array. -/
def bump_stat (pool : ngx_slab_pool_t) (slot : Nat) (f : ngx_slab_stat_t → ngx_slab_stat_t) :
    Option ngx_slab_pool_t :=
  match pool.stats[slot]? with
  | none => none
  | some st => some { pool with stats := pool.stats.set slot (f st) }

/-- The part of `ngx_slab_alloc_locked` from `page = ngx_slab_alloc_pages(pool, 1)` on
(ngx_slab.c:272-305).  Only the branch `shift > ngx_slab_exact_shift` assigns `p`. -/
def alloc_new_page (cfg : Cfg) (g : Sizes) (fuel : Nat) (junk : Junk)
    (pool : ngx_slab_pool_t) (shift slot : Nat) : Outcome (Nat × ngx_slab_pool_t) :=
  match ngx_slab_alloc_pages fuel pool 1 with
  | Outcome.timeout => Outcome.timeout
  | Outcome.undefined => Outcome.undefined
  | Outcome.done (page, s1) =>
    if page = PageRef.null then Outcome.done (junk.p, s1)
    else if shift < g.ngx_slab_exact_shift then Outcome.done (junk.p, s1)
    else if shift = g.ngx_slab_exact_shift then Outcome.done (junk.p, s1)
    else
      match (do
        let s2 ← set_slab s1 page (((1 <<< NGX_SLAB_MAP_SHIFT) % WORD) ||| shift)
        let s3 ← set_next s2 page (PageRef.slot slot)
        let s4 ← set_prev s3 page ⟨PageRef.slot slot, NGX_SLAB_BIG⟩
        let s5 ← set_next s4 (PageRef.slot slot) page
        let s6 ← bump_stat s5 slot
          (fun st => { st with total := (st.total + (cfg.ngx_pagesize >>> shift)) % WORD })
        let p ← ngx_slab_page_addr cfg s6 page
        let s7 ← bump_stat s6 slot (fun st => { st with used := (st.used + 1) % WORD })
        pure (p, s7)) with
      | none => Outcome.undefined
      | some r => Outcome.done r

/-- The function `ngx_slab_alloc_locked(pool, size)` (ngx_slab.c:187). -/
def ngx_slab_alloc_locked (cfg : Cfg) (g : Sizes) (fuel : Nat) (junk : Junk)
    (pool : ngx_slab_pool_t) (size : Nat) : Outcome (Nat × ngx_slab_pool_t) :=
  match slab_class fuel junk pool size with
  | none => Outcome.timeout
  | some (shift, slot) =>
    match bump_stat pool slot (fun st => { st with reqs := (st.reqs + 1) % WORD }) with
    | none => Outcome.undefined
    | some s1 =>
      match s1.slots[slot]? with
      | none => Outcome.undefined
      | some head =>
        match load s1 head.next with
        | none => Outcome.undefined
        | some pg =>
          if pg.next ≠ head.next then
            if shift < g.ngx_slab_exact_shift then
              alloc_new_page cfg g fuel junk s1 shift slot
            else if shift = g.ngx_slab_exact_shift then
              alloc_new_page cfg g fuel junk s1 shift slot
            else
              let mask := ((1 <<< (cfg.ngx_pagesize >>> shift)) % WORD + WORD - 1) % WORD
              match bitmap_loop fuel ((1 <<< NGX_SLAB_MAP_SHIFT) % WORD) mask pg.slab 0 with
              | none => Outcome.timeout
              | some none => alloc_new_page cfg g fuel junk s1 shift slot
              | some (some i) =>
                match (do
                  let s2 ← set_slab s1 head.next
                    (pg.slab ||| ((1 <<< NGX_SLAB_MAP_SHIFT) % WORD))
                  let a ← ngx_slab_page_addr cfg s2 head.next
                  let s3 ← bump_stat s2 slot
                    (fun st => { st with used := (st.used + 1) % WORD })
                  pure ((a + (i <<< shift) % WORD) % WORD, s3)) with
                | none => Outcome.undefined
                | some r => Outcome.done r
          else alloc_new_page cfg g fuel junk s1 shift slot

/-- Runs `ngx_slab_alloc_locked` for each `(size, junk)` in order and collects the
returned pointers; stops with the outcome of the first call that does not
return. -/
def slab_run (cfg : Cfg) (g : Sizes) (fuel : Nat) :
    ngx_slab_pool_t → List (Nat × Junk) → Outcome (List Nat × ngx_slab_pool_t)
  | pool, [] => Outcome.done ([], pool)
  | pool, (size, junk) :: rest =>
    match ngx_slab_alloc_locked cfg g fuel junk pool size with
    | Outcome.timeout => Outcome.timeout
    | Outcome.undefined => Outcome.undefined
    | Outcome.done (p, s1) =>
      match slab_run cfg g fuel s1 rest with
      | Outcome.timeout => Outcome.timeout
      | Outcome.undefined => Outcome.undefined
      | Outcome.done (ps, s2) => Outcome.done (p :: ps, s2)

/-- The platform of the scenarios: 4096-byte pages and the LP64 sizes of the
structures of upstream `ngx_slab.h` (200, 24 and 32 bytes). -/
def cfg4096 : Cfg := ⟨4096, 12, 200, 24, 32⟩

/-- The static variables after one `ngx_slab_sizes_init` from the zeroed state,
4096-byte pages. -/
def sizes4096 : Sizes := ngx_slab_sizes_init cfg4096 ⟨0, 0, 0⟩

/-- A pool over the region `[1048576, 1118208)` with `min_shift = 3`: it
provides exactly 16 data pages of 4096 bytes, starting at 1052672. -/
def pool16 : ngx_slab_pool_t := ngx_slab_init cfg4096 1048576 1118208 3

/-- The value and final state of a call that returned. -/
def Outcome.value? {α : Type} : Outcome α → Option α
  | Outcome.done a => some a
  | _ => none

/-- The same region with `min_shift = 4` (16-byte smallest class); it also
provides 16 data pages starting at 1052672. -/
def pool16m4 : ngx_slab_pool_t := ngx_slab_init cfg4096 1048576 1118208 4

/-- A platform with 65536-byte pages and the same structure sizes. -/
def cfg65536 : Cfg := ⟨65536, 16, 200, 24, 32⟩

/-- The static variables after one `ngx_slab_sizes_init` from the zeroed state,
65536-byte pages. -/
def sizes65536 : Sizes := ngx_slab_sizes_init cfg65536 ⟨0, 0, 0⟩

/-- A pool over the region `[1048576, 2162688)` with 65536-byte pages and
`min_shift = 3`: 16 data pages starting at 1114112. -/
def pool64k : ngx_slab_pool_t := ngx_slab_init cfg65536 1048576 2162688 3

end NgxSlab

namespace NgxSlab

open NgxPalloc (WORD)

end NgxSlab

/-!
# The shared mutex (src/core/ngx_shmtx.c)

The functions are compiled with `NGX_HAVE_ATOMIC_OPS` and `NGX_HAVE_POSIX_SEM`.
Every access to the shared words `lock` and `wait` and every semaphore call
is one atomic action; a process is at a program point `PC` between two of
them.  A call runs alone when no other process acts between its actions
(`run_proc`).  A schedule interleaves the actions of several processes
(`exec`); the actions of one process in a schedule, each with the shared
memory before and after it, are its `view`, and `run_env` runs a call in the
memory states that the other processes leave it.
-/

namespace NgxShmtx

open NgxPalloc (WORD)

/-- The memory shared by the processes: the words `lock` and `wait` of
`ngx_shmtx_sh_t` and the value of the semaphore `sem`. -/
structure Shared where
  lock : Nat
  wait : Nat
  sem : Nat
deriving DecidableEq, Repr

/-- What is the same in every process: the fields `semaphore` and `spin` of
`ngx_shmtx_t` and the global `ngx_ncpu`. -/
structure Mtx where
  semaphore : Nat
  spin : Nat
  ngx_ncpu : Nat
deriving DecidableEq, Repr

/-- The four entry points a process may call. -/
inductive Call where
  | trylock
  | lock
  | unlock
  | force_unlock (pid : Nat)
deriving DecidableEq, Repr

/-- What is decided outside the code at a step: nothing (`tick`), which
function an idle process calls, or that `sem_wait` returns -1, with `errno`
equal to `NGX_EINTR` or not. -/
inductive Choice where
  | tick
  | call (c : Call)
  | sem_error (eintr : Bool)
deriving DecidableEq, Repr

/-- The program points of a process.  `done r` is the return of a call with
value `r` (0 for the `void` functions).  The points of `ngx_shmtx_wakeup`
carry the value its caller returns afterwards, and `wake_cas` the local
`wait` read at line 253. -/
inductive PC where
  | idle
  | done (r : Nat)
  | try_read
  | try_cas
  | lock_read
  | lock_cas
  | lock_ncpu
  | spin_test (n : Nat)
  | spin_pause (n i : Nat)
  | spin_read (n : Nat)
  | spin_cas (n : Nat)
  | sem_test
  | wait_inc
  | recheck_read
  | recheck_cas
  | wait_dec
  | sem_wait
  | yield
  | unlock_cas
  | force_cas (pid : Nat)
  | wake_test (r : Nat)
  | wake_read (r : Nat)
  | wake_cas (r w : Nat)
  | wake_post (r : Nat)
deriving DecidableEq, Repr

/-- What a step does to the ownership of the lock: the process `p` set the
lock word from 0 to its pid, or the lock word was set from `p` to 0. -/
inductive Ev where
  | acquire (p : Nat)
  | release (p : Nat)
deriving DecidableEq, Repr

/-- The first program point of a call. -/
def entry : Call → PC
  | Call.trylock => PC.try_read
  | Call.lock => PC.lock_read
  | Call.unlock => PC.unlock_cas
  | Call.force_unlock pid => PC.force_cas pid

/-- The test `(ngx_atomic_int_t) wait <= 0` (ngx_shmtx.c:255) on a 64-bit word. -/
def signed_le_zero (w : Nat) : Bool := w = 0 || WORD / 2 ≤ w

/-- One atomic action of the process with `ngx_pid = p` at program point `pc`:
the next program point, the shared memory after it, and the change of
ownership if there is one.  `none` when the process cannot move: it is
blocked in `sem_wait`, or the choice does not fit the program point.

* `try_read`, `try_cas`: the two operands of ngx_shmtx.c:95.
* `lock_read` to `yield`: the body of the `for (;;)` of `ngx_shmtx_lock`,
  ngx_shmtx.c:106-184; after `wait_dec` (line 158) the control goes on to `sem_wait`.
* `unlock_cas`, `force_cas`: ngx_shmtx.c:198 and 221.
* `wake_test` to `wake_post`: `ngx_shmtx_wakeup`, ngx_shmtx.c:234-288. -/
def step_proc (m : Mtx) (p : Nat) (ch : Choice) (pc : PC) (sh : Shared) :
    Option (PC × Shared × Option Ev) :=
  match pc, ch with
  | PC.idle, Choice.call c => some (entry c, sh, none)
  | PC.done _, Choice.call c => some (entry c, sh, none)
  | PC.try_read, Choice.tick =>
    if sh.lock = 0 then some (PC.try_cas, sh, none) else some (PC.done 0, sh, none)
  | PC.try_cas, Choice.tick =>
    if sh.lock = 0 then some (PC.done 1, { sh with lock := p }, some (Ev.acquire p))
    else some (PC.done 0, sh, none)
  | PC.lock_read, Choice.tick =>
    if sh.lock = 0 then some (PC.lock_cas, sh, none) else some (PC.lock_ncpu, sh, none)
  | PC.lock_cas, Choice.tick =>
    if sh.lock = 0 then some (PC.done 0, { sh with lock := p }, some (Ev.acquire p))
    else some (PC.lock_ncpu, sh, none)
  | PC.lock_ncpu, Choice.tick =>
    if 1 < m.ngx_ncpu then some (PC.spin_test 1, sh, none) else some (PC.sem_test, sh, none)
  | PC.spin_test n, Choice.tick =>
    if n < m.spin then some (PC.spin_pause n 0, sh, none) else some (PC.sem_test, sh, none)
  | PC.spin_pause n i, Choice.tick =>
    if i < n then some (PC.spin_pause n ((i + 1) % WORD), sh, none)
    else some (PC.spin_read n, sh, none)
  | PC.spin_read n, Choice.tick =>
    if sh.lock = 0 then some (PC.spin_cas n, sh, none)
    else some (PC.spin_test ((n <<< 1) % WORD), sh, none)
  | PC.spin_cas n, Choice.tick =>
    if sh.lock = 0 then some (PC.done 0, { sh with lock := p }, some (Ev.acquire p))
    else some (PC.spin_test ((n <<< 1) % WORD), sh, none)
  | PC.sem_test, Choice.tick =>
    if m.semaphore ≠ 0 then some (PC.wait_inc, sh, none) else some (PC.yield, sh, none)
  | PC.wait_inc, Choice.tick =>
    some (PC.recheck_read, { sh with wait := (sh.wait + 1) % WORD }, none)
  | PC.recheck_read, Choice.tick =>
    if sh.lock = 0 then some (PC.recheck_cas, sh, none) else some (PC.sem_wait, sh, none)
  | PC.recheck_cas, Choice.tick =>
    if sh.lock = 0 then some (PC.wait_dec, { sh with lock := p }, some (Ev.acquire p))
    else some (PC.sem_wait, sh, none)
  | PC.wait_dec, Choice.tick =>
    some (PC.sem_wait, { sh with wait := (sh.wait + WORD - 1) % WORD }, none)
  | PC.sem_wait, Choice.tick =>
    if 0 < sh.sem then some (PC.lock_read, { sh with sem := sh.sem - 1 }, none) else none
  | PC.sem_wait, Choice.sem_error eintr =>
    if eintr then some (PC.sem_wait, sh, none) else some (PC.lock_read, sh, none)
  | PC.yield, Choice.tick => some (PC.lock_read, sh, none)
  | PC.unlock_cas, Choice.tick =>
    if sh.lock = p then some (PC.wake_test 0, { sh with lock := 0 }, some (Ev.release p))
    else some (PC.done 0, sh, none)
  | PC.force_cas pid, Choice.tick =>
    if sh.lock = pid then some (PC.wake_test 1, { sh with lock := 0 }, some (Ev.release pid))
    else some (PC.done 0, sh, none)
  | PC.wake_test r, Choice.tick =>
    if m.semaphore = 0 then some (PC.done r, sh, none) else some (PC.wake_read r, sh, none)
  | PC.wake_read r, Choice.tick =>
    if signed_le_zero sh.wait then some (PC.done r, sh, none)
    else some (PC.wake_cas r sh.wait, sh, none)
  | PC.wake_cas r w, Choice.tick =>
    if sh.wait = w then
      some (PC.wake_post r, { sh with wait := (w + WORD - 1) % WORD }, none)
    else some (PC.wake_read r, sh, none)
  | PC.wake_post r, Choice.tick =>
    some (PC.done r, { sh with sem := sh.sem + 1 }, none)
  | _, _ => none

/-- A call running alone: at most `fuel` actions of process `p` with no choice
from outside, up to its return or to the point where it is blocked. -/
def run_proc (m : Mtx) (p : Nat) : Nat → PC × Shared → PC × Shared
  | 0, s => s
  | fuel + 1, (pc, sh) =>
    match step_proc m p Choice.tick pc sh with
    | none => (pc, sh)
    | some (pc1, sh1, _) => run_proc m p fuel (pc1, sh1)

/-- The processes and the shared memory: the program point of every pid and
the history of the changes of ownership, oldest first. -/
structure State where
  sh : Shared
  pcs : Nat → PC
  hist : List Ev

/-- All processes idle, `lock = 0`, `wait = 0`, semaphore at 0 (as after
`sem_init(&mtx->sem, 1, 0)`). -/
def init : State := ⟨⟨0, 0, 0⟩, fun _ => PC.idle, []⟩

/-- One step of the system: the process `a.1` performs its next action. -/
def exec1 (m : Mtx) (st : State) (a : Nat × Choice) : Option State :=
  match step_proc m a.1 a.2 (st.pcs a.1) st.sh with
  | none => none
  | some (pc1, sh1, ev) =>
    some { sh := sh1
           pcs := fun q => if q = a.1 then pc1 else st.pcs q
           hist := st.hist ++ ev.toList }

/-- The steps of a schedule, in order; `none` when a scheduled process cannot move. -/
def exec (m : Mtx) : State → List (Nat × Choice) → Option State
  | st, [] => some st
  | st, a :: rest =>
    match exec1 m st a with
    | none => none
    | some st1 => exec m st1 rest

/-- The owner of the lock after one more change of ownership, `h` being the
owner before (0 for none). -/
def own (h : Nat) : Ev → Nat
  | Ev.acquire p => p
  | Ev.release p => if p = h then 0 else h

/-- The process that acquired the lock and has not released it, according to
a history; 0 when there is none. -/
def holder (hist : List Ev) : Nat := hist.foldl own 0

/-- What `ngx_shmtx_wakeup` leaves in the shared memory when it runs alone:
nothing changes without the semaphore or with a waiter count that is not
positive, and otherwise there is one waiter less and one `sem_post` more. -/
def woken (m : Mtx) (sh : Shared) : Shared :=
  if m.semaphore = 0 ∨ signed_le_zero sh.wait = true then sh
  else { sh with wait := (sh.wait + WORD - 1) % WORD, sem := sh.sem + 1 }

/-- The cast `(ngx_atomic_int_t) w` of a 64-bit word. -/
def as_signed (w : Nat) : Int := if w < WORD / 2 then (w : Int) else (w : Int) - (WORD : Int)

/-- A schedule of two processes: process 1 takes the free mutex with
`ngx_shmtx_lock`; process 2 calls `ngx_shmtx_lock`, finds the mutex held and
increments the waiter count; process 1 runs `ngx_shmtx_unlock` to its end,
waking the one counted waiter; process 2 then makes its re-check, which
succeeds, and decrements the waiter count. -/
def recheck_race : List (Nat × Choice) :=
  [(1, Choice.call Call.lock), (1, Choice.tick), (1, Choice.tick),
   (2, Choice.call Call.lock), (2, Choice.tick), (2, Choice.tick), (2, Choice.tick),
   (2, Choice.tick),
   (1, Choice.call Call.unlock), (1, Choice.tick), (1, Choice.tick), (1, Choice.tick),
   (1, Choice.tick), (1, Choice.tick),
   (2, Choice.tick), (2, Choice.tick), (2, Choice.tick)]

/-- A schedule of three processes: process 1 takes the free mutex with
`ngx_shmtx_lock`, process 3 clears it with `ngx_shmtx_force_unlock(mtx, 1)`
(no semaphore in use, so one more action ends the call), and process 2 takes
it with `ngx_shmtx_trylock`. -/
def handover : List (Nat × Choice) :=
  [(1, Choice.call Call.lock), (1, Choice.tick), (1, Choice.tick),
   (3, Choice.call (Call.force_unlock 1)), (3, Choice.tick), (3, Choice.tick),
   (2, Choice.call Call.trylock), (2, Choice.tick), (2, Choice.tick)]

/-- The program points of the spin phase, ngx_shmtx.c:113-142. -/
def in_spin : PC → Bool
  | PC.spin_test _ => true
  | PC.spin_pause _ _ => true
  | PC.spin_read _ => true
  | PC.spin_cas _ => true
  | _ => false

end NgxShmtx

namespace NgxSlab

/-- The run heads met on the walk from the descriptor `r` along `next` up to
the sentinel `&pool->free`, each with its `slab` field; `none` when the walk
leaves the pool's objects or does not come back to the sentinel within the
fuel.  With `r = pool->free.next` these are the runs "reachable from
`pool->free.next` up to the sentinel". -/
def free_runs : Nat → ngx_slab_pool_t → PageRef → Option (List (PageRef × Nat))
  | 0, _, _ => none
  | fuel + 1, pool, r =>
    if r = PageRef.free then some []
    else
      match load pool r with
      | none => none
      | some pg => (free_runs fuel pool pg.next).map (fun l => (r, pg.slab) :: l)

/-- A pool over the region `[1048576, 1056768)` with `min_shift = 3`: it
provides exactly one data page of 4096 bytes, at 1052672. -/
def pool1 : ngx_slab_pool_t := ngx_slab_init cfg4096 1048576 1056768 3

end NgxSlab

/-!
# The dynamic array (src/core/ngx_array.c, src/core/ngx_array.h)

An `ngx_array_t` lives in a pool of `NgxPalloc`.  The contents of the elements
are not part of the state: a call reports the `ngx_memcpy` it performs.
-/

namespace NgxArray

open NgxPalloc

/-- Size of `ngx_array_t` (ngx_array.h:9-15): three pointers and two words. -/
def sizeof_ngx_array_t : Nat := 40

/-- The status `NGX_ERROR` (ngx_core.h:16). -/
def NGX_ERROR : Int := -1

/-- The structure `ngx_array_t` (ngx_array.h:9); `pool` is the address of the pool. -/
structure ngx_array_t where
  elts : Nat
  nelts : Nat
  size : Nat
  nalloc : Nat
  pool : Nat
deriving DecidableEq, Repr

/-- The assignment `p->d.last = v` on the pool `p` itself, the first block of
its chain. -/
def set_d_last (p : Pool) (v : Nat) : Pool :=
  match p.blocks with
  | [] => p
  | b :: bs => { p with blocks := { b with last := v } :: bs }

/-- The inline function `ngx_array_init(array, pool, n, size)` (ngx_array.h:24):
status, the array, the pool, and the addresses passed to `ngx_free`. -/
def ngx_array_init (pool : Pool) (n size : Nat) (env : Env) :
    Int × ngx_array_t × Pool × List Nat :=
  let r := ngx_palloc pool ((n * size) % WORD) env
  (if r.1 = 0 then NGX_ERROR else NGX_OK,
   { elts := r.1, nelts := 0, size := size, nalloc := n, pool := pool.d.addr },
   r.2.1, r.2.2)

/-- The function `ngx_array_create(p, n, size)` (ngx_array.c:5): the address of the
array structure with its content (`none` for `NULL`), the pool, and the
addresses passed to `ngx_free`; `env1` and `env2` serve the two `ngx_palloc`
calls. -/
def ngx_array_create (p : Pool) (n size : Nat) (env1 env2 : Env) :
    Option (Nat × ngx_array_t) × Pool × List Nat :=
  let r := ngx_palloc p sizeof_ngx_array_t env1
  if r.1 = 0 then (none, r.2.1, r.2.2)
  else
    let i := ngx_array_init r.2.1 n size env2
    if i.1 ≠ NGX_OK then (none, i.2.2.1, r.2.2 ++ i.2.2.2)
    else (some (r.1, i.2.1), i.2.2.1, r.2.2 ++ i.2.2.2)

/-- The function `ngx_array_destroy(a)` (ngx_array.c:33) on the array structure at
address `a` with content `arr`; `p` is the pool `a->pool` points to. -/
def ngx_array_destroy (a : Nat) (arr : ngx_array_t) (p : Pool) : Pool :=
  let sz := (arr.size * arr.nalloc) % WORD
  let p1 := if ptr_add arr.elts sz = p.d.last
    then set_d_last p ((p.d.last + WORD - sz) % WORD) else p
  if ptr_add a sizeof_ngx_array_t = p1.d.last then set_d_last p1 a else p1

/-- What a push leaves: the returned pointer (`0` for `NULL`), the array, the
pool, the addresses passed to `ngx_free`, and the `ngx_memcpy(dst, src, n)` it
performed, if any. -/
structure Pushed where
  elt : Nat
  a : ngx_array_t
  pool : Pool
  freed : List Nat
  copy : Option (Nat × Nat × Nat)
deriving DecidableEq, Repr

/-- The function `ngx_array_push(a)` (ngx_array.c:74); `p` is the pool `a->pool` points
to.  The statement `a->nelts;` on line 138 is an expression without effect. -/
def ngx_array_push (a : ngx_array_t) (p : Pool) (env : Env) : Pushed :=
  if a.nelts = a.nalloc then
    let size := (a.size * a.nalloc) % WORD
    if ptr_add a.elts size = p.d.last ∧ ptr_add p.d.last a.size ≤ p.d.end_ then
      let a1 := { a with nalloc := (a.nalloc + 1) % WORD }
      { elt := ptr_add a1.elts ((a1.size * a1.nelts) % WORD)
        a := a1
        pool := set_d_last p (ptr_add p.d.last a.size)
        freed := []
        copy := none }
    else
      let r := ngx_palloc p ((2 * size) % WORD) env
      if r.1 = 0 then { elt := 0, a := a, pool := r.2.1, freed := r.2.2, copy := none }
      else
        let a1 := { a with elts := r.1, nalloc := (a.nalloc * 2) % WORD }
        { elt := ptr_add a1.elts ((a1.size * a1.nelts) % WORD)
          a := a1
          pool := r.2.1
          freed := r.2.2
          copy := some (r.1, a.elts, size) }
  else
    { elt := ptr_add a.elts ((a.size * a.nelts) % WORD)
      a := a
      pool := p
      freed := []
      copy := none }

/-- The function `ngx_array_push_n(a, n)` (ngx_array.c:143).  The local `p` is never
assigned: `p0` is what it holds when line 158 reads `p->d.last`.  When `p0`
is the address of the array's pool, `pool` is what it points to; any other
content makes the read undefined. -/
def ngx_array_push_n (a : ngx_array_t) (p0 : Nat) (pool : Pool) (n : Nat) (env : Env) :
    NgxSlab.Outcome Pushed :=
  let size := (n * a.size) % WORD
  if a.nalloc < (a.nelts + n) % WORD then
    if p0 ≠ a.pool then NgxSlab.Outcome.undefined
    else if ptr_add a.elts size = pool.d.last ∧ ptr_add pool.d.last a.size ≤ pool.d.end_ then
      let a1 := { a with nalloc := (a.nalloc + n) % WORD }
      NgxSlab.Outcome.done
        { elt := ptr_add a1.elts ((a1.size * a1.nelts) % WORD)
          a := { a1 with nelts := (a1.nelts + n) % WORD }
          pool := set_d_last pool (ptr_add pool.d.last size)
          freed := []
          copy := none }
    else
      let nalloc := (2 * (if a.nalloc ≤ n then n else a.nalloc)) % WORD
      let r := ngx_palloc pool ((nalloc * a.size) % WORD) env
      if r.1 = 0 then
        NgxSlab.Outcome.done { elt := 0, a := a, pool := r.2.1, freed := r.2.2, copy := none }
      else
        let a1 := { a with elts := r.1, nalloc := nalloc }
        NgxSlab.Outcome.done
          { elt := ptr_add a1.elts ((a1.size * a1.nelts) % WORD)
            a := { a1 with nelts := (a1.nelts + n) % WORD }
            pool := r.2.1
            freed := r.2.2
            copy := some (r.1, a.elts, (a.nelts * a.size) % WORD) }
  else
    NgxSlab.Outcome.done
      { elt := ptr_add a.elts ((a.size * a.nelts) % WORD)
        a := { a with nelts := (a.nelts + n) % WORD }
        pool := pool
        freed := []
        copy := none }

/-- A pool of 4096 bytes at address 8192, as `ngx_create_pool(4096, log)` leaves
it (4096-byte pages): cursor 8272, end 12288, `max = 4016`. -/
def pool4096 : Pool := Pool.mk [⟨8192, 8272, 12288, 0⟩] 4016 0 [] []

/-- A pool of 144 bytes at address 8192, as `ngx_create_pool(144, log)` leaves it:
cursor 8272, end 8336, `max = 64`. -/
def pool144 : Pool := Pool.mk [⟨8192, 8272, 8336, 0⟩] 64 0 [] []

end NgxArray

/-!
# Number formatting (src/core/ngx_string.c)

The function `ngx_sprintf_num` writes into a caller's buffer.  A call returns
the pointer it returns in C together with the bytes it wrote, in order, from
the `buf` it was given.
-/

namespace NgxString

open NgxPalloc (WORD ptr_add ptr_diff)

/-- The macro `NGX_INT64_LEN`, `sizeof("-9223372036854775808") - 1` (ngx_config.h:51). -/
def NGX_INT64_LEN : Nat := 20

/-- The table `hex[] = "0123456789abcdef"` (ngx_string.c:472). -/
def hex : List Nat := [48, 49, 50, 51, 52, 53, 54, 55, 56, 57, 97, 98, 99, 100, 101, 102]

/-- The table `HEX[] = "0123456789ABCDEF"` (ngx_string.c:473). -/
def HEX : List Nat := [48, 49, 50, 51, 52, 53, 54, 55, 56, 57, 65, 66, 67, 68, 69, 70]

/-- The macro `NGX_MAX_UINT32_VALUE`, `(uint32_t) 0xffffffff` (ngx_config.h:90). -/
def NGX_MAX_UINT32_VALUE : Nat := 4294967295

/-- The loop `do { *--p = (u_char) (v % 10 + '0'); } while (v /= 10);`
(ngx_string.c:496 and 500).  `room` is the number of bytes of `temp` below `p`,
`acc` the bytes from `p` to `temp + NGX_INT64_LEN`; `none` when a byte would be
written below `temp`. -/
def dec_loop : Nat → Nat → List Nat → Option (List Nat)
  | 0, _, _ => none
  | room + 1, v, acc =>
    if v / 10 ≠ 0 then dec_loop room (v / 10) (((v % 10 + 48) % 256) :: acc)
    else some (((v % 10 + 48) % 256) :: acc)

/-- The loop `do { *--p = table[(uint32_t) (ui64 & 0xf)]; } while (ui64 >>= 4);`
(ngx_string.c:505 and 510). -/
def hex_loop (table : List Nat) : Nat → Nat → List Nat → Option (List Nat)
  | 0, _, _ => none
  | room + 1, v, acc =>
    if v >>> 4 ≠ 0 then hex_loop table room (v >>> 4) (table.getD ((v &&& 15) % 2 ^ 32) 0 :: acc)
    else some (table.getD ((v &&& 15) % 2 ^ 32) 0 :: acc)

/-- The loop `while (len++ < width && buf < last) { *buf++ = zero; }`
(ngx_string.c:518): the pointer `buf` after it and the bytes written; `none`
when it does not end within the fuel. -/
def pad_loop : Nat → Nat → Nat → Nat → Nat → Nat → Option (Nat × List Nat)
  | 0, _, _, _, _, _ => none
  | fuel + 1, len, width, buf, last, zero_ =>
    if len < width ∧ buf < last then
      (pad_loop fuel ((len + 1) % WORD) width (ptr_add buf 1) last zero_).map
        (fun r => (r.1, zero_ :: r.2))
    else some (buf, [])

/-- The function `ngx_sprintf_num(buf, last, ui64, zero, hexadecimal, width)`
(ngx_string.c:464).  `max32` stands for the macro `NGX_MAX_UINT32_VALUE`, which
ngx_config.h:90 defines as `(uint32_t) 0xffffffff` (the constant
`NGX_MAX_UINT32_VALUE` above); `zero_` is the parameter `zero`.  Returns the
pointer the function returns and the bytes written from `buf` on. -/
def ngx_sprintf_num (max32 fuel buf last ui64 zero_ hexadecimal width : Nat) :
    Option (Nat × List Nat) :=
  match (if hexadecimal = 0 then
      (if ui64 ≤ max32 then dec_loop NGX_INT64_LEN (ui64 % 2 ^ 32) []
       else dec_loop NGX_INT64_LEN ui64 [])
    else if hexadecimal = 1 then hex_loop hex NGX_INT64_LEN ui64 []
    else hex_loop HEX NGX_INT64_LEN ui64 []) with
  | none => none
  | some digits =>
    match pad_loop fuel digits.length width buf last zero_ with
    | none => none
    | some (buf1, pads) =>
      let len := if last < ptr_add buf1 digits.length then ptr_diff last buf1
        else digits.length
      some (ptr_add buf1 len, pads ++ digits.take len)

/-- The decimal representation of `v` as ASCII bytes, most significant digit
first, without leading zeros, and the single digit `0` for zero (the digits
are those of Mathlib's `Nat.digits 10`).  This is the reference the output of
`ngx_sprintf_num` is compared with; it is not part of the code. -/
def decimal (v : Nat) : List Nat :=
  if v = 0 then [48] else (Nat.digits 10 v).reverse.map (fun x => x + 48)

/-- Reads ASCII digits, most significant first, back as a decimal number. -/
def read_decimal (ds : List Nat) : Nat := ds.foldl (fun acc c => 10 * acc + (c - 48)) 0

end NgxString

namespace NgxPalloc

/-- A pool of 4096 bytes at 8192 that tracks five large allocations, the
entries in list order at 8272, 8288, 8304, 8320 and 8336; the first four hold
live addresses and the fifth was released by `ngx_pfree`. -/
def pool_large5 : Pool :=
  Pool.mk [⟨8192, 8352, 12288, 0⟩] 4016 0
    [⟨8272, 20000⟩, ⟨8288, 24000⟩, ⟨8304, 28000⟩, ⟨8320, 32000⟩, ⟨8336, 0⟩] []

/-- A pool of 4096 bytes at 8192 that tracks two large allocations: the first
entry is live, the second was released by `ngx_pfree`. -/
def pool_large2 : Pool :=
  Pool.mk [⟨8192, 8304, 12288, 0⟩] 4016 0 [⟨8272, 20000⟩, ⟨8288, 0⟩] []

end NgxPalloc

namespace NgxShmtx

open NgxPalloc (WORD)

/-- A call under interference.  The process `p` takes its next actions from
the program point `pc`; it finds the shared memory `shs[k]` at its k-th
action, which is whatever the other processes have made of the memory by
then.  The result is the program point reached and, for each action taken,
the shared memory before and after it.  The run ends with the list, or
where the process cannot move (it has returned, or it is blocked in
`sem_wait`). -/
def run_env (m : Mtx) (p : Nat) : PC → List Shared → PC × List (Shared × Shared)
  | pc, [] => (pc, [])
  | pc, sh :: rest =>
    match step_proc m p Choice.tick pc sh with
    | none => (pc, [])
    | some (pc1, sh1, _) =>
      ((run_env m p pc1 rest).1, (sh, sh1) :: (run_env m p pc1 rest).2)

/-- The actions of the process `p` in a schedule: for each of them, in order,
the shared memory before and after it.  The actions of the other processes
lie between them. -/
def view (m : Mtx) (p : Nat) : State → List (Nat × Choice) → List (Shared × Shared)
  | _, [] => []
  | st, a :: rest =>
    match exec1 m st a with
    | none => []
    | some st1 =>
      if a.1 = p then (st.sh, st1.sh) :: view m p st1 rest else view m p st1 rest

/-- An action that changed the waiter count. -/
def dec_step (e : Shared × Shared) : Bool := decide (e.2.wait ≠ e.1.wait)

/-- An action that changed the value of the semaphore. -/
def post_step (e : Shared × Shared) : Bool := decide (e.2.sem ≠ e.1.sem)

/-- How many of the actions changed the waiter count. -/
def decs (v : List (Shared × Shared)) : Nat := (v.filter dec_step).length

/-- How many of the actions changed the value of the semaphore. -/
def posts (v : List (Shared × Shared)) : Nat := (v.filter post_step).length

/-- What an action of `ngx_shmtx_wakeup` may do: it never touches the lock
word; if it changes the waiter count, the count was positive as a signed
integer and is one less afterwards, the semaphore being left alone; if it
changes the semaphore, that is one `sem_post`, the count being left alone. -/
def wake_step (e : Shared × Shared) : Prop :=
  e.2.lock = e.1.lock ∧
  (dec_step e = true →
    signed_le_zero e.1.wait = false ∧ e.2.wait + 1 = e.1.wait ∧ e.2.sem = e.1.sem) ∧
  (post_step e = true → e.2.sem = e.1.sem + 1 ∧ e.2.wait = e.1.wait)

/-- The program points of `ngx_shmtx_wakeup` before the decrement of the
waiter count, for a caller that returns `r`: the test of `mtx->semaphore`
and, with the semaphore in use, the read of the count and the
compare-and-set, which holds a value that was read as positive at line 253. -/
def wake_pc (m : Mtx) (r : Nat) (pc : PC) : Prop :=
  pc = PC.wake_test r ∨
    (m.semaphore ≠ 0 ∧
      (pc = PC.wake_read r ∨ ∃ w, pc = PC.wake_cas r w ∧ signed_le_zero w = false))

/-- A state in which the process `p` is at the program point `pc` and every
other process is idle. -/
def at_pc (p : Nat) (pc : PC) (sh : Shared) : State :=
  ⟨sh, fun q => if q = p then pc else PC.idle, []⟩

/-- A schedule of two processes on a free mutex: process 2 calls
`ngx_shmtx_trylock` and reads the lock word, which is 0; process 1 calls
`ngx_shmtx_trylock` and takes the mutex; process 2 then makes its
compare-and-set, which fails. -/
def trylock_race : List (Nat × Choice) :=
  [(2, Choice.call Call.trylock), (2, Choice.tick),
   (1, Choice.call Call.trylock), (1, Choice.tick), (1, Choice.tick),
   (2, Choice.tick)]

/-- The first part of `unlock_race`: process 1 takes the free mutex with
`ngx_shmtx_lock`; process 2 calls `ngx_shmtx_lock`, finds the mutex held and
increments the waiter count (one processor, so no spinning). -/
def one_waiter : List (Nat × Choice) :=
  [(1, Choice.call Call.lock), (1, Choice.tick), (1, Choice.tick),
   (2, Choice.call Call.lock), (2, Choice.tick), (2, Choice.tick), (2, Choice.tick),
   (2, Choice.tick)]

/-- The call `c` of process `q` that releases the mutex, raced by the waiter:
`q` calls and clears the lock word; process 2 makes its re-check, which
succeeds, and decrements the waiter count; `q` then tests the semaphore
field and reads the waiter count, which is 0. -/
def release_race (q : Nat) (c : Call) : List (Nat × Choice) :=
  [(q, Choice.call c), (q, Choice.tick),
   (2, Choice.tick), (2, Choice.tick), (2, Choice.tick),
   (q, Choice.tick), (q, Choice.tick)]

/-- A schedule of three processes: process 1 takes the free mutex with
`ngx_shmtx_trylock`; the `ngx_shmtx_trylock` of process 2 fails; process 1
runs `ngx_shmtx_unlock` to its end; process 3 takes the mutex with
`ngx_shmtx_trylock`; process 2 then makes its next `ngx_shmtx_trylock`. -/
def trylock_third : List (Nat × Choice) :=
  [(1, Choice.call Call.trylock), (1, Choice.tick), (1, Choice.tick),
   (2, Choice.call Call.trylock), (2, Choice.tick),
   (1, Choice.call Call.unlock), (1, Choice.tick), (1, Choice.tick), (1, Choice.tick),
   (3, Choice.call Call.trylock), (3, Choice.tick), (3, Choice.tick),
   (2, Choice.call Call.trylock), (2, Choice.tick)]

/-- A schedule of three processes: process 1 holds the mutex; process 3 calls
`ngx_shmtx_force_unlock(mtx, 1)`; before its compare-and-set process 1 runs
`ngx_shmtx_unlock` to its end; the compare-and-set of process 3 then fails. -/
def force_unlock_late : List (Nat × Choice) :=
  [(1, Choice.call Call.lock), (1, Choice.tick), (1, Choice.tick),
   (3, Choice.call (Call.force_unlock 1)),
   (1, Choice.call Call.unlock), (1, Choice.tick), (1, Choice.tick), (1, Choice.tick),
   (3, Choice.tick)]

end NgxShmtx

namespace NgxPalloc


/-! ## Facts about the macros -/

theorem mask_testBit (i : Nat) :
    (18446744073709551608 : Nat).testBit i = (decide (3 ≤ i) && decide (i < 64)) := by
  have h : (18446744073709551608 : Nat) = 2 ^ 3 * (2 ^ 61 - 1) := by norm_num
  rw [h, Nat.testBit_mul_pow_two, Nat.testBit_two_pow_sub_one]
  by_cases h3 : 3 ≤ i
  · by_cases h64 : i < 64
    · have : i - 3 < 61 := by omega
      simp [h3, h64, this]
    · have : ¬ (i - 3 < 61) := by omega
      simp [h3, h64, this]
  · simp [h3]

theorem land_mask (y : Nat) (hy : y < 18446744073709551616) :
    y &&& 18446744073709551608 = 8 * (y / 8) := by
  apply Nat.eq_of_testBit_eq
  intro i
  rw [Nat.testBit_and, mask_testBit]
  have h8 : (8 : Nat) = 2 ^ 3 := by norm_num
  rw [h8, Nat.testBit_mul_pow_two, ← Nat.shiftRight_eq_div_pow, Nat.testBit_shiftRight]
  by_cases h3 : 3 ≤ i
  · by_cases h64 : i < 64
    · have : 3 + (i - 3) = i := by omega
      simp [h3, h64, this]
    · have hlt : y < 2 ^ i := by
        have : (2:Nat) ^ 64 ≤ 2 ^ i := Nat.pow_le_pow_right (by norm_num) (by omega)
        omega
      have e1 : y.testBit i = false := Nat.testBit_lt_two_pow hlt
      have : 3 + (i - 3) = i := by omega
      simp [h3, h64, this, e1]
  · simp [h3]

/-- The word alignment macro rounds up to the next multiple of 8, modulo `2 ^ 64`. -/
theorem ngx_align_ptr_eq (p : Nat) :
    ngx_align_ptr p NGX_ALIGMENT = 8 * (((p + 7) % WORD) / 8) := by
  unfold ngx_align_ptr NGX_ALIGMENT WORD
  exact land_mask _ (Nat.mod_lt _ (by norm_num))

theorem ngx_align_ptr_dvd (p : Nat) : NGX_ALIGMENT ∣ ngx_align_ptr p NGX_ALIGMENT := by
  rw [ngx_align_ptr_eq]
  exact ⟨_, rfl⟩

/-- Below the top of the address space the macro returns the least multiple of
8 that is at least `p`. -/
theorem ngx_align_ptr_small (p : Nat) (h : p + 7 < WORD) :
    ngx_align_ptr p NGX_ALIGMENT = 8 * ((p + 7) / 8) := by
  rw [ngx_align_ptr_eq, Nat.mod_eq_of_lt h]

theorem ptr_add_mod8 (m n : Nat) : ptr_add m n % 8 = (m + n) % 8 := by
  unfold ptr_add WORD
  omega


/-! ## The small allocator -/

/-- A successful scan serves the request from exactly one block `b`: the blocks
before and after it are untouched, the returned address is the (aligned)
cursor of `b`, the size passed the distance test, and the new cursor of `b`
is the returned address plus the size. -/
theorem scan_some (size : Nat) (al : Bool) :
    ∀ (bs : List Block) (m : Nat) (bs1 : List Block),
      ngx_palloc_small_scan size al bs = some (m, bs1) →
      ∃ pre b post, bs = pre ++ b :: post ∧
        bs1 = pre ++ { b with last := ptr_add m size } :: post ∧
        m = (if al then ngx_align_ptr b.last NGX_ALIGMENT else b.last) ∧
        size ≤ ptr_diff b.end_ m := by
  intro bs
  induction bs with
  | nil => intro m bs1 h; simp [ngx_palloc_small_scan] at h
  | cons b bs ih =>
    intro m bs1 h
    simp only [ngx_palloc_small_scan] at h
    by_cases hfit : size ≤ ptr_diff b.end_ (if al then ngx_align_ptr b.last NGX_ALIGMENT else b.last)
    · rw [if_pos hfit] at h
      simp only [Option.some.injEq, Prod.mk.injEq] at h
      obtain ⟨hm, hbs⟩ := h
      refine ⟨[], b, bs, rfl, ?_, hm.symm, ?_⟩
      · rw [← hbs, ← hm]; rfl
      · rw [← hm]; exact hfit
    · rw [if_neg hfit] at h
      cases hrec : ngx_palloc_small_scan size al bs with
      | none => rw [hrec] at h; simp at h
      | some v =>
        obtain ⟨r, bs2⟩ := v
        rw [hrec] at h
        simp only [Option.some.injEq, Prod.mk.injEq] at h
        obtain ⟨hm, hbs⟩ := h
        obtain ⟨pre, c, post, h1, h2, h3, h4⟩ := ih r bs2 hrec
        subst hm
        refine ⟨b :: pre, c, post, ?_, ?_, h3, h4⟩
        · rw [h1]; rfl
        · rw [← hbs, h2]; rfl

/-- The address returned by `ngx_palloc_small` with `align = 1` is a multiple of
the word size (`0`, the `NULL` of a failed call, included). -/
theorem ngx_palloc_small_aligned (pool : Pool) (size mem : Nat) :
    NGX_ALIGMENT ∣ (ngx_palloc_small pool size true mem).1 := by
  unfold ngx_palloc_small
  split
  · rename_i m bs h
    obtain ⟨pre, b, post, _, _, h3, _⟩ := scan_some size true _ m bs h
    simp only [if_true] at h3
    rw [h3]
    exact ngx_align_ptr_dvd _
  · unfold ngx_palloc_block
    split
    · exact ⟨0, rfl⟩
    · exact ngx_align_ptr_dvd _

/-- Small requests leave `pool->max` as it was. -/
theorem ngx_palloc_small_max (pool : Pool) (size : Nat) (al : Bool) (mem : Nat) :
    (ngx_palloc_small pool size al mem).2.max = pool.max := by
  unfold ngx_palloc_small
  split
  · rfl
  · unfold ngx_palloc_block
    split <;> rfl

/-- Within `pool->max` the entry point `ngx_palloc` is the aligned small allocator. -/
theorem ngx_palloc_eq_small (pool : Pool) (size : Nat) (env : Env) (h : size ≤ pool.max) :
    ngx_palloc pool size env =
      ((ngx_palloc_small pool size true env.memalign).1,
       (ngx_palloc_small pool size true env.memalign).2, []) := by
  unfold ngx_palloc
  rw [if_pos h]

/-- Within `pool->max` the entry point `ngx_pnalloc` is the unaligned small allocator. -/
theorem ngx_pnalloc_eq_small (pool : Pool) (size : Nat) (env : Env) (h : size ≤ pool.max) :
    ngx_pnalloc pool size env =
      ((ngx_palloc_small pool size false env.memalign).1,
       (ngx_palloc_small pool size false env.memalign).2, []) := by
  unfold ngx_pnalloc
  rw [if_pos h]

/-- Claim C3: for every pool and every two sizes `s1, s2 <= pool->max` requested
consecutively through `ngx_palloc`, the address returned for the second
request is a multiple of the word size `NGX_ALIGMENT`, whatever the first
size was and whatever the heap answers (so both when the request is served
from an existing block and when a block is appended). -/
theorem ngx_palloc_consecutive_aligned (pool : Pool) (s1 s2 : Nat) (e1 e2 : Env)
    (h1 : s1 ≤ pool.max) (h2 : s2 ≤ pool.max) :
    (ngx_palloc (ngx_palloc pool s1 e1).2.1 s2 e2).1 % NGX_ALIGMENT = 0 := by
  have hmax : (ngx_palloc pool s1 e1).2.1.max = pool.max := by
    rw [ngx_palloc_eq_small pool s1 e1 h1]
    exact ngx_palloc_small_max _ _ _ _
  apply Nat.mod_eq_zero_of_dvd
  have h2x : s2 ≤ (ngx_palloc pool s1 e1).2.1.max := by rw [hmax]; exact h2
  rw [ngx_palloc_eq_small _ s2 e2 h2x]
  exact ngx_palloc_small_aligned _ _ _

/-- Witness of C3 on a fresh pool of 4096 bytes at address 8192: requests of
3 and 5 bytes. -/
theorem ngx_palloc_consecutive_aligned_witness :
    (3 ≤ (Pool.mk [⟨8192, 8272, 12288, 0⟩] 4016 0 [] []).max ∧
      5 ≤ (Pool.mk [⟨8192, 8272, 12288, 0⟩] 4016 0 [] []).max) ∧
    (ngx_palloc (ngx_palloc (Pool.mk [⟨8192, 8272, 12288, 0⟩] 4016 0 [] []) 3
      ⟨0, 0, 0⟩).2.1 5 ⟨0, 0, 0⟩).1 % NGX_ALIGMENT = 0 :=
  ⟨⟨by decide, by decide⟩,
   ngx_palloc_consecutive_aligned (Pool.mk [⟨8192, 8272, 12288, 0⟩] 4016 0 [] []) 3 5
     ⟨0, 0, 0⟩ ⟨0, 0, 0⟩ (by decide) (by decide)⟩


/-- The `failed++` loop changes counters only: addresses, cursors and ends of
the blocks are as before, in the same order. -/
theorem failed_loop_fields :
    ∀ (bs : List Block) (i cur : Nat),
      List.Forall₂ (fun b c : Block => b.addr = c.addr ∧ b.last = c.last ∧ b.end_ = c.end_)
        (ngx_palloc_block_failed bs i cur).1 bs := by
  intro bs
  induction bs with
  | nil => intro i cur; exact List.Forall₂.nil
  | cons b bs ih =>
    intro i cur
    cases bs with
    | nil => exact List.Forall₂.cons ⟨rfl, rfl, rfl⟩ List.Forall₂.nil
    | cons b1 bs =>
      simp only [ngx_palloc_block_failed]
      exact List.Forall₂.cons ⟨rfl, rfl, rfl⟩ (ih _ _)

theorem failed_loop_last (bs : List Block) (i cur : Nat) :
    (ngx_palloc_block_failed bs i cur).1.map Block.last = bs.map Block.last := by
  have h := failed_loop_fields bs i cur
  generalize (ngx_palloc_block_failed bs i cur).1 = cs at h
  induction h with
  | nil => rfl
  | cons hab _ ih => simp [hab.2.1, ih]

/-- A counterexample to C4 as stated: on a fresh pool of 4096 bytes at address
8192 the aligned request `ngx_palloc(pool, 3)` succeeds with the aligned
address 8272 and leaves the cursor of the serving block at 8275, which is not
a multiple of the word size. -/
theorem ngx_palloc_cursor_not_aligned :
    ngx_create_pool 4096 4096 8192 = some (Pool.mk [⟨8192, 8272, 12288, 0⟩] 4016 0 [] []) ∧
    ngx_palloc (Pool.mk [⟨8192, 8272, 12288, 0⟩] 4016 0 [] []) 3 ⟨0, 0, 0⟩ =
      (8272, Pool.mk [⟨8192, 8275, 12288, 0⟩] 4016 0 [] [], []) ∧
    ¬ NGX_ALIGMENT ∣ 8275 := by
  refine ⟨by decide, by decide, by decide⟩

/-- Claim C4, amended: after every successful aligned small allocation
(`ngx_palloc` with `size <= pool->max`) the returned address is a multiple of
the word size and exactly one block `b` served the request, either a block of
the old chain whose other fields are unchanged or the block appended at the
tail; its cursor `d.last` is the returned address plus `size`, so the cursor
is a multiple of the word size exactly when `size` is. -/
theorem ngx_palloc_cursor (pool : Pool) (size : Nat) (env : Env)
    (h : size ≤ pool.max) (hok : (ngx_palloc pool size env).1 ≠ 0) :
    ∃ pre b post, (ngx_palloc pool size env).2.1.blocks = pre ++ b :: post ∧
      ((∃ b0, pool.blocks = pre ++ b0 :: post ∧
          b = { b0 with last := ptr_add (ngx_palloc pool size env).1 size }) ∨
        (post = [] ∧ pre.map Block.last = pool.blocks.map Block.last ∧
          b.addr = env.memalign)) ∧
      NGX_ALIGMENT ∣ (ngx_palloc pool size env).1 ∧
      b.last = ptr_add (ngx_palloc pool size env).1 size ∧
      (NGX_ALIGMENT ∣ b.last ↔ NGX_ALIGMENT ∣ size) := by
  rw [ngx_palloc_eq_small pool size env h] at hok ⊢
  have hal := ngx_palloc_small_aligned pool size env.memalign
  have hiff : ∀ x : Nat, x = ptr_add (ngx_palloc_small pool size true env.memalign).1 size →
      (NGX_ALIGMENT ∣ x ↔ NGX_ALIGMENT ∣ size) := by
    intro x hx
    have h8 := ptr_add_mod8 (ngx_palloc_small pool size true env.memalign).1 size
    rw [← hx] at h8
    unfold NGX_ALIGMENT at hal ⊢
    omega
  revert hok hal hiff
  unfold ngx_palloc_small
  cases hscan : ngx_palloc_small_scan size true (List.drop pool.current pool.blocks) with
  | some v =>
    obtain ⟨m, bs⟩ := v
    intro hok hal hiff
    obtain ⟨pre, b, post, h1, h2, _, _⟩ := scan_some size true _ m bs hscan
    refine ⟨pool.blocks.take pool.current ++ pre, { b with last := ptr_add m size }, post,
      ?_, Or.inl ⟨b, ?_, rfl⟩, hal, rfl, hiff _ rfl⟩
    · simp only [h2, List.append_assoc]
    · rw [List.append_assoc, ← h1, List.take_append_drop]
  | none =>
    simp only
    unfold ngx_palloc_block
    by_cases hm : env.memalign = 0
    · intro hok; simp [hm] at hok
    · simp only [if_neg hm]
      intro hok hal hiff
      refine ⟨_, _, [], rfl, Or.inr ⟨rfl, ?_, rfl⟩, hal, rfl, hiff _ rfl⟩
      rw [List.map_append, failed_loop_last, ← List.map_append, List.take_append_drop]

/-- Witness of C4 (amended) on a fresh pool of 4096 bytes at address 8192. -/
theorem ngx_palloc_cursor_witness :
    3 ≤ (Pool.mk [⟨8192, 8272, 12288, 0⟩] 4016 0 [] []).max ∧
    ∃ pre b post,
      (ngx_palloc (Pool.mk [⟨8192, 8272, 12288, 0⟩] 4016 0 [] []) 3 ⟨0, 0, 0⟩).2.1.blocks
        = pre ++ b :: post ∧
      ((∃ b0, (Pool.mk [⟨8192, 8272, 12288, 0⟩] 4016 0 [] []).blocks = pre ++ b0 :: post ∧
          b = { b0 with last := (ptr_add
            (ngx_palloc (Pool.mk [⟨8192, 8272, 12288, 0⟩] 4016 0 [] []) 3 ⟨0, 0, 0⟩).1 3) }) ∨
        (post = [] ∧ pre.map Block.last
            = (Pool.mk [⟨8192, 8272, 12288, 0⟩] 4016 0 [] []).blocks.map Block.last ∧
          b.addr = (Env.mk 0 0 0).memalign)) ∧
      NGX_ALIGMENT ∣ (ngx_palloc (Pool.mk [⟨8192, 8272, 12288, 0⟩] 4016 0 [] []) 3 ⟨0, 0, 0⟩).1 ∧
      b.last = ptr_add
        (ngx_palloc (Pool.mk [⟨8192, 8272, 12288, 0⟩] 4016 0 [] []) 3 ⟨0, 0, 0⟩).1 3 ∧
      (NGX_ALIGMENT ∣ b.last ↔ NGX_ALIGMENT ∣ 3) :=
  ⟨by decide,
   ngx_palloc_cursor (Pool.mk [⟨8192, 8272, 12288, 0⟩] 4016 0 [] []) 3 ⟨0, 0, 0⟩
     (by decide) (by decide)⟩

/-! ## Creation -/

/-- A counterexample to C5 as stated: a block size of 16 bytes, smaller than
the pool header, with the backing allocation succeeding at address 4096,
gives `max = 4095`, while the first block has no usable bytes: `d.end` lies
64 bytes below `d.last`. -/
theorem ngx_create_pool_small_size :
    ngx_create_pool 4096 16 4096 = some (Pool.mk [⟨4096, 4176, 4112, 0⟩] 4095 0 [] []) ∧
    ¬ ((4095 : Int) ≤ (4112 : Int) - 4176) ∧
    (4095 : Int) ≠ min ((16 : Int) - sizeof_ngx_pool_t) ((4096 : Int) - 1) := by
  refine ⟨by decide, by decide, by decide⟩

/-- Claim C5, amended: for every block size `size >= sizeof(ngx_pool_t)` for
which the backing allocation succeeds (at an address `p` with the block
inside the address space), `ngx_create_pool` returns a pool with
`max = min(size - sizeof(ngx_pool_t), ngx_pagesize - 1)`; this `max` does not
exceed the usable bytes `d.end - d.last` of the first block, and the pool has
`current` = itself (position 0), `d.next = NULL` (a chain of one block) and
empty large and cleanup lists. -/
theorem ngx_create_pool_max (ngx_pagesize size p : Nat)
    (hpg : 0 < ngx_pagesize ∧ ngx_pagesize < WORD) (hp : p ≠ 0)
    (hsize : sizeof_ngx_pool_t ≤ size) (hfit : p + size < WORD) :
    ∃ pool, ngx_create_pool ngx_pagesize size p = some pool ∧
      pool.max = min (size - sizeof_ngx_pool_t) (ngx_pagesize - 1) ∧
      pool.d.last ≤ pool.d.end_ ∧
      pool.max ≤ pool.d.end_ - pool.d.last ∧
      pool.current = 0 ∧ pool.blocks.length = 1 ∧ pool.d.addr = p ∧
      pool.large = [] ∧ pool.cleanup = [] := by
  unfold ngx_create_pool
  rw [if_neg hp]
  refine ⟨_, rfl, ?_, ?_, ?_, rfl, rfl, rfl, rfl, rfl⟩
  · simp only [NGX_MAX_ALLOC_FROM_POOL]
    unfold sizeof_ngx_pool_t WORD at *
    have e1 : (ngx_pagesize + 18446744073709551616 - 1) % 18446744073709551616
        = ngx_pagesize - 1 := by omega
    have e2 : (size + 18446744073709551616 - 80) % 18446744073709551616 = size - 80 := by omega
    rw [e1, e2]
    split <;> omega
  · simp only [Pool.d, List.headD_cons, ptr_add]
    unfold sizeof_ngx_pool_t WORD at *
    omega
  · simp only [Pool.d, List.headD_cons, ptr_add, NGX_MAX_ALLOC_FROM_POOL]
    unfold sizeof_ngx_pool_t WORD at *
    have e2 : (size + 18446744073709551616 - 80) % 18446744073709551616 = size - 80 := by omega
    rw [e2]
    split <;> omega

/-- Witness of C5 (amended): a block of 4096 bytes at address 8192, 4096-byte pages. -/
theorem ngx_create_pool_max_witness :
    ((0 < 4096 ∧ 4096 < WORD) ∧ 8192 ≠ 0 ∧ sizeof_ngx_pool_t ≤ 4096 ∧ 8192 + 4096 < WORD) ∧
    ∃ pool, ngx_create_pool 4096 4096 8192 = some pool ∧
      pool.max = min (4096 - sizeof_ngx_pool_t) (4096 - 1) ∧
      pool.d.last ≤ pool.d.end_ ∧
      pool.max ≤ pool.d.end_ - pool.d.last ∧
      pool.current = 0 ∧ pool.blocks.length = 1 ∧ pool.d.addr = 8192 ∧
      pool.large = [] ∧ pool.cleanup = [] :=
  ⟨⟨by decide, by decide, by decide, by decide⟩,
   ngx_create_pool_max 4096 4096 8192 (by decide) (by decide) (by decide) (by decide)⟩


/-! ## Non-overlap of small allocations -/

/-- Claim C1, evaluated at a failing input: a pool of block size 100 at address
4096 (`max = 20`).  `ngx_pnalloc(pool, 20)` fills the first block up to its
end 4196; a second `ngx_pnalloc(pool, 20)` appends a block, which the heap
places at 4208, and is served at 4240; then `ngx_palloc(pool, 20)` aligns the
cursor 4196 of the first block up to 4200, past `d.end`, the distance
`(size_t) (d.end - m)` wraps around to `2^64 - 4` and passes the test, and the
call returns 4200: the region `[4200, 4220)` lies outside the first block and
shares bytes with the header `[4208, 4240)` of the second block. -/
theorem small_regions_overlap_header :
    ngx_create_pool 4096 100 4096 = some (Pool.mk [⟨4096, 4176, 4196, 0⟩] 20 0 [] []) ∧
    run_requests (Pool.mk [⟨4096, 4176, 4196, 0⟩] 20 0 [] [])
        [⟨20, false, ⟨0, 4208, 0⟩⟩, ⟨20, false, ⟨0, 4208, 0⟩⟩, ⟨20, true, ⟨0, 0, 0⟩⟩] =
      ([(4176, 20), (4240, 20), (4200, 20)],
       Pool.mk [⟨4096, 4220, 4196, 0⟩, ⟨4208, 4260, 4308, 0⟩] 20 0 [] []) ∧
    ptr_diff 4196 (ngx_align_ptr 4196 NGX_ALIGMENT) = WORD - 4 ∧
    overlaps 4200 20 4208 (header_size 1) := by
  refine ⟨by decide, by decide, by decide, by decide⟩

/-! ## Destruction -/

theorem handler_calls_append (xs ys : List Event) :
    handler_calls (xs ++ ys) = handler_calls xs ++ handler_calls ys := by
  induction xs with
  | nil => rfl
  | cons x xs ih => cases x <;> simp [handler_calls, ih]

theorem handler_calls_free (f : α → Nat) (xs : List α) :
    handler_calls (xs.map (fun x => Event.free (f x))) = [] := by
  induction xs with
  | nil => rfl
  | cons x xs ih => simp [handler_calls, ih]

/-- What `Apart` says of the first cell of a walk. -/
theorem apart_cons (c : Cleanup) (cs : List Cleanup) (h : Apart (c :: cs)) :
    Apart cs ∧ c.node ≠ 0 ∧ ∀ e ∈ cs, e.node ≠ c.node := by
  obtain ⟨h1, h2⟩ := h
  rw [List.pairwise_cons] at h1
  refine ⟨⟨h1.2, fun e he => h2 e (List.mem_cons_of_mem _ he)⟩,
    h2 c (List.mem_cons_self _ _), ?_⟩
  intro e he hn
  apply h1.1 e he
  unfold overlaps sizeof_ngx_pool_cleanup_t
  omega

theorem apart_sublist (xs ys : List Cleanup) (hs : xs.Sublist ys) (h : Apart ys) : Apart xs :=
  ⟨h.1.sublist hs, fun c hc => h.2 c (hs.subset hc)⟩

theorem apart_head (a b : Cleanup) (l : List Cleanup) (hn : b.node = a.node)
    (h : Apart (a :: l)) : Apart (b :: l) := by
  obtain ⟨h1, h2⟩ := h
  rw [List.pairwise_cons] at h1
  refine ⟨?_, ?_⟩
  · rw [List.pairwise_cons]
    refine ⟨fun e he => ?_, h1.2⟩
    rw [hn]
    exact h1.1 e he
  · intro c hc
    rcases List.mem_cons.1 hc with rfl | hc
    · rw [hn]
      exact h2 a (List.mem_cons_self _ _)
    · exact h2 c (List.mem_cons_of_mem _ hc)

/-- A walk whose cells lie apart is finite and all of its cells are known: the
loop of `ngx_destroy_pool` calls the non-null handlers in list order. -/
theorem run_cleanup_from_apart :
    ∀ (cs : List Cleanup) (seen : List Nat), Apart cs → (∀ c ∈ cs, c.node ∉ seen) →
      run_cleanup_from seen cs =
        (cs.filter (fun c => c.handler ≠ 0)).map (fun c => Event.handler c.handler c.data) := by
  intro cs
  induction cs with
  | nil => intro _ _ _; rfl
  | cons c cs ih =>
    intro seen ha hs
    obtain ⟨a1, a2, a3⟩ := apart_cons c cs ha
    have hn : c.node ∉ seen := hs c (List.mem_cons_self _ _)
    have hrec := ih (c.node :: seen) a1 (fun e he hm => by
      rcases List.mem_cons.1 hm with h | h
      · exact a3 e he h
      · exact hs e (List.mem_cons_of_mem _ he) h)
    unfold run_cleanup_from
    rw [if_neg a2, if_neg hn, hrec]
    by_cases hh : c.handler = 0
    · simp [hh]
    · simp [hh]

theorem handler_calls_run_cleanup (cs : List Cleanup) (ha : Apart cs) :
    handler_calls (run_cleanup cs) =
      (cs.filter (fun c => c.handler ≠ 0)).map (fun c => (c.handler, c.data)) := by
  unfold run_cleanup
  rw [run_cleanup_from_apart cs [] ha (fun _ _ h => by simp at h)]
  induction cs.filter (fun c => c.handler ≠ 0) with
  | nil => rfl
  | cons x xs ih => simp [handler_calls, ih]

/-- With the cells of the cleanup list apart, `ngx_destroy_pool` runs to its
end: the handler calls, then the frees. -/
theorem ngx_destroy_pool_apart (pool : Pool) (ha : Apart pool.cleanup) :
    ngx_destroy_pool pool =
      (pool.cleanup.filter (fun c => c.handler ≠ 0)).map
          (fun c => Event.handler c.handler c.data)
        ++ (free_large pool.large).map Event.free
        ++ pool.blocks.map (fun _ => Event.free pool.d.addr) := by
  have e : run_cleanup pool.cleanup =
      (pool.cleanup.filter (fun c => c.handler ≠ 0)).map
        (fun c => Event.handler c.handler c.data) := by
    unfold run_cleanup
    exact run_cleanup_from_apart _ [] ha (fun _ _ h => by simp at h)
  unfold ngx_destroy_pool
  rw [e, if_neg]
  intro h
  rcases h with h | h
  · have := List.mem_of_getLast?_eq_some h
    simp at this
  · have := List.mem_of_getLast?_eq_some h
    simp at this

/-- The handlers `ngx_destroy_pool` calls are those of the entries with a
non-null handler, in list order from the head, when the cells lie apart. -/
theorem handler_calls_destroy (pool : Pool) (ha : Apart pool.cleanup) :
    handler_calls (ngx_destroy_pool pool) =
      (pool.cleanup.filter (fun c => c.handler ≠ 0)).map (fun c => (c.handler, c.data)) := by
  rw [ngx_destroy_pool_apart pool ha, handler_calls_append, handler_calls_append]
  have h1 : handler_calls ((free_large pool.large).map Event.free) = [] :=
    handler_calls_free (fun a => a) _
  have h2 : handler_calls (pool.blocks.map (fun _ => Event.free pool.d.addr)) = [] :=
    handler_calls_free (fun _ => pool.d.addr) _
  rw [h1, h2]
  simp only [List.append_nil]
  induction pool.cleanup.filter (fun c => c.handler ≠ 0) with
  | nil => rfl
  | cons x xs ih => simp [handler_calls, ih]

theorem ngx_palloc_small_cleanup (pool : Pool) (size : Nat) (al : Bool) (mem : Nat) :
    (ngx_palloc_small pool size al mem).2.cleanup = pool.cleanup := by
  unfold ngx_palloc_small
  split
  · rfl
  · unfold ngx_palloc_block
    split <;> rfl

theorem ngx_palloc_large_cleanup (pool : Pool) (size p n mem : Nat) :
    (ngx_palloc_large pool size p n mem).2.1.cleanup = pool.cleanup := by
  unfold ngx_palloc_large
  split
  · rfl
  · split
    · rfl
    · simp only
      split
      · exact ngx_palloc_small_cleanup _ _ _ _
      · exact ngx_palloc_small_cleanup _ _ _ _

/-- The allocator `ngx_palloc` never writes to the cleanup list. -/
theorem ngx_palloc_cleanup (pool : Pool) (size : Nat) (env : Env) :
    (ngx_palloc pool size env).2.1.cleanup = pool.cleanup := by
  unfold ngx_palloc
  split
  · exact ngx_palloc_small_cleanup _ _ _ _
  · exact ngx_palloc_large_cleanup _ _ _ _ _

/-- If the walk is apart after the cell `new` was linked in, the old walk
follows the new cell as it was: the cell lies apart from every cell that was
listed. -/
theorem relink_apart (new : Cleanup) :
    ∀ (cs : List Cleanup), Apart (new :: relink new.node new cs) →
      relink new.node new cs = cs := by
  intro cs
  induction cs with
  | nil => intro _; rfl
  | cons e es ih =>
    intro h
    unfold relink at h ⊢
    by_cases h0 : e.node = 0
    · rw [if_pos h0]
    · rw [if_neg h0] at h ⊢
      by_cases h1 : e.node = new.node
      · rw [if_pos h1] at h
        have := (apart_cons new [new] h).2.2 new (List.mem_singleton.2 rfl)
        exact absurd rfl this
      · rw [if_neg h1] at h ⊢
        by_cases h2 : overlaps new.node sizeof_ngx_pool_cleanup_t e.node
            sizeof_ngx_pool_cleanup_t
        · rw [if_pos h2] at h
          have := (apart_cons new [unknown_cell] h).1.2 unknown_cell (List.mem_singleton.2 rfl)
          exact absurd rfl this
        · rw [if_neg h2] at h ⊢
          have hsub : Apart (new :: relink new.node new es) :=
            apart_sublist _ _ (List.Sublist.cons₂ _ (List.sublist_cons_self _ _)) h
          rw [ih hsub]

/-- If the walk is apart after a write to the cell at its head, the write has
changed that cell only. -/
theorem poke_apart (c off len : Nat) (f : Cleanup → Cleanup)
    (hf : ∀ e, (f e).node = e.node) (new : Cleanup) (hc : new.node = c) (cs : List Cleanup)
    (h : Apart (poke c off len f (new :: cs))) :
    poke c off len f (new :: cs) = f new :: cs := by
  have key : ∀ (es : List Cleanup), Apart (f new :: poke c off len f es) →
      poke c off len f es = es := by
    intro es
    induction es with
    | nil => intro _; rfl
    | cons e es ih =>
      intro h
      unfold poke at h ⊢
      by_cases h0 : e.node = 0
      · rw [if_pos h0]
      · rw [if_neg h0] at h ⊢
        by_cases h1 : e.node = c
        · rw [if_pos h1] at h
          have := (apart_cons (f new) _ h).2.2 (f e) (List.mem_cons_self _ _)
          rw [hf, hf, h1, hc] at this
          exact absurd rfl this
        · rw [if_neg h1] at h ⊢
          by_cases h2 : overlaps (c + off) len e.node sizeof_ngx_pool_cleanup_t
          · rw [if_pos h2] at h
            have := (apart_cons (f new) [unknown_cell] h).1.2 unknown_cell
              (List.mem_singleton.2 rfl)
            exact absurd rfl this
          · rw [if_neg h2] at h ⊢
            have hsub : Apart (f new :: poke c off len f es) :=
              apart_sublist _ _ (List.Sublist.cons₂ _ (List.sublist_cons_self _ _)) h
            rw [ih hsub]
  by_cases h0 : new.node = 0
  · have e : poke c off len f (new :: cs) = new :: cs := by
      unfold poke
      rw [if_pos h0]
    rw [e] at h
    exact absurd h0 (apart_cons new cs h).2.1
  · have e : poke c off len f (new :: cs) = f new :: poke c off len f cs := by
      show (if new.node = 0 then new :: cs
        else if new.node = c then f new :: poke c off len f cs
        else if overlaps (c + off) len new.node sizeof_ngx_pool_cleanup_t then [unknown_cell]
        else new :: poke c off len f cs) = _
      rw [if_neg h0, if_pos hc]
    rw [e] at h ⊢
    rw [key cs h]

/-- A successful `ngx_pool_cleanup_add` returns the cell that its first
`ngx_palloc` returned and links it in, with a null handler and with the
result of its second `ngx_palloc` as data (`NULL` for `size = 0`). -/
theorem ngx_pool_cleanup_add_head (p : Pool) (size : Nat) (env1 env2 : Env)
    (hok : (ngx_pool_cleanup_add p size env1 env2).1 ≠ 0) :
    (ngx_pool_cleanup_add p size env1 env2).1 = (ngx_palloc p sizeof_ngx_pool_cleanup_t env1).1 ∧
    ∃ data, (ngx_pool_cleanup_add p size env1 env2).2.1.cleanup =
        link { node := (ngx_pool_cleanup_add p size env1 env2).1, handler := 0, data := data }
          p.cleanup ∧
      (size = 0 → data = 0) ∧
      (size ≠ 0 → data ≠ 0 ∧
        data = (ngx_palloc (ngx_palloc p sizeof_ngx_pool_cleanup_t env1).2.1 size env2).1) := by
  revert hok
  unfold ngx_pool_cleanup_add
  simp only
  by_cases h1 : (ngx_palloc p sizeof_ngx_pool_cleanup_t env1).1 = 0
  · rw [if_pos h1]
    intro hok
    exact absurd rfl hok
  · rw [if_neg h1]
    by_cases hs : size = 0
    · rw [if_neg (by simpa using hs)]
      intro _
      refine ⟨rfl, 0, ?_, fun _ => rfl, fun h => absurd hs h⟩
      simp only [ngx_palloc_cleanup]
    · rw [if_pos hs]
      by_cases h2 : (ngx_palloc (ngx_palloc p sizeof_ngx_pool_cleanup_t env1).2.1 size env2).1 = 0
      · rw [if_pos h2]
        intro hok
        exact absurd rfl hok
      · rw [if_neg h2]
        intro _
        refine ⟨rfl, _, ?_, fun h => absurd h hs, fun _ => ⟨h2, rfl⟩⟩
        simp only [ngx_palloc_cleanup]

/-- One registration returns the handler it was given. -/
theorem register_fst (pool pool1 : Pool) (r : Reg) (e : Nat × Nat)
    (h : register pool r = some (pool1, e)) : e.1 = r.handler := by
  unfold register at h
  simp only at h
  split at h
  · simp at h
  · split at h
    · simp at h
    · simp only [Option.some.injEq, Prod.mk.injEq] at h
      rw [← h.2]

/-- One registration after which the cells lie apart puts the entry
`(handler, data)` in front of the list, which is otherwise as it was. -/
theorem register_head (pool pool1 : Pool) (r : Reg) (e : Nat × Nat)
    (h : register pool r = some (pool1, e)) (ha : Apart pool1.cleanup) :
    e.1 = r.handler ∧
      ∃ c, pool1.cleanup = { node := c, handler := e.1, data := e.2 } :: pool.cleanup := by
  refine ⟨register_fst pool pool1 r e h, ?_⟩
  unfold register at h
  simp only at h
  split at h
  · simp at h
  · rename_i hok
    obtain ⟨_, data, hd, _⟩ := ngx_pool_cleanup_add_head pool r.size r.env1 r.env2 hok
    rw [hd] at h
    unfold link at h
    simp only [entry_at, List.find?_cons_of_pos, decide_True,
      Option.some.injEq, Prod.mk.injEq] at h
    obtain ⟨h1, h2⟩ := h
    subst h1 h2
    simp only at ha ⊢
    unfold set_handler at ha ⊢
    have hp := poke_apart _ 0 8 (fun e => { e with handler := r.handler }) (fun _ => rfl)
      { node := (ngx_pool_cleanup_add pool r.size r.env1 r.env2).1, handler := 0, data := data }
      rfl _ ha
    rw [hp] at ha ⊢
    have hr := relink_apart
      { node := (ngx_pool_cleanup_add pool r.size r.env1 r.env2).1, handler := 0, data := data }
      pool.cleanup (apart_head ((fun e : Cleanup => { e with handler := r.handler })
        { node := (ngx_pool_cleanup_add pool r.size r.env1 r.env2).1, handler := 0,
          data := data }) _ _ rfl ha)
    simp only at hr
    rw [hr]
    exact ⟨_, rfl⟩

/-- After a run of registrations that leaves the cells apart, the list holds
the registered entries in front of the old ones, the last registered first. -/
theorem register_all_cleanup :
    ∀ (regs : List Reg) (pool pool1 : Pool) (es : List (Nat × Nat)),
      register_all pool regs = some (pool1, es) → Apart pool1.cleanup →
      es.length = regs.length ∧ es.map Prod.fst = regs.map Reg.handler ∧
      ∃ cells, pool1.cleanup = cells ++ pool.cleanup ∧
        cells.map (fun c => (c.handler, c.data)) = es.reverse := by
  intro regs
  induction regs with
  | nil =>
    intro pool pool1 es h _
    simp only [register_all, Option.some.injEq, Prod.mk.injEq] at h
    obtain ⟨h1, h2⟩ := h
    subst h1 h2
    exact ⟨rfl, rfl, [], rfl, rfl⟩
  | cons r rs ih =>
    intro pool pool1 es h ha
    simp only [register_all] at h
    cases h1 : register pool r with
    | none => rw [h1] at h; simp at h
    | some v =>
      obtain ⟨q, e⟩ := v
      rw [h1] at h
      simp only at h
      cases h2 : register_all q rs with
      | none => rw [h2] at h; simp at h
      | some w =>
        obtain ⟨q2, es2⟩ := w
        rw [h2] at h
        simp only [Option.some.injEq, Prod.mk.injEq] at h
        obtain ⟨hq, hes⟩ := h
        subst hq hes
        obtain ⟨hl, hf, cells, hc, hm⟩ := ih q q2 es2 h2 ha
        have haq : Apart q.cleanup := by
          rw [hc] at ha
          exact apart_sublist _ _ (List.sublist_append_right _ _) ha
        obtain ⟨he1, c, hq⟩ := register_head pool q r e h1 haq
        refine ⟨by simp [hl], by simp [hf, he1], cells ++ [⟨c, e.1, e.2⟩], ?_, ?_⟩
        · rw [hc, hq]
          simp
        · simp [hm]

/-- A counterexample to C9 as stated: on a fresh pool of 4096 bytes at address
8192, registering first handler 1 (with 8 bytes of data, placed at 8296) and
then handler 2 (no data) makes `ngx_destroy_pool` call handler 2 before
handler 1, the reverse of the registration order. -/
theorem destroy_runs_last_registered_first :
    register_all (Pool.mk [⟨8192, 8272, 12288, 0⟩] 4016 0 [] [])
        [⟨8, 1, ⟨0, 0, 0⟩, ⟨0, 0, 0⟩⟩, ⟨0, 2, ⟨0, 0, 0⟩, ⟨0, 0, 0⟩⟩] =
      some (Pool.mk [⟨8192, 8328, 12288, 0⟩] 4016 0 []
        [⟨8304, 2, 0⟩, ⟨8272, 1, 8296⟩], [(1, 8296), (2, 0)]) ∧
    handler_calls (ngx_destroy_pool (Pool.mk [⟨8192, 8328, 12288, 0⟩] 4016 0 []
        [⟨8304, 2, 0⟩, ⟨8272, 1, 8296⟩])) = [(2, 0), (1, 8296)] ∧
    [(2, 0), (1, 8296)] ≠ [(1, 8296), ((2 : Nat), (0 : Nat))] := by
  refine ⟨by decide, by decide, by decide⟩

/-- Claim C9, amended: for every pool on which cleanup entries `c_1, ..., c_k`
were registered in that order with `ngx_pool_cleanup_add` (each then given a
non-null handler), and on which the cells of the cleanup list afterwards
share no byte with each other nor with a large-allocation record or a block
header of the pool (`Intact`; it fails when a registration was given the
memory of a cell that was still listed, which `ngx_reset_pool` makes
possible), `ngx_destroy_pool` returns and invokes every handler exactly
once, in the reverse of the registration order, `c_k, ..., c_1`, each with
the data pointer stored in its entry at registration; the handlers of the
entries the list held before these registrations follow. -/
theorem destroy_runs_cleanups_reversed (pool pool1 : Pool) (regs : List Reg)
    (es : List (Nat × Nat)) (hh : ∀ r ∈ regs, r.handler ≠ 0)
    (hreg : register_all pool regs = some (pool1, es))
    (hin : Intact pool1) :
    es.length = regs.length ∧ es.map Prod.fst = regs.map Reg.handler ∧
      handler_calls (ngx_destroy_pool pool1) =
        es.reverse ++ handler_calls (ngx_destroy_pool pool) ∧
      Event.forever ∉ ngx_destroy_pool pool1 ∧ Event.undefined ∉ ngx_destroy_pool pool1 := by
  obtain ⟨hl, hf, cells, hc, hm⟩ := register_all_cleanup regs pool pool1 es hreg hin.1
  have hap : Apart pool.cleanup := by
    have := hin.1
    rw [hc] at this
    exact apart_sublist _ _ (List.sublist_append_right _ _) this
  have hne : ∀ c ∈ cells, c.handler ≠ 0 := by
    intro c hcm
    have h1 : (c.handler, c.data) ∈ es.reverse := by
      rw [← hm]
      exact List.mem_map.2 ⟨c, hcm, rfl⟩
    have h2 : c.handler ∈ es.map Prod.fst :=
      List.mem_map.2 ⟨(c.handler, c.data), List.mem_reverse.1 h1, rfl⟩
    rw [hf] at h2
    obtain ⟨r, hr, he⟩ := List.mem_map.1 h2
    rw [← he]
    exact hh r hr
  have hfil : cells.filter (fun c => c.handler ≠ 0) = cells := by
    rw [List.filter_eq_self]
    intro c hcm
    simpa using hne c hcm
  refine ⟨hl, hf, ?_, ?_, ?_⟩
  · rw [handler_calls_destroy pool1 hin.1, handler_calls_destroy pool hap, hc,
      List.filter_append, List.map_append, hfil, hm]
  · rw [ngx_destroy_pool_apart pool1 hin.1]
    simp
  · rw [ngx_destroy_pool_apart pool1 hin.1]
    simp

/-- Witness of C9 (amended): the two registrations of the counterexample, on a
fresh pool of 4096 bytes at address 8192. -/
theorem destroy_runs_cleanups_reversed_witness :
    ((∀ r ∈ [Reg.mk 8 1 ⟨0, 0, 0⟩ ⟨0, 0, 0⟩, Reg.mk 0 2 ⟨0, 0, 0⟩ ⟨0, 0, 0⟩], r.handler ≠ 0) ∧
      register_all (Pool.mk [⟨8192, 8272, 12288, 0⟩] 4016 0 [] [])
          [⟨8, 1, ⟨0, 0, 0⟩, ⟨0, 0, 0⟩⟩, ⟨0, 2, ⟨0, 0, 0⟩, ⟨0, 0, 0⟩⟩] =
        some (Pool.mk [⟨8192, 8328, 12288, 0⟩] 4016 0 []
          [⟨8304, 2, 0⟩, ⟨8272, 1, 8296⟩], [(1, 8296), (2, 0)]) ∧
      Intact (Pool.mk [⟨8192, 8328, 12288, 0⟩] 4016 0 [] [⟨8304, 2, 0⟩, ⟨8272, 1, 8296⟩])) ∧
    ([(1, 8296), ((2 : Nat), (0 : Nat))].length
        = [Reg.mk 8 1 ⟨0, 0, 0⟩ ⟨0, 0, 0⟩, Reg.mk 0 2 ⟨0, 0, 0⟩ ⟨0, 0, 0⟩].length) ∧
    [(1, 8296), ((2 : Nat), (0 : Nat))].map Prod.fst
      = [Reg.mk 8 1 ⟨0, 0, 0⟩ ⟨0, 0, 0⟩, Reg.mk 0 2 ⟨0, 0, 0⟩ ⟨0, 0, 0⟩].map Reg.handler ∧
    handler_calls (ngx_destroy_pool (Pool.mk [⟨8192, 8328, 12288, 0⟩] 4016 0 []
        [⟨8304, 2, 0⟩, ⟨8272, 1, 8296⟩])) =
      [(1, 8296), ((2 : Nat), (0 : Nat))].reverse ++
        handler_calls (ngx_destroy_pool (Pool.mk [⟨8192, 8272, 12288, 0⟩] 4016 0 [] [])) ∧
    Event.forever ∉ ngx_destroy_pool (Pool.mk [⟨8192, 8328, 12288, 0⟩] 4016 0 []
        [⟨8304, 2, 0⟩, ⟨8272, 1, 8296⟩]) ∧
    Event.undefined ∉ ngx_destroy_pool (Pool.mk [⟨8192, 8328, 12288, 0⟩] 4016 0 []
        [⟨8304, 2, 0⟩, ⟨8272, 1, 8296⟩]) :=
  ⟨⟨by decide, by decide, by decide⟩,
   destroy_runs_cleanups_reversed (Pool.mk [⟨8192, 8272, 12288, 0⟩] 4016 0 [] [])
    (Pool.mk [⟨8192, 8328, 12288, 0⟩] 4016 0 [] [⟨8304, 2, 0⟩, ⟨8272, 1, 8296⟩])
    [⟨8, 1, ⟨0, 0, 0⟩, ⟨0, 0, 0⟩⟩, ⟨0, 2, ⟨0, 0, 0⟩, ⟨0, 0, 0⟩⟩]
    [(1, 8296), (2, 0)] (by decide) (by decide) (by decide)⟩

/-- Claim C10, evaluated at a failing input: a pool of 4096 bytes at address 8192
on which two `ngx_palloc(pool, 4000)` calls were served, the second from a
block appended at address 16384.  `ngx_destroy_pool` passes 8192, the pool
itself, to `ngx_free` twice and never passes the second block 16384. -/
theorem destroy_frees_pool_twice :
    run_requests (Pool.mk [⟨8192, 8272, 12288, 0⟩] 4016 0 [] [])
        [⟨4000, true, ⟨0, 0, 0⟩⟩, ⟨4000, true, ⟨0, 16384, 0⟩⟩] =
      ([(8272, 4000), (16416, 4000)],
       Pool.mk [⟨8192, 12272, 12288, 0⟩, ⟨16384, 20416, 20480, 0⟩] 4016 0 [] []) ∧
    ngx_destroy_pool (Pool.mk [⟨8192, 12272, 12288, 0⟩, ⟨16384, 20416, 20480, 0⟩] 4016 0 [] [])
      = [Event.free 8192, Event.free 8192] ∧
    16384 ∉ freed (ngx_destroy_pool
      (Pool.mk [⟨8192, 12272, 12288, 0⟩, ⟨16384, 20416, 20480, 0⟩] 4016 0 [] [])) := by
  refine ⟨by decide, by decide, by decide⟩


/-! ## Large allocations -/

/-- A successful slot scan stores the address in one node whose `alloc` was
`NULL` and leaves every other node as it was. -/
theorem large_scan_some (p : Nat) :
    ∀ (ls : List Large) (n : Nat) (ls1 : List Large),
      ngx_palloc_large_scan p ls n = some ls1 →
      ∃ pre l post, ls = pre ++ l :: post ∧ l.alloc = 0 ∧
        ls1 = pre ++ { l with alloc := p } :: post := by
  intro ls
  induction ls with
  | nil => intro n ls1 h; simp [ngx_palloc_large_scan] at h
  | cons l ls ih =>
    intro n ls1 h
    simp only [ngx_palloc_large_scan] at h
    by_cases h0 : l.alloc = 0
    · rw [if_pos h0] at h
      simp only [Option.some.injEq] at h
      exact ⟨[], l, ls, rfl, h0, h.symm⟩
    · rw [if_neg h0] at h
      by_cases h3 : 3 < n
      · rw [if_pos h3] at h; simp at h
      · rw [if_neg h3] at h
        cases hrec : ngx_palloc_large_scan p ls ((n + 1) % WORD) with
        | none => rw [hrec] at h; simp at h
        | some ls2 =>
          rw [hrec] at h
          simp only [Option.some.injEq] at h
          obtain ⟨pre, x, post, h1, h2, h3⟩ := ih _ ls2 hrec
          refine ⟨l :: pre, x, post, ?_, h2, ?_⟩
          · rw [h1]; rfl
          · rw [← h, h3]; rfl

theorem filter_alloc_none (p : Nat) (ls : List Large) (h : ∀ l ∈ ls, l.alloc ≠ p) :
    ls.filter (fun l => l.alloc = p) = [] := by
  rw [List.filter_eq_nil_iff]
  intro l hl
  simpa using h l hl

theorem ngx_palloc_small_large (pool : Pool) (size : Nat) (al : Bool) (mem : Nat) :
    (ngx_palloc_small pool size al mem).2.large = pool.large := by
  unfold ngx_palloc_small
  split
  · rfl
  · unfold ngx_palloc_block
    split <;> rfl

/-- When the scan finds room, `ngx_palloc_small` appends no block. -/
theorem ngx_palloc_small_room (pool : Pool) (size : Nat) (al : Bool) (mem : Nat)
    (h : (ngx_palloc_small_scan size al (pool.blocks.drop pool.current)).isSome) :
    (ngx_palloc_small pool size al mem).2.blocks.length = pool.blocks.length := by
  unfold ngx_palloc_small
  cases hscan : ngx_palloc_small_scan size al (List.drop pool.current pool.blocks) with
  | none => rw [hscan] at h; simp at h
  | some v =>
    obtain ⟨m, bs⟩ := v
    obtain ⟨pre, b, post, h1, h2, _, _⟩ := scan_some size al _ m bs hscan
    have hlen : bs.length = (List.drop pool.current pool.blocks).length := by
      rw [h1, h2]; simp
    have htd : (List.take pool.current pool.blocks ++ List.drop pool.current pool.blocks).length
        = pool.blocks.length := by rw [List.take_append_drop]
    simp only [List.length_append] at htd ⊢
    omega

/-- Claim C6: for every pool and every `size > pool->max`, a successful
`ngx_palloc(pool, size)` returns exactly the address obtained from the backing
heap allocator (an address not among the live large allocations the pool
records), and afterwards exactly one entry of `pool->large` records that
address; when the chain has room for the tracking node (the scan of
`ngx_palloc_small` for `sizeof(ngx_pool_large_t)` bytes succeeds) no block is
appended. -/
theorem ngx_palloc_large_recorded (pool : Pool) (size : Nat) (env : Env)
    (hsize : pool.max < size)
    (hfresh : ∀ l ∈ pool.large, l.alloc ≠ 0 → l.alloc ≠ env.malloc)
    (hok : (ngx_palloc pool size env).1 ≠ 0) :
    (ngx_palloc pool size env).1 = env.malloc ∧
      ((ngx_palloc pool size env).2.1.large.filter (fun l => l.alloc = env.malloc)).length = 1 ∧
      ((ngx_palloc_small_scan sizeof_ngx_pool_large_t true
          (pool.blocks.drop pool.current)).isSome →
        (ngx_palloc pool size env).2.1.blocks.length = pool.blocks.length) := by
  have hlarge : ngx_palloc pool size env
      = ngx_palloc_large pool size env.malloc env.n env.memalign := by
    unfold ngx_palloc
    rw [if_neg (by omega)]
  rw [hlarge] at hok ⊢
  revert hok
  unfold ngx_palloc_large
  by_cases hp : env.malloc = 0
  · intro hok; simp [hp] at hok
  · rw [if_neg hp]
    have hfresh1 : ∀ l ∈ pool.large, l.alloc ≠ env.malloc := by
      intro l hl
      by_cases h0 : l.alloc = 0
      · rw [h0]; exact fun h => hp h.symm
      · exact hfresh l hl h0
    cases hscan : ngx_palloc_large_scan env.malloc pool.large env.n with
    | some ls =>
      intro _
      obtain ⟨pre, l, post, h1, h2, h3⟩ := large_scan_some _ _ _ _ hscan
      refine ⟨rfl, ?_, fun _ => rfl⟩
      simp only [h3, List.filter_append, List.filter_cons, decide_True, if_true,
        List.length_append, List.length_cons]
      rw [h1] at hfresh1
      have e1 := filter_alloc_none env.malloc pre
        (fun x hx => hfresh1 x (List.mem_append_left _ hx))
      have e2 := filter_alloc_none env.malloc post
        (fun x hx => hfresh1 x (List.mem_append_right _ (List.mem_cons_of_mem _ hx)))
      rw [e1, e2]
      rfl
    | none =>
      simp only
      by_cases hr : (ngx_palloc_small pool sizeof_ngx_pool_large_t true env.memalign).1 = 0
      · intro hok; simp [hr] at hok
      · rw [if_neg hr]
        intro _
        refine ⟨rfl, ?_, fun hroom => ngx_palloc_small_room _ _ _ _ hroom⟩
        simp only [List.filter_cons, decide_True, if_true, ngx_palloc_small_large,
          filter_alloc_none env.malloc pool.large hfresh1]
        rfl

/-- Witness of C6: a fresh pool of block size 4096 (at address 8192) and a
5000-byte request, which the heap serves at address 100000; the chain stays
at one block. -/
theorem ngx_palloc_large_recorded_witness :
    ((Pool.mk [⟨8192, 8272, 12288, 0⟩] 4016 0 [] []).max < 5000 ∧
      (ngx_palloc (Pool.mk [⟨8192, 8272, 12288, 0⟩] 4016 0 [] []) 5000 ⟨100000, 0, 0⟩).1 ≠ 0) ∧
    ((ngx_palloc (Pool.mk [⟨8192, 8272, 12288, 0⟩] 4016 0 [] []) 5000 ⟨100000, 0, 0⟩).1
        = (Env.mk 100000 0 0).malloc ∧
      ((ngx_palloc (Pool.mk [⟨8192, 8272, 12288, 0⟩] 4016 0 [] []) 5000
        ⟨100000, 0, 0⟩).2.1.large.filter
          (fun l => l.alloc = (Env.mk 100000 0 0).malloc)).length = 1 ∧
      ((ngx_palloc_small_scan sizeof_ngx_pool_large_t true
          ((Pool.mk [⟨8192, 8272, 12288, 0⟩] 4016 0 [] []).blocks.drop
            (Pool.mk [⟨8192, 8272, 12288, 0⟩] 4016 0 [] []).current)).isSome →
        (ngx_palloc (Pool.mk [⟨8192, 8272, 12288, 0⟩] 4016 0 [] []) 5000
          ⟨100000, 0, 0⟩).2.1.blocks.length
          = (Pool.mk [⟨8192, 8272, 12288, 0⟩] 4016 0 [] []).blocks.length)) ∧
    (ngx_palloc (Pool.mk [⟨8192, 8272, 12288, 0⟩] 4016 0 [] []) 5000 ⟨100000, 0, 0⟩).2.1
      = Pool.mk [⟨8192, 8288, 12288, 0⟩] 4016 0 [⟨8272, 100000⟩] [] :=
  ⟨⟨by decide, by decide⟩,
   ngx_palloc_large_recorded (Pool.mk [⟨8192, 8272, 12288, 0⟩] 4016 0 [] []) 5000
     ⟨100000, 0, 0⟩ (by decide) (fun _ h => nomatch h) (by decide),
   by decide⟩

/-- A list in which no node records `p` makes the `ngx_pfree` loop fall through. -/
theorem pfree_scan_none (p : Nat) :
    ∀ ls : List Large, (∀ l ∈ ls, l.alloc ≠ p) → ngx_pfree_scan p ls = none := by
  intro ls
  induction ls with
  | nil => intro _; rfl
  | cons l ls ih =>
    intro h
    simp only [ngx_pfree_scan]
    rw [if_neg (fun e => h l (List.mem_cons_self _ _) e.symm),
      ih (fun x hx => h x (List.mem_cons_of_mem _ hx))]

/-- A list in which some node records `p`: the loop clears the first such node. -/
theorem pfree_scan_some (p : Nat) :
    ∀ ls : List Large, (∃ l ∈ ls, l.alloc = p) →
      ∃ pre l post, ls = pre ++ l :: post ∧ l.alloc = p ∧ (∀ x ∈ pre, x.alloc ≠ p) ∧
        ngx_pfree_scan p ls = some (pre ++ { l with alloc := 0 } :: post) := by
  intro ls
  induction ls with
  | nil => intro h; obtain ⟨l, hl, _⟩ := h; cases hl
  | cons l ls ih =>
    intro h
    by_cases hl : p = l.alloc
    · refine ⟨[], l, ls, rfl, hl.symm, (fun _ hx => nomatch hx), ?_⟩
      simp only [ngx_pfree_scan]
      rw [if_pos hl]; rfl
    · have hex : ∃ x ∈ ls, x.alloc = p := by
        obtain ⟨x, hx, hxp⟩ := h
        rcases List.mem_cons.mp hx with rfl | hx1
        · exact absurd hxp.symm hl
        · exact ⟨x, hx1, hxp⟩
      obtain ⟨pre, x, post, h1, h2, h3, h4⟩ := ih hex
      refine ⟨l :: pre, x, post, by rw [h1]; rfl, h2, ?_, ?_⟩
      · intro y hy
        rcases List.mem_cons.mp hy with rfl | hy1
        · exact fun e => hl e.symm
        · exact h3 y hy1
      · simp only [ngx_pfree_scan]
        rw [if_neg hl, h4]; rfl

/-- Claim C7: for every non-null pointer `p` that exactly one entry of
`pool->large` records (a large allocation not yet released),
`ngx_pfree(pool, p)` returns `NGX_OK`, passes `p` to `ngx_free` and sets the
matching entry's `alloc` to `NULL`, keeping the entry in the list and leaving
the rest of the pool as it was; a second `ngx_pfree(pool, p)` right after
returns `NGX_DECLINED`, changes nothing and frees nothing. -/
theorem ngx_pfree_large_once (pool : Pool) (p : Nat) (hp : p ≠ 0)
    (hone : (pool.large.filter (fun l => l.alloc = p)).length = 1) :
    ∃ pre l post, pool.large = pre ++ l :: post ∧ l.alloc = p ∧
      ngx_pfree pool p =
        (NGX_OK, { pool with large := pre ++ { l with alloc := 0 } :: post }, [p]) ∧
      ngx_pfree { pool with large := pre ++ { l with alloc := 0 } :: post } p =
        (NGX_DECLINED, { pool with large := pre ++ { l with alloc := 0 } :: post }, []) := by
  have hex : ∃ l ∈ pool.large, l.alloc = p := by
    have hne : pool.large.filter (fun l => l.alloc = p) ≠ [] := by
      intro h; rw [h] at hone; simp at hone
    obtain ⟨l, hl⟩ := List.exists_mem_of_ne_nil _ hne
    rw [List.mem_filter] at hl
    exact ⟨l, hl.1, by simpa using hl.2⟩
  obtain ⟨pre, l, post, h1, h2, h3, h4⟩ := pfree_scan_some p pool.large hex
  refine ⟨pre, l, post, h1, h2, ?_, ?_⟩
  · unfold ngx_pfree
    rw [h4]
  · have hpost : ∀ x ∈ post, x.alloc ≠ p := by
      have e1 := filter_alloc_none p pre h3
      rw [h1, List.filter_append, e1, List.nil_append, List.filter_cons] at hone
      simp only [h2, decide_True, if_true, List.length_cons] at hone
      have hnil : post.filter (fun l => l.alloc = p) = [] := by
        apply List.eq_nil_of_length_eq_zero
        omega
      rw [List.filter_eq_nil_iff] at hnil
      intro x hx
      simpa using hnil x hx
    have hnone : ngx_pfree_scan p (pre ++ { l with alloc := 0 } :: post) = none := by
      apply pfree_scan_none
      intro x hx
      rcases List.mem_append.mp hx with hx1 | hx2
      · exact h3 x hx1
      · rcases List.mem_cons.mp hx2 with rfl | hx3
        · exact fun e => hp e.symm
        · exact hpost x hx3
    unfold ngx_pfree
    simp only [hnone]

/-- Witness of C7: the pool left by the 5000-byte request on a fresh pool of
4096 bytes, whose single large entry records address 100000. -/
theorem ngx_pfree_large_once_witness :
    (100000 ≠ 0 ∧
      ((Pool.mk [⟨8192, 8288, 12288, 0⟩] 4016 0 [⟨8272, 100000⟩] []).large.filter
        (fun l => l.alloc = 100000)).length = 1) ∧
    ∃ pre l post,
      (Pool.mk [⟨8192, 8288, 12288, 0⟩] 4016 0 [⟨8272, 100000⟩] []).large = pre ++ l :: post ∧
      l.alloc = 100000 ∧
      ngx_pfree (Pool.mk [⟨8192, 8288, 12288, 0⟩] 4016 0 [⟨8272, 100000⟩] []) 100000 =
        (NGX_OK, { (Pool.mk [⟨8192, 8288, 12288, 0⟩] 4016 0 [⟨8272, 100000⟩] []) with
            large := pre ++ { l with alloc := 0 } :: post }, [100000]) ∧
      ngx_pfree { (Pool.mk [⟨8192, 8288, 12288, 0⟩] 4016 0 [⟨8272, 100000⟩] []) with
            large := pre ++ { l with alloc := 0 } :: post } 100000 =
        (NGX_DECLINED, { (Pool.mk [⟨8192, 8288, 12288, 0⟩] 4016 0 [⟨8272, 100000⟩] []) with
            large := pre ++ { l with alloc := 0 } :: post }, []) :=
  ⟨⟨by decide, by decide⟩,
   ngx_pfree_large_once (Pool.mk [⟨8192, 8288, 12288, 0⟩] 4016 0 [⟨8272, 100000⟩] []) 100000
     (by decide) (by decide)⟩


/-! ## The cursor invariant -/

/-- In a block that satisfies `BlockOK` for a block size that is a multiple of
the word size, the distance test is exact: a request that passes it is served
between the old cursor and the end of the block. -/
theorem serve_ok (psize size : Nat) (al : Bool) (b : Block) (m : Nat)
    (hps : NGX_ALIGMENT ∣ psize) (hb : BlockOK psize b)
    (hm : m = if al then ngx_align_ptr b.last NGX_ALIGMENT else b.last)
    (hfit : size ≤ ptr_diff b.end_ m) :
    b.last ≤ m ∧ m + size ≤ b.end_ ∧ ptr_add m size = m + size := by
  obtain ⟨h1, h2, h3, h4, h5⟩ := hb
  have hsmall : ngx_align_ptr b.last NGX_ALIGMENT = 8 * ((b.last + 7) / 8) := by
    apply ngx_align_ptr_small
    unfold NGX_ALIGMENT WORD at *
    omega
  cases al with
  | true =>
    simp only [if_true] at hm
    rw [hsmall] at hm
    unfold ptr_diff ptr_add at *
    unfold NGX_ALIGMENT WORD sizeof_ngx_pool_data_t at *
    omega
  | false =>
    simp only [Bool.false_eq_true, if_false] at hm
    unfold ptr_diff ptr_add at *
    unfold NGX_ALIGMENT WORD sizeof_ngx_pool_data_t at *
    omega

/-- A successful scan keeps `BlockOK` on every block and returns an address
between the header and the end of one of the scanned blocks. -/
theorem scan_ok (psize size : Nat) (al : Bool) (bs : List Block) (m : Nat) (bs1 : List Block)
    (hps : NGX_ALIGMENT ∣ psize) (hbs : ∀ b ∈ bs, BlockOK psize b)
    (h : ngx_palloc_small_scan size al bs = some (m, bs1)) :
    (∀ b ∈ bs1, BlockOK psize b) ∧
      ∃ b ∈ bs1, b.addr + sizeof_ngx_pool_data_t ≤ m ∧ m + size ≤ b.end_ := by
  obtain ⟨pre, b, post, h1, h2, h3, h4⟩ := scan_some size al bs m bs1 h
  have hb : BlockOK psize b := hbs b (by rw [h1]; simp)
  obtain ⟨k1, k2, k3⟩ := serve_ok psize size al b m hps hb h3 h4
  have hb1 : BlockOK psize { b with last := ptr_add m size } := by
    obtain ⟨g1, g2, g3, g4, g5⟩ := hb
    refine ⟨g1, g2, g3, ?_, ?_⟩
    · show b.addr + sizeof_ngx_pool_data_t ≤ ptr_add m size
      rw [k3]; omega
    · show ptr_add m size ≤ b.end_
      rw [k3]; exact k2
  constructor
  · intro x hx
    rw [h2] at hx
    rcases List.mem_append.mp hx with hx1 | hx2
    · exact hbs x (by rw [h1]; exact List.mem_append_left _ hx1)
    · rcases List.mem_cons.mp hx2 with rfl | hx3
      · exact hb1
      · exact hbs x (by rw [h1]; exact List.mem_append_right _ (List.mem_cons_of_mem _ hx3))
  · refine ⟨{ b with last := ptr_add m size }, by rw [h2]; simp, ?_, k2⟩
    have := hb.2.2.2.1
    show b.addr + sizeof_ngx_pool_data_t ≤ m
    omega

/-- The `failed++` loop keeps `BlockOK`. -/
theorem failed_loop_ok (psize : Nat) (bs : List Block) (i cur : Nat)
    (hbs : ∀ b ∈ bs, BlockOK psize b) :
    ∀ b ∈ (ngx_palloc_block_failed bs i cur).1, BlockOK psize b := by
  have h := failed_loop_fields bs i cur
  generalize (ngx_palloc_block_failed bs i cur).1 = cs at h
  induction h with
  | nil => intro b hb; cases hb
  | cons hab _ ih =>
    rename_i a c as cs1 _
    intro b hb
    rcases List.mem_cons.mp hb with rfl | hb1
    · have hc := hbs c (List.mem_cons_self _ _)
      unfold BlockOK at hc ⊢
      rw [hab.1, hab.2.1, hab.2.2]
      exact hc
    · exact ih (fun x hx => hbs x (List.mem_cons_of_mem _ hx)) b hb1

theorem mem_take_drop {α : Type} (n : Nat) (l : List α) (P : α → Prop) (h : ∀ x ∈ l, P x) :
    (∀ x ∈ l.take n, P x) ∧ (∀ x ∈ l.drop n, P x) :=
  ⟨fun x hx => h x (List.mem_of_mem_take hx), fun x hx => h x (List.mem_of_mem_drop hx)⟩

/-- The block size `ngx_palloc_block` computes from the pool's own block. -/
theorem psize_eq (psize : Nat) (pool : Pool) (hok : PoolOK psize pool) :
    ptr_diff pool.d.end_ pool.d.addr = psize := by
  obtain ⟨_, _, _, hne, hbs⟩ := hok
  cases hb : pool.blocks with
  | nil => exact absurd hb hne
  | cons b bs =>
    obtain ⟨h1, h2, _, _, _⟩ := hbs b (by rw [hb]; exact List.mem_cons_self _ _)
    simp only [Pool.d, hb, List.headD_cons]
    unfold ptr_diff
    unfold WORD at *
    omega

/-- A small request of at most `psize - 32` bytes keeps the pool invariant,
and a non-null result lies between the header and the end of a block of the
resulting chain. -/
theorem ngx_palloc_small_ok (psize : Nat) (pool : Pool) (size : Nat) (al : Bool) (mem : Nat)
    (hok : PoolOK psize pool) (hsize : size + sizeof_ngx_pool_data_t ≤ psize)
    (hmem : MemOK psize mem) :
    PoolOK psize (ngx_palloc_small pool size al mem).2 ∧
      ((ngx_palloc_small pool size al mem).1 ≠ 0 →
        ∃ b ∈ (ngx_palloc_small pool size al mem).2.blocks,
          b.addr + sizeof_ngx_pool_data_t ≤ (ngx_palloc_small pool size al mem).1 ∧
          (ngx_palloc_small pool size al mem).1 + size ≤ b.end_) := by
  have hpsize := psize_eq psize pool hok
  obtain ⟨k1, k2, k3, k4, k5⟩ := hok
  obtain ⟨ht, hd⟩ := mem_take_drop pool.current pool.blocks (BlockOK psize) k5
  unfold ngx_palloc_small
  cases hscan : ngx_palloc_small_scan size al (List.drop pool.current pool.blocks) with
  | some v =>
    obtain ⟨m, bs⟩ := v
    obtain ⟨g1, b, g2, g3⟩ := scan_ok psize size al _ m bs k2 hd hscan
    simp only
    refine ⟨⟨k1, k2, k3, ?_, ?_⟩, fun _ => ⟨b, List.mem_append_right _ g2, g3⟩⟩
    · intro hnil
      rw [List.append_eq_nil] at hnil
      rw [hnil.2] at g2
      cases g2
    · intro x hx
      rcases List.mem_append.mp hx with hx1 | hx2
      · exact ht x hx1
      · exact g1 x hx2
  | none =>
    simp only
    unfold ngx_palloc_block
    by_cases hm : mem = 0
    · rw [if_pos hm]
      exact ⟨⟨k1, k2, k3, k4, k5⟩, fun h => absurd rfl h⟩
    · rw [if_neg hm]
      rcases hmem with h0 | ⟨ha, hfit⟩
      · exact absurd h0 hm
      · have hsmall : ngx_align_ptr (ptr_add mem sizeof_ngx_pool_data_t) NGX_ALIGMENT
            = mem + 32 := by
          have e1 : ptr_add mem sizeof_ngx_pool_data_t = mem + 32 := by
            unfold ptr_add sizeof_ngx_pool_data_t
            unfold WORD sizeof_ngx_pool_t at *
            omega
          rw [e1, ngx_align_ptr_small]
          · unfold NGX_ALIGMENT at ha; omega
          · unfold WORD sizeof_ngx_pool_t at *; omega
        have hnew : BlockOK psize
            { addr := mem
              last := ptr_add (ngx_align_ptr (ptr_add mem sizeof_ngx_pool_data_t) NGX_ALIGMENT) size
              end_ := ptr_add mem (ptr_diff pool.d.end_ pool.d.addr)
              failed := 0 } := by
          rw [hsmall, hpsize]
          unfold BlockOK ptr_add
          simp only
          unfold WORD sizeof_ngx_pool_data_t sizeof_ngx_pool_t at *
          refine ⟨by omega, by omega, ha, by omega, by omega⟩
        simp only
        refine ⟨⟨k1, k2, k3, by simp, ?_⟩, fun _ =>
          ⟨{ addr := mem
             last := ptr_add
               (ngx_align_ptr (ptr_add mem sizeof_ngx_pool_data_t) NGX_ALIGMENT) size
             end_ := ptr_add mem (ptr_diff pool.d.end_ pool.d.addr)
             failed := 0 }, by simp, ?_⟩⟩
        · intro x hx
          rcases List.mem_append.mp hx with hx1 | hx2
          · rcases List.mem_append.mp hx1 with hx3 | hx4
            · exact ht x hx3
            · exact failed_loop_ok psize _ _ _ hd x hx4
          · rw [List.mem_singleton] at hx2
            rw [hx2]; exact hnew
        · rw [hsmall, hpsize]
          unfold ptr_add
          simp only
          unfold WORD sizeof_ngx_pool_data_t sizeof_ngx_pool_t at *
          omega


/-- The pool invariant reads the chain and `max` only. -/
theorem PoolOK_congr (psize : Nat) (p q : Pool) (hb : q.blocks = p.blocks)
    (hm : q.max = p.max) (h : PoolOK psize p) : PoolOK psize q := by
  unfold PoolOK at h ⊢
  rw [hb, hm]
  exact h

theorem ngx_palloc_large_ok (psize : Nat) (pool : Pool) (size p n mem : Nat)
    (hok : PoolOK psize pool) (hmem : MemOK psize mem) :
    PoolOK psize (ngx_palloc_large pool size p n mem).2.1 := by
  have h16 : sizeof_ngx_pool_large_t + sizeof_ngx_pool_data_t ≤ psize := by
    have := hok.1
    unfold sizeof_ngx_pool_large_t sizeof_ngx_pool_data_t sizeof_ngx_pool_t at *
    omega
  have hs := (ngx_palloc_small_ok psize pool sizeof_ngx_pool_large_t true mem hok h16 hmem).1
  unfold ngx_palloc_large
  split
  · exact hok
  · split
    · exact PoolOK_congr psize pool _ rfl rfl hok
    · simp only
      split
      · exact hs
      · exact PoolOK_congr psize _ _ rfl rfl hs

/-- The entry point `ngx_palloc` keeps the pool invariant. -/
theorem ngx_palloc_ok (psize : Nat) (pool : Pool) (size : Nat) (env : Env)
    (hok : PoolOK psize pool) (hmem : MemOK psize env.memalign) :
    PoolOK psize (ngx_palloc pool size env).2.1 := by
  unfold ngx_palloc
  split
  · rename_i hle
    have hsz : size + sizeof_ngx_pool_data_t ≤ psize := by
      have := hok.2.2.1
      unfold sizeof_ngx_pool_data_t sizeof_ngx_pool_t at *
      omega
    exact (ngx_palloc_small_ok psize pool size true env.memalign hok hsz hmem).1
  · exact ngx_palloc_large_ok psize pool size _ _ _ hok hmem

/-- The entry point `ngx_pnalloc` keeps the pool invariant. -/
theorem ngx_pnalloc_ok (psize : Nat) (pool : Pool) (size : Nat) (env : Env)
    (hok : PoolOK psize pool) (hmem : MemOK psize env.memalign) :
    PoolOK psize (ngx_pnalloc pool size env).2.1 := by
  unfold ngx_pnalloc
  split
  · rename_i hle
    have hsz : size + sizeof_ngx_pool_data_t ≤ psize := by
      have := hok.2.2.1
      unfold sizeof_ngx_pool_data_t sizeof_ngx_pool_t at *
      omega
    exact (ngx_palloc_small_ok psize pool size false env.memalign hok hsz hmem).1
  · exact ngx_palloc_large_ok psize pool size _ _ _ hok hmem

/-- Registering a cleanup keeps the pool invariant. -/
theorem ngx_pool_cleanup_add_ok (psize : Nat) (pool : Pool) (size : Nat) (env1 env2 : Env)
    (hok : PoolOK psize pool) (h1 : MemOK psize env1.memalign)
    (h2 : MemOK psize env2.memalign) :
    PoolOK psize (ngx_pool_cleanup_add pool size env1 env2).2.1 := by
  have ha := ngx_palloc_ok psize pool sizeof_ngx_pool_cleanup_t env1 hok h1
  have hb := ngx_palloc_ok psize _ size env2 ha h2
  unfold ngx_pool_cleanup_add
  simp only
  split
  · exact ha
  · split
    · split
      · exact PoolOK_congr psize _ _ rfl rfl hb
      · exact PoolOK_congr psize _ _ rfl rfl hb
    · exact PoolOK_congr psize _ _ rfl rfl ha

/-- Resetting keeps the pool invariant: every cursor goes back to 80 bytes
after the start of its block, which a block of at least 80 bytes holds. -/
theorem ngx_reset_pool_ok (psize : Nat) (pool : Pool) (hok : PoolOK psize pool) :
    PoolOK psize (ngx_reset_pool pool).1 := by
  obtain ⟨k1, k2, k3, k4, k5⟩ := hok
  unfold ngx_reset_pool
  refine ⟨k1, k2, k3, ?_, ?_⟩
  · simpa using k4
  · intro x hx
    simp only [List.mem_map] at hx
    obtain ⟨b, hb, rfl⟩ := hx
    obtain ⟨g1, g2, g3, g4, g5⟩ := k5 b hb
    unfold BlockOK ptr_add
    simp only
    unfold WORD sizeof_ngx_pool_data_t sizeof_ngx_pool_t at *
    refine ⟨g1, g2, g3, by omega, by omega⟩

/-- A pool created with a block size that holds the header and is a multiple
of the word size, at a word-aligned address, satisfies the pool invariant. -/
theorem ngx_create_pool_ok (ngx_pagesize size p : Nat) (pool : Pool)
    (hsize : sizeof_ngx_pool_t ≤ size) (hal : NGX_ALIGMENT ∣ size)
    (hp : NGX_ALIGMENT ∣ p) (hfit : p + size < WORD)
    (hc : ngx_create_pool ngx_pagesize size p = some pool) : PoolOK size pool := by
  unfold ngx_create_pool at hc
  split at hc
  · simp at hc
  · simp only [Option.some.injEq] at hc
    subst hc
    have e2 : (size + WORD - sizeof_ngx_pool_t) % WORD = size - sizeof_ngx_pool_t := by
      unfold WORD sizeof_ngx_pool_t at *
      omega
    refine ⟨hsize, hal, ?_, by simp, ?_⟩
    · simp only [e2]
      split <;> omega
    · intro b hb
      simp only [List.mem_singleton] at hb
      subst hb
      unfold BlockOK ptr_add
      simp only
      unfold WORD sizeof_ngx_pool_data_t sizeof_ngx_pool_t at *
      refine ⟨by omega, by omega, hp, by omega, by omega⟩

/-- Every operation keeps the pool invariant. -/
theorem Op.run_ok (psize : Nat) (pool : Pool) (op : Op) (hok : PoolOK psize pool)
    (hop : op.OK psize) : PoolOK psize (Op.run pool op) := by
  cases op with
  | palloc size env => exact ngx_palloc_ok psize pool size env hok hop
  | pnalloc size env => exact ngx_pnalloc_ok psize pool size env hok hop
  | pcalloc size env => exact ngx_palloc_ok psize pool size env hok hop
  | cleanup_add size env1 env2 =>
    exact ngx_pool_cleanup_add_ok psize pool size env1 env2 hok hop.1 hop.2
  | reset => exact ngx_reset_pool_ok psize pool hok

theorem run_ops_ok (psize : Nat) :
    ∀ (ops : List Op) (pool : Pool), PoolOK psize pool → (∀ op ∈ ops, op.OK psize) →
      PoolOK psize (run_ops pool ops) := by
  intro ops
  induction ops with
  | nil => intro pool h _; exact h
  | cons op ops ih =>
    intro pool h hops
    exact ih (Op.run pool op)
      (Op.run_ok psize pool op h (hops op (List.mem_cons_self _ _)))
      (fun x hx => hops x (List.mem_cons_of_mem _ hx))

/-- A counterexample to C2 as stated, in two parts.  A block size of 16 bytes,
below the header size, gives a pool whose cursor 4176 lies past its end 4112
from the start.  A block size of 100 bytes, not a multiple of the word size:
after `ngx_pnalloc(pool, 20)` has moved the cursor to the end 4196,
`ngx_palloc(pool, 1)` aligns it up to 4200, the wrapped distance passes the
test, and the cursor becomes 4201, past the end 4196. -/
theorem cursor_passes_end :
    ngx_create_pool 4096 16 4096 = some (Pool.mk [⟨4096, 4176, 4112, 0⟩] 4095 0 [] []) ∧
    (4112 : Nat) < 4176 ∧
    ngx_create_pool 4096 100 4096 = some (Pool.mk [⟨4096, 4176, 4196, 0⟩] 20 0 [] []) ∧
    run_ops (Pool.mk [⟨4096, 4176, 4196, 0⟩] 20 0 [] [])
        [Op.pnalloc 20 ⟨0, 0, 0⟩, Op.palloc 1 ⟨0, 0, 0⟩] =
      Pool.mk [⟨4096, 4201, 4196, 0⟩] 20 0 [] [] ∧
    (4196 : Nat) < 4201 := by
  refine ⟨by decide, by decide, by decide, by decide, by decide⟩

/-- Claim C2, amended: for every block size that is at least
`sizeof(ngx_pool_t)` and a multiple of the word size, passed to
`ngx_create_pool` (the heap returning word-aligned blocks inside the address
space), and every sequence of `ngx_palloc`, `ngx_pnalloc`, `ngx_pcalloc`,
`ngx_pool_cleanup_add` and `ngx_reset_pool` calls, every block of the chain
satisfies `d.last <= d.end` after every call of the sequence. -/
theorem cursor_le_end (ngx_pagesize size p : Nat) (pool : Pool) (ops : List Op)
    (hsize : sizeof_ngx_pool_t ≤ size) (hal : NGX_ALIGMENT ∣ size)
    (hp : NGX_ALIGMENT ∣ p) (hfit : p + size < WORD)
    (hc : ngx_create_pool ngx_pagesize size p = some pool)
    (hops : ∀ op ∈ ops, op.OK size) :
    ∀ k, ∀ b ∈ (run_ops pool (ops.take k)).blocks, b.last ≤ b.end_ := by
  intro k b hb
  have h0 := ngx_create_pool_ok ngx_pagesize size p pool hsize hal hp hfit hc
  have h1 := run_ops_ok size (ops.take k) pool h0
    (fun op hop => hops op (List.mem_of_mem_take hop))
  exact (h1.2.2.2.2 b hb).2.2.2.2

/-- Witness of C2 (amended): a pool of 4096 bytes at address 8192, then an
aligned request, an unaligned request, a cleanup registration and a reset. -/
theorem cursor_le_end_witness :
    (sizeof_ngx_pool_t ≤ 4096 ∧ NGX_ALIGMENT ∣ 4096 ∧ NGX_ALIGMENT ∣ 8192 ∧
      8192 + 4096 < WORD ∧
      ngx_create_pool 4096 4096 8192 = some (Pool.mk [⟨8192, 8272, 12288, 0⟩] 4016 0 [] [])) ∧
    ∀ k, ∀ b ∈ (run_ops (Pool.mk [⟨8192, 8272, 12288, 0⟩] 4016 0 [] [])
        ([Op.palloc 4000 ⟨0, 0, 0⟩, Op.pnalloc 17 ⟨0, 16384, 0⟩,
          Op.cleanup_add 8 ⟨0, 0, 0⟩ ⟨0, 0, 0⟩, Op.reset].take k)).blocks,
      b.last ≤ b.end_ :=
  ⟨⟨by decide, by decide, by decide, by decide, by decide⟩,
   cursor_le_end 4096 4096 8192 (Pool.mk [⟨8192, 8272, 12288, 0⟩] 4016 0 [] [])
     [Op.palloc 4000 ⟨0, 0, 0⟩, Op.pnalloc 17 ⟨0, 16384, 0⟩,
       Op.cleanup_add 8 ⟨0, 0, 0⟩ ⟨0, 0, 0⟩, Op.reset]
     (by decide) (by decide) (by decide) (by decide) (by decide)
     (by
       intro op hop
       simp only [List.mem_cons, List.mem_singleton, List.not_mem_nil, or_false] at hop
       rcases hop with rfl | rfl | rfl | rfl
       · exact Or.inl rfl
       · exact Or.inr ⟨by decide, by decide⟩
       · exact ⟨Or.inl rfl, Or.inl rfl⟩
       · exact trivial)⟩

/-! ## Releasing a small pointer -/

/-- Claim C11, evaluated at a failing input: a pool of 4096 bytes at address 8192
(`max = 4016`) and the small requests 4016, 4016, 48 through `ngx_palloc`.
They all succeed with two blocks: the second request appends a block at
16384, served from 16416, and the third takes the 48 bytes that remain in it.
`ngx_reset_pool` puts the cursor of the appended block at 16384 + 80 = 16464
instead of 16416, so in the replay the second request fills that block, and
the third invokes `ngx_palloc_block`: the chain has three blocks. -/
theorem reset_replay_appends_block :
    run_requests (Pool.mk [⟨8192, 8272, 12288, 0⟩] 4016 0 [] [])
        [⟨4016, true, ⟨0, 0, 0⟩⟩, ⟨4016, true, ⟨0, 16384, 0⟩⟩, ⟨48, true, ⟨0, 24576, 0⟩⟩] =
      ([(8272, 4016), (16416, 4016), (20432, 48)],
       Pool.mk [⟨8192, 12288, 12288, 0⟩, ⟨16384, 20480, 20480, 0⟩] 4016 0 [] []) ∧
    ngx_reset_pool (Pool.mk [⟨8192, 12288, 12288, 0⟩, ⟨16384, 20480, 20480, 0⟩] 4016 0 [] []) =
      (Pool.mk [⟨8192, 8272, 12288, 0⟩, ⟨16384, 16464, 20480, 0⟩] 4016 0 [] [], []) ∧
    run_requests (Pool.mk [⟨8192, 8272, 12288, 0⟩, ⟨16384, 16464, 20480, 0⟩] 4016 0 [] [])
        [⟨4016, true, ⟨0, 0, 0⟩⟩, ⟨4016, true, ⟨0, 16384, 0⟩⟩, ⟨48, true, ⟨0, 24576, 0⟩⟩] =
      ([(8272, 4016), (16464, 4016), (24608, 48)],
       Pool.mk [⟨8192, 12288, 12288, 1⟩, ⟨16384, 20480, 20480, 0⟩, ⟨24576, 24656, 28672, 0⟩]
         4016 0 [] []) := by
  refine ⟨by decide, by decide, by decide⟩

theorem free_large_count (a : Nat) (ha : a ≠ 0) (ls : List Large) :
    (free_large ls).count a = (ls.filter (fun l => l.alloc = a)).length := by
  unfold free_large
  induction ls with
  | nil => rfl
  | cons l ls ih =>
    by_cases h0 : l.alloc = 0
    · have hne : ¬ l.alloc = a := fun h => ha (by rw [← h, h0])
      have hne0 : ¬ 0 = a := fun h => ha h.symm
      simp only [List.filter_cons, h0, hne0, ne_eq, not_true_eq_false, decide_False,
        Bool.false_eq_true, if_false] at ih ⊢
      exact ih
    · by_cases h1 : l.alloc = a
      · have h0a : ¬ a = 0 := ha
        simp only [List.filter_cons, h0, h1, h0a, ne_eq, not_false_eq_true, decide_True,
          if_true, List.map_cons, List.count_cons_self, List.length_cons] at ih ⊢
        rw [ih]
      · simp only [List.filter_cons, h0, h1, ne_eq, not_false_eq_true, decide_True, if_true,
          decide_False, Bool.false_eq_true, if_false, List.map_cons] at ih ⊢
        rw [List.count_cons_of_ne (fun h => h1 h.symm), ih]

theorem free_large_nonnull (ls : List Large) : 0 ∉ free_large ls := by
  unfold free_large
  intro h
  rw [List.mem_map] at h
  obtain ⟨l, hl, h0⟩ := h
  rw [List.mem_filter] at hl
  simp [h0] at hl

/-- Claim C12, evaluated at a failing input: a fresh pool of 4096 bytes at address
8192 on which one cleanup entry was registered (no data, handler 1); its cell is
at 8272.  `ngx_reset_pool` puts the cursor of the block back to 8272 and
leaves `pool->cleanup` as it is: the list is not empty, it still holds the
cell at 8272, which now lies in the free part of the block, and an
`ngx_destroy_pool` right after the reset calls handler 1.  The next
registration (handler 2) is given the cell at 8272 again: its `next` is set to
the old head, which is the cell itself, and `ngx_destroy_pool` calls handler
2 and comes back to the same cell without end. -/
theorem reset_leaves_cleanup_dangling :
    register (Pool.mk [⟨8192, 8272, 12288, 0⟩] 4016 0 [] []) ⟨0, 1, ⟨0, 0, 0⟩, ⟨0, 0, 0⟩⟩
      = some (Pool.mk [⟨8192, 8296, 12288, 0⟩] 4016 0 [] [⟨8272, 1, 0⟩], (1, 0)) ∧
    ngx_reset_pool (Pool.mk [⟨8192, 8296, 12288, 0⟩] 4016 0 [] [⟨8272, 1, 0⟩])
      = (Pool.mk [⟨8192, 8272, 12288, 0⟩] 4016 0 [] [⟨8272, 1, 0⟩], []) ∧
    (ngx_reset_pool (Pool.mk [⟨8192, 8296, 12288, 0⟩] 4016 0 [] [⟨8272, 1, 0⟩])).1.cleanup
      ≠ [] ∧
    ngx_destroy_pool (Pool.mk [⟨8192, 8272, 12288, 0⟩] 4016 0 [] [⟨8272, 1, 0⟩])
      = [Event.handler 1 0, Event.free 8192] ∧
    register (Pool.mk [⟨8192, 8272, 12288, 0⟩] 4016 0 [] [⟨8272, 1, 0⟩])
        ⟨0, 2, ⟨0, 0, 0⟩, ⟨0, 0, 0⟩⟩
      = some (Pool.mk [⟨8192, 8296, 12288, 0⟩] 4016 0 [] [⟨8272, 2, 0⟩, ⟨8272, 2, 0⟩],
          (2, 0)) ∧
    ngx_destroy_pool (Pool.mk [⟨8192, 8296, 12288, 0⟩] 4016 0 [] [⟨8272, 2, 0⟩, ⟨8272, 2, 0⟩])
      = [Event.handler 2 0, Event.forever] := by
  refine ⟨by decide, by decide, by decide, by decide, by decide, by decide⟩

/-- A pool of 4096 bytes whose cleanup list holds the two entries registered
at 8304 and 8272 and which records a large allocation: after
`ngx_reset_pool` the large allocation is freed and the list still holds both
entries. -/
theorem reset_keeps_cleanup :
    (ngx_reset_pool (Pool.mk [⟨8192, 8328, 12288, 0⟩] 4016 0 [⟨8336, 100000⟩]
      [⟨8304, 2, 0⟩, ⟨8272, 1, 8296⟩])) =
      (Pool.mk [⟨8192, 8272, 12288, 0⟩] 4016 0 [] [⟨8304, 2, 0⟩, ⟨8272, 1, 8296⟩], [100000]) ∧
    ([⟨8304, 2, 0⟩, ⟨8272, 1, 8296⟩] : List Cleanup) ≠ [] := by
  refine ⟨by decide, by decide⟩

/-- What `ngx_reset_pool(pool)` does: every non-NULL large allocation that was
recorded is passed to `ngx_free` once for each entry that recorded it (and
nothing else is, so no block is released), `pool->large` is empty afterwards,
the pointer `pool->cleanup` and the cells it leads to are as they were (the
call runs no handler: it has no other effect than the frees), and the chain
holds the same blocks with the same ends. -/
theorem ngx_reset_pool_effect (pool : Pool) :
    (ngx_reset_pool pool).1.large = [] ∧
      (ngx_reset_pool pool).2 = free_large pool.large ∧
      (∀ a, a ≠ 0 →
        (ngx_reset_pool pool).2.count a = (pool.large.filter (fun l => l.alloc = a)).length) ∧
      (∀ a ∈ (ngx_reset_pool pool).2, a ≠ 0 ∧ ∃ l ∈ pool.large, l.alloc = a) ∧
      (ngx_reset_pool pool).1.cleanup = pool.cleanup ∧
      (ngx_reset_pool pool).1.blocks.map Block.addr = pool.blocks.map Block.addr ∧
      (ngx_reset_pool pool).1.blocks.map Block.end_ = pool.blocks.map Block.end_ := by
  refine ⟨rfl, rfl, fun a ha => free_large_count a ha pool.large, ?_, rfl, ?_, ?_⟩
  · intro a ha
    refine ⟨fun h => free_large_nonnull pool.large (h ▸ ha), ?_⟩
    have ha1 : a ∈ free_large pool.large := ha
    unfold free_large at ha1
    rw [List.mem_map] at ha1
    obtain ⟨l, hl, h0⟩ := ha1
    exact ⟨l, (List.mem_filter.mp hl).1, h0⟩
  · simp [ngx_reset_pool, Function.comp_def]
  · simp [ngx_reset_pool, Function.comp_def]

/-- Claim C13, evaluated at a failing input: the two-block pool of 4096-byte blocks
at 8192 and 16384.  `ngx_palloc_block` creates the second block with its
first free byte at 16384 + `sizeof(ngx_pool_data_t)` = 16416 (the address it
returns for a request of 0 bytes), but `ngx_reset_pool` leaves its cursor at
16384 + `sizeof(ngx_pool_t)` = 16464, 48 bytes further; the first block gets
8192 + 80 = 8272, and the ends are unchanged. -/
theorem reset_cursor_of_appended_block :
    ngx_palloc_block (Pool.mk [⟨8192, 12288, 12288, 0⟩] 4016 0 [] []) 0 16384 =
      (16416, Pool.mk [⟨8192, 12288, 12288, 0⟩, ⟨16384, 16416, 20480, 0⟩] 4016 0 [] []) ∧
    (ngx_reset_pool
      (Pool.mk [⟨8192, 12288, 12288, 0⟩, ⟨16384, 20480, 20480, 0⟩] 4016 0 [] [])).1.blocks =
      [⟨8192, 8272, 12288, 0⟩, ⟨16384, 16464, 20480, 0⟩] ∧
    16464 = 16384 + sizeof_ngx_pool_t ∧
    16464 ≠ ngx_align_ptr (16384 + sizeof_ngx_pool_data_t) NGX_ALIGMENT := by
  refine ⟨by decide, by decide, by decide, by decide⟩

/-! ## Failure of the backing allocator -/

/-- When `ngx_memalign` returns `NULL` for the block a small request needs, the
request returns `NULL` and the pool is as it was. -/
theorem ngx_palloc_small_null (pool : Pool) (size : Nat) (al : Bool)
    (h : ngx_palloc_small_scan size al (pool.blocks.drop pool.current) = none) :
    ngx_palloc_small pool size al 0 = (0, pool) := by
  unfold ngx_palloc_small
  rw [h]
  rfl

/-- When `ngx_alloc` returns `NULL`, or `ngx_memalign` returns `NULL` for the
block the tracking node needs, `ngx_palloc_large` returns `NULL`, leaves the
pool as it was, and in the second case passes the payload to `ngx_free`. -/
theorem ngx_palloc_large_null (pool : Pool) (size p n : Nat) :
    ngx_palloc_large pool size 0 n 0 = (0, pool, []) ∧
      (p ≠ 0 → ngx_palloc_large_scan p pool.large n = none →
        ngx_palloc_small_scan sizeof_ngx_pool_large_t true (pool.blocks.drop pool.current)
          = none →
        ngx_palloc_large pool size p n 0 = (0, pool, [p])) := by
  constructor
  · unfold ngx_palloc_large
    rw [if_pos rfl]
  · intro hp h1 h2
    unfold ngx_palloc_large
    rw [if_neg hp, h1]
    simp only [ngx_palloc_small_null pool _ true h2, if_true]

/-- Claim C14, evaluated at a failing input: a pool of 4096 bytes at 8192 whose
block is full, and `ngx_palloc(pool, 100)`.  The scan finds no room and
`ngx_palloc_block` calls `ngx_memalign`; `posix_memalign` fails with `ENOMEM`
(12) and leaves the never assigned local `p` of `ngx_memalign` as it is, here
24576, which `ngx_memalign` returns.  The test `m == NULL` does not fire: the
call returns 24608 instead of `NULL` and appends a block at the address 24576
that the heap never handed out. -/
theorem palloc_block_after_failed_memalign :
    ngx_memalign_posix 12 0 24576 = 24576 ∧
    ngx_palloc (Pool.mk [⟨8192, 12288, 12288, 0⟩] 4016 0 [] []) 100
        ⟨0, ngx_memalign_posix 12 0 24576, 0⟩ =
      (24608,
       Pool.mk [⟨8192, 12288, 12288, 0⟩, ⟨24576, 24708, 28672, 0⟩] 4016 0 [] [], []) ∧
    ngx_palloc (Pool.mk [⟨8192, 12288, 12288, 0⟩] 4016 0 [] []) 100
        ⟨0, ngx_memalign_memalign 0, 0⟩ =
      (0, Pool.mk [⟨8192, 12288, 12288, 0⟩] 4016 0 [] [], []) := by
  refine ⟨by decide, by decide, by decide⟩

end NgxPalloc

/-!
# Facts about the slab allocator
-/

namespace NgxSlab

open NgxPalloc (WORD ngx_align_ptr ptr_add ptr_diff)

/-! ## The size class computation -/

/-- The loop of ngx_slab.c:209 never ends when `s >> 1` is not zero, since `s` is
never changed. -/
theorem shift_loop_stuck (s : Nat) (hs : s >>> 1 ≠ 0) :
    ∀ fuel shift, shift_loop fuel s shift = none := by
  intro fuel
  induction fuel with
  | zero => intro shift; rfl
  | succ f ih =>
    intro shift
    simp only [shift_loop]
    rw [if_pos hs]
    exact ih _

/-- For every pool, a request above `pool->min_size` of at least 3 bytes never
gets a size class: the loop does not end, whatever the fuel. -/
theorem slab_class_stuck (pool : ngx_slab_pool_t) (size fuel : Nat) (junk : Junk)
    (h1 : pool.min_size < size) (h3 : 3 ≤ size) (hw : size < WORD) :
    slab_class fuel junk pool size = none := by
  unfold slab_class
  rw [if_pos h1]
  have hs : ((size + WORD - 1) % WORD) >>> 1 ≠ 0 := by
    have e : (size + WORD - 1) % WORD = size - 1 := by
      unfold WORD at *
      omega
    rw [e, Nat.shiftRight_eq_div_pow]
    omega
  rw [shift_loop_stuck _ hs]

/-- For every pool, a request of at most `pool->min_size` bytes gets
`shift = pool->min_size` and the unassigned `slot`. -/
theorem slab_class_min (pool : ngx_slab_pool_t) (size fuel : Nat) (junk : Junk)
    (h : size ≤ pool.min_size) :
    slab_class fuel junk pool size = some (pool.min_size, junk.slot) := by
  unfold slab_class
  rw [if_neg (by omega)]

/-- Claim C15, evaluated at the scenario: the pool over the region
`[1048576, 1118208)` with 4096-byte pages and `min_shift = 3` has exactly 16
data pages, from 1052672 to the end of the region.  The first
`ngx_slab_alloc_locked(pool, 1024)` never returns, whatever the fuel: the loop
`for (s = size - 1; s >> 1; shift++)` tests `1023 >> 1` again and again
without changing `s`.  No address is returned, so none of the four addresses
`start + 0, 1024, 2048, 3072` is. -/
theorem slab_alloc_1024_never_returns :
    sizes4096 = ⟨2048, 64, 6⟩ ∧
    pool16.pfree = 16 ∧ pool16.min_shift = 3 ∧ pool16.min_size = 8 ∧
    pool16.start = 1052672 ∧ pool16.end_ = 1052672 + 16 * 4096 ∧
    ∀ fuel junk,
      ngx_slab_alloc_locked cfg4096 sizes4096 fuel junk pool16 1024 = Outcome.timeout := by
  refine ⟨by decide, by decide, by decide, by decide, by decide, by decide, ?_⟩
  intro fuel junk
  unfold ngx_slab_alloc_locked
  rw [slab_class_stuck pool16 1024 fuel junk (by decide) (by decide) (by decide)]

/-- Claim C16, evaluated at two failing inputs on the 16-page pool
(`min_shift = 3`, `min_size = 8`).  For `size = 1024` the computation of
`shift` never ends, so no `shift` with `2^shift = 1024` is chosen.  For
`size = 8` the code sets `shift = pool->min_size = 8`, not `min_shift = 3`,
and leaves `slot` unassigned: the slot used is whatever the local holds, not
`shift - min_shift = 0`. -/
theorem slab_class_wrong :
    pool16.min_shift = 3 ∧ pool16.min_size = 8 ∧
    (∀ fuel junk, slab_class fuel junk pool16 1024 = none) ∧
    (∀ fuel junk, slab_class fuel junk pool16 8 = some (8, junk.slot)) ∧
    slab_class 100 ⟨5, 0⟩ pool16 8 = some (8, 5) := by
  refine ⟨by decide, by decide, ?_, ?_, by decide⟩
  · intro fuel junk
    exact slab_class_stuck pool16 1024 fuel junk (by decide) (by decide) (by decide)
  · intro fuel junk
    exact slab_class_min pool16 8 fuel junk (by decide)

/-- Claim C19, evaluated at a failing input: 65536-byte pages (so
`ngx_slab_exact_shift = 10`), a pool of 16 data pages from 1114112 with
`min_shift = 3`, and `ngx_slab_alloc_locked(pool, 8)` with the unassigned
`slot` holding 0.  The code sets `shift = 8 < ngx_slab_exact_shift`, takes a
page from the free list (`pfree` drops to 15), runs the empty branch of ngx_slab.c:275,
and returns the local `p`, which was never assigned: with `p` holding 1 the
call returns the non-null pointer 1, which lies below `pool->start`. -/
theorem slab_alloc_returns_unassigned :
    sizes65536 = ⟨32768, 1024, 10⟩ ∧
    pool64k.start = 1114112 ∧ pool64k.pfree = 16 ∧ pool64k.min_size = 8 ∧
    (ngx_slab_alloc_locked cfg65536 sizes65536 10 ⟨0, 1⟩ pool64k 8).value?.map
      (fun r => (r.1, r.2.pfree)) = some (1, 15) ∧
    ¬ (pool64k.start ≤ 1) := by
  refine ⟨by decide, by decide, by decide, by decide, by decide, by decide⟩

/-- Claim C20, evaluated at two failing inputs, 4096-byte pages, 16 data pages.
With `min_shift = 3` the first `ngx_slab_alloc_locked(pool, 8)` (the unassigned
`slot` holding 7) attaches a page and adds `4096 >> 8 = 16` to `total`, as
`shift` was set to `min_size = 8`; the class of 8-byte chunks has `shift = 3`
and `4096 >> 3 = 512` chunks in a page.  With `min_shift = 4` the first
`ngx_slab_alloc_locked(pool, 16)` has `shift = 16`, adds `4096 >> 16 = 0` to
`total` and 1 to `used`: `used = 1 > total = 0`. -/
theorem slab_stats_wrong :
    (ngx_slab_alloc_locked cfg4096 sizes4096 10 ⟨7, 0⟩ pool16 8).value?.map
      (fun r => (r.1, r.2.stats[7]?)) = some (1052672, some ⟨16, 1, 1⟩) ∧
    4096 >>> pool16.min_shift = 512 ∧
    pool16m4.min_size = 16 ∧ pool16m4.pfree = 16 ∧
    (ngx_slab_alloc_locked cfg4096 sizes4096 10 ⟨0, 0⟩ pool16m4 16).value?.map
      (fun r => (r.1, r.2.stats[0]?)) = some (1052672, some ⟨0, 1, 1⟩) := by
  refine ⟨by decide, by decide, by decide, by decide, by decide⟩

end NgxSlab

namespace NgxSlab

open NgxPalloc (WORD ngx_align_ptr ptr_add ptr_diff)

/-! ## Initialization -/

/-- Claim C17: after `ngx_slab_init(pool)` on a region with room for at least one
page and its descriptor, with `N = pool->pfree` the number of data pages:
`pool->free.next` is the first descriptor `pool->pages[0]`, whose `slab` is
`N`, whose `next` is the sentinel `&pool->free` and whose `prev` refers to the
sentinel, so the free list holds exactly one run; `pool->last` is
`pool->pages + N`; every size-class slot is an empty circular list
(`slots[i].next = &slots[i]`) and every stats entry is zero. -/
theorem ngx_slab_init_state (cfg : Cfg) (addr end_ min_shift : Nat)
    (h : 0 < slab_pages0 cfg addr end_ min_shift) :
    (ngx_slab_init cfg addr end_ min_shift).free.next = PageRef.page 0 ∧
      load (ngx_slab_init cfg addr end_ min_shift) (PageRef.page 0) =
        some ⟨(ngx_slab_init cfg addr end_ min_shift).pfree, PageRef.free,
          ⟨PageRef.free, 0⟩⟩ ∧
      (ngx_slab_init cfg addr end_ min_shift).last
        = (ngx_slab_init cfg addr end_ min_shift).pfree ∧
      (ngx_slab_init cfg addr end_ min_shift).slots.length = slab_classes cfg min_shift ∧
      (∀ i, i < slab_classes cfg min_shift →
        load (ngx_slab_init cfg addr end_ min_shift) (PageRef.slot i) =
          some ⟨0, PageRef.slot i, ⟨PageRef.null, 0⟩⟩) ∧
      (ngx_slab_init cfg addr end_ min_shift).stats
        = List.replicate (slab_classes cfg min_shift) ⟨0, 0, 0⟩ := by
  refine ⟨rfl, ?_, rfl, ?_, ?_, rfl⟩
  · simp only [load, ngx_slab_init]
    rw [List.getElem?_set_self]
    simpa using h
  · simp [ngx_slab_init]
  · intro i hi
    simp [load, ngx_slab_init, List.getElem?_map, List.getElem?_range hi]

/-- Witness of C17: the pool of 16 data pages of the scenarios. -/
theorem ngx_slab_init_state_witness :
    0 < slab_pages0 cfg4096 1048576 1118208 3 ∧
    ((ngx_slab_init cfg4096 1048576 1118208 3).free.next = PageRef.page 0 ∧
      load (ngx_slab_init cfg4096 1048576 1118208 3) (PageRef.page 0) =
        some ⟨(ngx_slab_init cfg4096 1048576 1118208 3).pfree, PageRef.free,
          ⟨PageRef.free, 0⟩⟩ ∧
      (ngx_slab_init cfg4096 1048576 1118208 3).last
        = (ngx_slab_init cfg4096 1048576 1118208 3).pfree ∧
      (ngx_slab_init cfg4096 1048576 1118208 3).slots.length = slab_classes cfg4096 3 ∧
      (∀ i, i < slab_classes cfg4096 3 →
        load (ngx_slab_init cfg4096 1048576 1118208 3) (PageRef.slot i) =
          some ⟨0, PageRef.slot i, ⟨PageRef.null, 0⟩⟩) ∧
      (ngx_slab_init cfg4096 1048576 1118208 3).stats
        = List.replicate (slab_classes cfg4096 3) ⟨0, 0, 0⟩) ∧
    (ngx_slab_init cfg4096 1048576 1118208 3).pfree = 16 :=
  ⟨by decide, ngx_slab_init_state cfg4096 1048576 1118208 3 (by decide), by decide⟩

/-- The mask `~(2^k - 1)` on 64 bits keeps the bits from `k` up. -/
theorem mask_pow_testBit (k i : Nat) (hk : k ≤ 64) :
    (WORD - 1 - (2 ^ k - 1)).testBit i = (decide (k ≤ i) && decide (i < 64)) := by
  have hpow : 2 ^ k * 2 ^ (64 - k) = WORD := by
    rw [← Nat.pow_add]
    have : k + (64 - k) = 64 := by omega
    rw [this]; rfl
  have hpos : 0 < 2 ^ (64 - k) := Nat.pow_pos (by norm_num)
  have hpk : 0 < 2 ^ k := Nat.pow_pos (by norm_num)
  have h : WORD - 1 - (2 ^ k - 1) = 2 ^ k * (2 ^ (64 - k) - 1) := by
    rw [Nat.mul_sub, Nat.mul_one, hpow]
    omega
  rw [h, Nat.testBit_mul_pow_two, Nat.testBit_two_pow_sub_one]
  by_cases h1 : k ≤ i
  · by_cases h64 : i < 64
    · have : i - k < 64 - k := by omega
      simp [h1, h64, this]
    · have : ¬ (i - k < 64 - k) := by omega
      simp [h1, h64, this]
  · simp [h1]

theorem land_mask_pow (k y : Nat) (hk : k ≤ 64) (hy : y < WORD) :
    y &&& (WORD - 1 - (2 ^ k - 1)) = 2 ^ k * (y / 2 ^ k) := by
  apply Nat.eq_of_testBit_eq
  intro i
  rw [Nat.testBit_and, mask_pow_testBit k i hk, Nat.testBit_mul_pow_two,
    ← Nat.shiftRight_eq_div_pow, Nat.testBit_shiftRight]
  by_cases h1 : k ≤ i
  · by_cases h64 : i < 64
    · have : k + (i - k) = i := by omega
      simp [h1, h64, this]
    · have hlt : y < 2 ^ i := by
        have : (2:Nat) ^ 64 ≤ 2 ^ i := Nat.pow_le_pow_right (by norm_num) (by omega)
        unfold WORD at hy
        omega
      have e1 : y.testBit i = false := Nat.testBit_lt_two_pow hlt
      have : k + (i - k) = i := by omega
      simp [h1, h64, this, e1]
  · simp [h1]

/-- Below the top of the address space `ngx_align_ptr(p, 2^k)` is the least
multiple of `2^k` that is at least `p`. -/
theorem ngx_align_ptr_pow (k p : Nat) (hk : k ≤ 64) (hp : p + (2 ^ k - 1) < WORD) :
    ngx_align_ptr p (2 ^ k) = 2 ^ k * ((p + (2 ^ k - 1)) / 2 ^ k) := by
  unfold ngx_align_ptr
  rw [Nat.mod_eq_of_lt hp]
  exact land_mask_pow k _ hk hp

end NgxSlab

namespace NgxSlab

open NgxPalloc (WORD ngx_align_ptr ptr_add ptr_diff)

/-- The arithmetic of `ngx_slab_init` on a region with room for the arrays and
one page with its descriptor: `P` is the address after the stats array, `R`
the bytes from there to the end, `d` the size of a descriptor, `ps >= 2` the
page size, `st` the aligned start. -/
theorem init_arith (P R d ps st pages0 q : Nat) (hps : 2 ≤ ps)
    (hR : P + R < WORD) (hroom : ps + d ≤ R)
    (hp0 : pages0 = R / (ps + d))
    (hst2 : st < P + pages0 * d + ps)
    (hq : q = (P + R - st) / ps) :
    st ≤ P + R ∧ q * ps ≤ P + R - st ∧ 2 * q < WORD ∧ 2 * pages0 < WORD ∧
      (q < pages0 ∨ pages0 * ps ≤ q * ps) := by
  have h1 : pages0 * (ps + d) ≤ R := by rw [hp0]; exact Nat.div_mul_le_self _ _
  rw [Nat.mul_add] at h1
  have hpos : 1 ≤ pages0 := by
    rw [hp0]
    exact (Nat.le_div_iff_mul_le (by omega)).mpr (by omega)
  have h2 : ps ≤ pages0 * ps := Nat.le_mul_of_pos_left _ hpos
  have h3 : q * ps ≤ P + R - st := by rw [hq]; exact Nat.div_mul_le_self _ _
  have h4 : 2 * q ≤ q * ps := by
    rw [Nat.mul_comm 2 q]; exact Nat.mul_le_mul_left _ hps
  have h5 : 2 * pages0 ≤ pages0 * ps := by
    rw [Nat.mul_comm 2 pages0]; exact Nat.mul_le_mul_left _ hps
  refine ⟨by omega, h3, by omega, by omega, ?_⟩
  by_cases hlt : q < pages0
  · exact Or.inl hlt
  · exact Or.inr (Nat.mul_le_mul_right _ (by omega))

/-- A counterexample to C18 as stated: the region `[1048576, 1049380)`, 4096-byte
pages, `min_shift = 3`.  It holds the pool header and the slot and stats
arrays and 100 more bytes, less than a page.  `ngx_slab_init` computes
`pages = 0` and `pool->start = 1052672`, the next page boundary, which lies
after `pool->end = 1049380`: `start + pfree * ngx_pagesize <= end` fails. -/
theorem ngx_slab_init_small_region :
    (ngx_slab_init cfg4096 1048576 1049380 3).pages_addr = 1049280 ∧
    (ngx_slab_init cfg4096 1048576 1049380 3).pfree = 0 ∧
    (ngx_slab_init cfg4096 1048576 1049380 3).start = 1052672 ∧
    (ngx_slab_init cfg4096 1048576 1049380 3).end_ = 1049380 ∧
    ¬ ((ngx_slab_init cfg4096 1048576 1049380 3).start
        + (ngx_slab_init cfg4096 1048576 1049380 3).pfree * cfg4096.ngx_pagesize
      ≤ (ngx_slab_init cfg4096 1048576 1049380 3).end_) := by
  refine ⟨by decide, by decide, by decide, by decide, by decide⟩

/-- Claim C18, amended: for every region handed to `ngx_slab_init` that lies in
the address space and has room for the pool header, the slot and stats arrays
and at least one page with its descriptor (the page size being
`2^ngx_pagesize_shift >= 2` and `min_shift <= ngx_pagesize_shift`), the
resulting layout is consistent: the slot array, the stats array and the
page-descriptor array are laid out in that order, each ending where the next
begins, `pool->start` is a multiple of `ngx_pagesize` and lies at or after the
end of the page-descriptor array, and
`pool->start + pool->pfree * ngx_pagesize <= pool->end`. -/
theorem ngx_slab_init_layout (cfg : Cfg) (addr end_ min_shift : Nat)
    (hps : cfg.ngx_pagesize = 2 ^ cfg.ngx_pagesize_shift)
    (hk1 : 1 ≤ cfg.ngx_pagesize_shift) (hk : cfg.ngx_pagesize_shift < 64)
    (hmin : min_shift ≤ cfg.ngx_pagesize_shift)
    (hroom : addr + cfg.sizeof_ngx_slab_pool_t
        + (cfg.ngx_pagesize_shift - min_shift)
          * (cfg.sizeof_ngx_slab_page_t + cfg.sizeof_ngx_slab_stat_t)
        + (cfg.ngx_pagesize + cfg.sizeof_ngx_slab_page_t) ≤ end_)
    (hend : end_ < WORD) :
    ngx_slab_slots cfg addr = addr + cfg.sizeof_ngx_slab_pool_t ∧
      (ngx_slab_init cfg addr end_ min_shift).stats_addr =
        ngx_slab_slots cfg addr
          + (ngx_slab_init cfg addr end_ min_shift).slots.length
            * cfg.sizeof_ngx_slab_page_t ∧
      (ngx_slab_init cfg addr end_ min_shift).pages_addr =
        (ngx_slab_init cfg addr end_ min_shift).stats_addr
          + (ngx_slab_init cfg addr end_ min_shift).stats.length
            * cfg.sizeof_ngx_slab_stat_t ∧
      (ngx_slab_init cfg addr end_ min_shift).pages_addr
          + (ngx_slab_init cfg addr end_ min_shift).pages.length
            * cfg.sizeof_ngx_slab_page_t
        ≤ (ngx_slab_init cfg addr end_ min_shift).start ∧
      (ngx_slab_init cfg addr end_ min_shift).pfree
        ≤ (ngx_slab_init cfg addr end_ min_shift).pages.length ∧
      cfg.ngx_pagesize ∣ (ngx_slab_init cfg addr end_ min_shift).start ∧
      (ngx_slab_init cfg addr end_ min_shift).start
          + (ngx_slab_init cfg addr end_ min_shift).pfree * cfg.ngx_pagesize
        ≤ (ngx_slab_init cfg addr end_ min_shift).end_ := by
  obtain ⟨ps, k, szp, sp, ss⟩ := cfg
  simp only at hps hk1 hk hmin hroom
  subst hps
  have hps2 : 2 ≤ 2 ^ k := by
    calc 2 = 2 ^ 1 := rfl
      _ ≤ 2 ^ k := Nat.pow_le_pow_right (by norm_num) hk1
  have hn : slab_classes ⟨2 ^ k, k, szp, sp, ss⟩ min_shift = k - min_shift := by
    unfold slab_classes
    simp only
    unfold WORD
    omega
  generalize hnn : k - min_shift = n at hn hroom
  rw [Nat.mul_add] at hroom
  have hS : ngx_slab_slots ⟨2 ^ k, k, szp, sp, ss⟩ addr = addr + szp := by
    unfold ngx_slab_slots ptr_add
    simp only
    apply Nat.mod_eq_of_lt
    omega
  have hstats : ptr_add (addr + szp) (n * sp) = addr + szp + n * sp := by
    unfold ptr_add
    apply Nat.mod_eq_of_lt
    omega
  have hpages : ptr_add (addr + szp + n * sp) (n * ss) = addr + szp + n * sp + n * ss := by
    unfold ptr_add
    apply Nat.mod_eq_of_lt
    omega
  have hp0 : slab_pages0 ⟨2 ^ k, k, szp, sp, ss⟩ addr end_ min_shift
      = (end_ - (addr + szp + n * sp + n * ss)) / (2 ^ k + sp) := by
    unfold slab_pages0
    rw [hS, hn, Nat.mul_add]
    simp only
    congr 1
    unfold ptr_diff
    unfold WORD at *
    omega
  generalize hR : end_ - (addr + szp + n * sp + n * ss) = R at hp0
  generalize hP : addr + szp + n * sp + n * ss = P at hpages hR
  have hPR : P + R = end_ := by omega
  generalize hpg : slab_pages0 ⟨2 ^ k, k, szp, sp, ss⟩ addr end_ min_shift = pages0 at hp0
  have h1 : pages0 * (2 ^ k + sp) ≤ R := by rw [hp0]; exact Nat.div_mul_le_self _ _
  rw [Nat.mul_add] at h1
  have hpos : 1 ≤ pages0 := by
    rw [hp0]
    exact (Nat.le_div_iff_mul_le (by omega)).mpr (by omega)
  have h2 : 2 ^ k ≤ pages0 * 2 ^ k := Nat.le_mul_of_pos_left _ hpos
  have hD : ptr_add P (pages0 * sp) = P + pages0 * sp := by
    unfold ptr_add
    apply Nat.mod_eq_of_lt
    omega
  have hal := ngx_align_ptr_pow k (P + pages0 * sp) (by omega) (by omega)
  generalize hu : (P + pages0 * sp + (2 ^ k - 1)) / 2 ^ k = u at hal
  have hu1 : 2 ^ k * u ≤ P + pages0 * sp + (2 ^ k - 1) := by
    rw [← hu]; exact Nat.mul_div_le _ _
  have hu2 : P + pages0 * sp + (2 ^ k - 1) < 2 ^ k * u + 2 ^ k := by
    rw [← hu]
    have := Nat.lt_mul_div_succ (P + pages0 * sp + (2 ^ k - 1)) (show 0 < 2 ^ k by omega)
    rw [Nat.mul_add, Nat.mul_one] at this
    exact this
  generalize hst : 2 ^ k * u = st at hal hu1 hu2
  obtain ⟨a1, a2, a3, a4, a5⟩ := init_arith P R sp (2 ^ k) st pages0
    ((P + R - st) / 2 ^ k) hps2 (by omega) (by omega) hp0 (by omega) rfl
  have hdiff : ptr_diff end_ st = P + R - st := by
    unfold ptr_diff
    unfold WORD at *
    omega
  generalize hq : (P + R - st) / 2 ^ k = q at a2 a3 a5
  have hstart : (ngx_slab_init ⟨2 ^ k, k, szp, sp, ss⟩ addr end_ min_shift).start = st := by
    simp only [ngx_slab_init, hS, hn, hstats, hpages, hP, hpg, hD, hal]
  have hpfree : (ngx_slab_init ⟨2 ^ k, k, szp, sp, ss⟩ addr end_ min_shift).pfree
      = if q < pages0 then q else pages0 := by
    simp only [ngx_slab_init, hS, hn, hstats, hpages, hP, hpg, hD, hal, hdiff, hq]
    unfold WORD at *
    split <;> split <;> omega
  refine ⟨hS, ?_, ?_, ?_, ?_, ?_, ?_⟩
  · simp only [ngx_slab_init, hS, hn, hstats, List.length_map, List.length_range]
  · simp only [ngx_slab_init, hS, hn, hstats, hpages, hP, List.length_replicate]
  · rw [hstart]
    simp only [ngx_slab_init, hS, hn, hstats, hpages, hP, hpg, List.length_set,
      List.length_replicate]
    omega
  · rw [hpfree]
    simp only [ngx_slab_init, hpg, List.length_set, List.length_replicate]
    split <;> omega
  · rw [hstart, ← hst]
    exact ⟨u, rfl⟩
  · rw [hstart, hpfree]
    show st + (if q < pages0 then q else pages0) * 2 ^ k ≤ end_
    split
    · omega
    · rcases a5 with h | h
      · omega
      · omega

/-- Witness of C18 (amended): the region of the 16-page pool. -/
theorem ngx_slab_init_layout_witness :
    (cfg4096.ngx_pagesize = 2 ^ cfg4096.ngx_pagesize_shift ∧
      1 ≤ cfg4096.ngx_pagesize_shift ∧ cfg4096.ngx_pagesize_shift < 64 ∧
      3 ≤ cfg4096.ngx_pagesize_shift ∧
      1048576 + cfg4096.sizeof_ngx_slab_pool_t
        + (cfg4096.ngx_pagesize_shift - 3)
          * (cfg4096.sizeof_ngx_slab_page_t + cfg4096.sizeof_ngx_slab_stat_t)
        + (cfg4096.ngx_pagesize + cfg4096.sizeof_ngx_slab_page_t) ≤ 1118208 ∧
      (1118208 : Nat) < WORD) ∧
    (ngx_slab_slots cfg4096 1048576 = 1048576 + cfg4096.sizeof_ngx_slab_pool_t ∧
      (ngx_slab_init cfg4096 1048576 1118208 3).stats_addr =
        ngx_slab_slots cfg4096 1048576
          + (ngx_slab_init cfg4096 1048576 1118208 3).slots.length
            * cfg4096.sizeof_ngx_slab_page_t ∧
      (ngx_slab_init cfg4096 1048576 1118208 3).pages_addr =
        (ngx_slab_init cfg4096 1048576 1118208 3).stats_addr
          + (ngx_slab_init cfg4096 1048576 1118208 3).stats.length
            * cfg4096.sizeof_ngx_slab_stat_t ∧
      (ngx_slab_init cfg4096 1048576 1118208 3).pages_addr
          + (ngx_slab_init cfg4096 1048576 1118208 3).pages.length
            * cfg4096.sizeof_ngx_slab_page_t
        ≤ (ngx_slab_init cfg4096 1048576 1118208 3).start ∧
      (ngx_slab_init cfg4096 1048576 1118208 3).pfree
        ≤ (ngx_slab_init cfg4096 1048576 1118208 3).pages.length ∧
      cfg4096.ngx_pagesize ∣ (ngx_slab_init cfg4096 1048576 1118208 3).start ∧
      (ngx_slab_init cfg4096 1048576 1118208 3).start
          + (ngx_slab_init cfg4096 1048576 1118208 3).pfree * cfg4096.ngx_pagesize
        ≤ (ngx_slab_init cfg4096 1048576 1118208 3).end_) :=
  ⟨⟨by decide, by decide, by decide, by decide, by decide, by decide⟩,
   ngx_slab_init_layout cfg4096 1048576 1118208 3 (by decide) (by decide) (by decide)
     (by decide) (by decide) (by decide)⟩

end NgxSlab

/-!
# Facts about page runs, exhaustion, the free of a chunk and the size thresholds
-/

namespace NgxSlab

open NgxPalloc (WORD)

/-- Claim C21, evaluated on the fresh pool of 16 pages (one free run, `k = 16`).
`ngx_slab_alloc_pages(pool, 1)` returns `pages[0]` with `slab = 1 | NGX_SLAB_PAGE_START`,
`next = NULL`, `prev = NGX_SLAB_PAGE`; the remainder `pages[1]` gets `slab = 15`
and the links of the original run, the last descriptor's `prev` refers to
`pages[1]`, and `pfree` is 15.  But the former predecessor and successor, both
`&pool->free`, are linked to each other and not to `pages[1]`
(`p->next = page->next; page->next->prev = page->prev`, ngx_slab.c:352-353):
`pool->free.next` and `pool->free.prev` refer to `&pool->free`, so the free list
is empty.  With `n = 3` the call does not return: after the same statements
`--pages` is 2 and the loop goes on from `page->next`, which is `NULL` by then. -/
theorem alloc_pages_split_unlinks_remainder :
    pool16.free.next = PageRef.page 0 ∧
    pool16.pages[0]? = some ⟨16, PageRef.free, ⟨PageRef.free, 0⟩⟩ ∧
    (ngx_slab_alloc_pages 10 pool16 1).value?.map
        (fun r => (r.1, r.2.pages[0]?, r.2.pages[1]?, (r.2.pages[15]?).map (fun d => d.prev),
          r.2.pfree))
      = some (PageRef.page 0,
          some ⟨1 ||| NGX_SLAB_PAGE_START, PageRef.null, ⟨PageRef.null, NGX_SLAB_PAGE⟩⟩,
          some ⟨15, PageRef.free, ⟨PageRef.free, 0⟩⟩,
          some ⟨PageRef.page 1, 0⟩, 15) ∧
    (ngx_slab_alloc_pages 10 pool16 1).value?.map (fun r => r.2.free)
      = some ⟨0, PageRef.free, ⟨PageRef.free, 0⟩⟩ ∧
    ngx_slab_alloc_pages 10 pool16 3 = Outcome.undefined := by
  refine ⟨by decide, by decide, by decide, by decide, by decide⟩

/-- Claim C22, evaluated.  With an empty free list (`pool->free.next == &pool->free`)
the loop of `ngx_slab_alloc_pages` has no iteration and the function ends
without a return statement, for every pool, request and amount of fuel; it
has no `return NULL`.  On the pool of 16 pages: the first
`ngx_slab_alloc_locked(pool, 8)` (the unassigned `slot` holding 7) leaves the
free list empty and the list of slot 0 empty, and the next
`ngx_slab_alloc_locked(pool, 8)` (the unassigned `slot` holding 0) does not
return `NULL`: its value is undefined. -/
theorem alloc_exhausted_no_null :
    (∀ (pool : ngx_slab_pool_t) (fuel pages : Nat),
      ngx_slab_alloc_pages (fuel + 1)
        { pool with free := { pool.free with next := PageRef.free } } pages
        = Outcome.undefined) ∧
    (ngx_slab_alloc_locked cfg4096 sizes4096 10 ⟨7, 0⟩ pool16 8).value?.map
        (fun r => (r.2.free.next, r.2.slots[0]?,
          ngx_slab_alloc_locked cfg4096 sizes4096 10 ⟨0, 0⟩ r.2 8))
      = some (PageRef.free, some ⟨0, PageRef.slot 0, ⟨PageRef.null, 0⟩⟩,
          Outcome.undefined) := by
  refine ⟨fun pool fuel pages => ?_, by decide⟩
  simp [ngx_slab_alloc_pages, ngx_slab_alloc_pages_loop]

/-- The loop of `ngx_slab_sizes_init` on a power of two: it adds the exponent
to the static `ngx_slab_exact_shift`. -/
theorem exact_shift_loop_pow :
    ∀ (e fuel s : Nat), e < fuel → s + e < WORD →
      exact_shift_loop fuel (2 ^ e) s = s + e := by
  intro e
  induction e with
  | zero =>
    intro fuel s hf _
    obtain ⟨f, rfl⟩ : ∃ f, fuel = f + 1 := ⟨fuel - 1, by omega⟩
    simp [exact_shift_loop]
  | succ e ih =>
    intro fuel s hf hs
    obtain ⟨f, rfl⟩ : ∃ f, fuel = f + 1 := ⟨fuel - 1, by omega⟩
    have h1 : (2 ^ (e + 1)) >>> 1 = 2 ^ e := by
      rw [Nat.shiftRight_eq_div_pow, Nat.pow_succ]
      simp
    have h2 : ¬ (2 ^ e = 0) := Nat.pos_iff_ne_zero.mp (Nat.pow_pos (by decide))
    have h3 : (s + 1) % WORD = s + 1 := Nat.mod_eq_of_lt (by omega)
    simp only [exact_shift_loop, h1, if_neg h2, h3]
    rw [ih f (s + 1) (by omega) (by omega)]
    omega

/-- Claim C24: for every power-of-two page size `P = 2^k` with `P ≥ 8 * sizeof(uintptr_t) = 64`
(and `P` a 64-bit value), one call of `ngx_slab_sizes_init` from the zeroed
static state sets `ngx_slab_max_size = P / 2`, `ngx_slab_exact_size = P / 64` and
`ngx_slab_exact_shift = k - 6`, the binary logarithm of `ngx_slab_exact_size`:
`2 ^ ngx_slab_exact_shift = ngx_slab_exact_size`, and a page of chunks of
that size holds 64 chunks, one for each bit of a descriptor word. -/
theorem ngx_slab_sizes_init_pow (cfg : Cfg) (k : Nat) (hP : cfg.ngx_pagesize = 2 ^ k)
    (h6 : 64 ≤ cfg.ngx_pagesize) (h64 : cfg.ngx_pagesize < WORD) :
    (ngx_slab_sizes_init cfg ⟨0, 0, 0⟩).ngx_slab_max_size = cfg.ngx_pagesize / 2 ∧
    (ngx_slab_sizes_init cfg ⟨0, 0, 0⟩).ngx_slab_exact_size = cfg.ngx_pagesize / (8 * 8) ∧
    (ngx_slab_sizes_init cfg ⟨0, 0, 0⟩).ngx_slab_exact_shift = k - 6 ∧
    2 ^ (ngx_slab_sizes_init cfg ⟨0, 0, 0⟩).ngx_slab_exact_shift
      = (ngx_slab_sizes_init cfg ⟨0, 0, 0⟩).ngx_slab_exact_size ∧
    cfg.ngx_pagesize / (ngx_slab_sizes_init cfg ⟨0, 0, 0⟩).ngx_slab_exact_size = 64 := by
  have hk6 : 6 ≤ k := by
    by_contra hlt
    have : 2 ^ k < 2 ^ 6 := Nat.pow_lt_pow_right (by decide) (by omega)
    omega
  have hk64 : k < 64 := by
    by_contra hge
    have : 2 ^ 64 ≤ 2 ^ k := Nat.pow_le_pow_right (by decide) (by omega)
    unfold WORD at h64
    omega
  have hdiv : cfg.ngx_pagesize / (8 * 8) = 2 ^ (k - 6) := by
    rw [hP]
    have : (8 * 8 : Nat) = 2 ^ 6 := by decide
    rw [this, Nat.pow_div hk6 (by decide)]
  have hshift : (ngx_slab_sizes_init cfg ⟨0, 0, 0⟩).ngx_slab_exact_shift = k - 6 := by
    simp only [ngx_slab_sizes_init, hdiv]
    rw [exact_shift_loop_pow (k - 6) 64 0 (by omega) (by unfold WORD; omega)]
    omega
  refine ⟨rfl, rfl, hshift, ?_, ?_⟩
  · rw [hshift]
    simp only [ngx_slab_sizes_init]
    exact hdiv.symm
  · simp only [ngx_slab_sizes_init]
    rw [hdiv, hP, Nat.pow_div (by omega) (by decide)]
    have : k - (k - 6) = 6 := by omega
    rw [this]

/-- Witness of C24: 4096-byte pages give 2048, 64 and 6. -/
theorem ngx_slab_sizes_init_pow_witness :
    (cfg4096.ngx_pagesize = 2 ^ 12 ∧ 64 ≤ cfg4096.ngx_pagesize ∧ cfg4096.ngx_pagesize < WORD) ∧
    ngx_slab_sizes_init cfg4096 ⟨0, 0, 0⟩ = ⟨2048, 64, 6⟩ ∧
    ((ngx_slab_sizes_init cfg4096 ⟨0, 0, 0⟩).ngx_slab_max_size = cfg4096.ngx_pagesize / 2 ∧
    (ngx_slab_sizes_init cfg4096 ⟨0, 0, 0⟩).ngx_slab_exact_size
      = cfg4096.ngx_pagesize / (8 * 8) ∧
    (ngx_slab_sizes_init cfg4096 ⟨0, 0, 0⟩).ngx_slab_exact_shift = 12 - 6 ∧
    2 ^ (ngx_slab_sizes_init cfg4096 ⟨0, 0, 0⟩).ngx_slab_exact_shift
      = (ngx_slab_sizes_init cfg4096 ⟨0, 0, 0⟩).ngx_slab_exact_size ∧
    cfg4096.ngx_pagesize / (ngx_slab_sizes_init cfg4096 ⟨0, 0, 0⟩).ngx_slab_exact_size = 64) :=
  ⟨⟨by decide, by decide, by decide⟩, by decide,
   ngx_slab_sizes_init_pow cfg4096 12 (by decide) (by decide) (by decide)⟩

end NgxSlab

/-!
# Facts about the shared mutex
-/

namespace NgxShmtx

open NgxPalloc (WORD)

/-- A process that cannot move stays where it is. -/
theorem run_proc_blocked (m : Mtx) (p : Nat) (pc : PC) (sh : Shared)
    (h : step_proc m p Choice.tick pc sh = none) :
    ∀ fuel, run_proc m p fuel (pc, sh) = (pc, sh) := by
  intro fuel
  cases fuel with
  | zero => rfl
  | succ f => simp only [run_proc, h]

/-- Running alone, `ngx_shmtx_trylock` returns after two actions at most, with 1
and the lock word set to the caller's pid when the word was 0, and with 0 and
no change otherwise. -/
theorem trylock_alone (m : Mtx) (p : Nat) (sh : Shared) :
    run_proc m p 2 (PC.try_read, sh) =
      if sh.lock = 0 then (PC.done 1, { sh with lock := p }) else (PC.done 0, sh) := by
  by_cases h : sh.lock = 0
  · simp [run_proc, step_proc, h]
  · simp [run_proc, step_proc, h]

/-- Running alone from the point after the lock word was cleared,
`ngx_shmtx_wakeup` ends with the shared memory `woken`. -/
theorem wakeup_alone (m : Mtx) (p r : Nat) (sh : Shared) :
    run_proc m p 4 (PC.wake_test r, sh) = (PC.done r, woken m sh) := by
  unfold woken
  by_cases hs : m.semaphore = 0
  · simp [run_proc, step_proc, hs]
  · by_cases hw : signed_le_zero sh.wait = true
    · simp [run_proc, step_proc, hs, hw]
    · simp [run_proc, step_proc, hs, hw]

/-- Running alone, `ngx_shmtx_unlock` by the process `p`. -/
theorem unlock_alone (m : Mtx) (p : Nat) (sh : Shared) :
    run_proc m p 5 (PC.unlock_cas, sh) =
      if sh.lock = p then (PC.done 0, woken m { sh with lock := 0 }) else (PC.done 0, sh) := by
  by_cases h : sh.lock = p
  · have e : run_proc m p 5 (PC.unlock_cas, sh)
        = run_proc m p 4 (PC.wake_test 0, { sh with lock := 0 }) := by
      simp [run_proc, step_proc, h]
    rw [e, wakeup_alone, if_pos h]
  · simp [run_proc, step_proc, h]

/-- Running alone, `ngx_shmtx_force_unlock(mtx, pid)` by the process `p`. -/
theorem force_unlock_alone (m : Mtx) (p pid : Nat) (sh : Shared) :
    run_proc m p 5 (PC.force_cas pid, sh) =
      if sh.lock = pid then (PC.done 1, woken m { sh with lock := 0 })
      else (PC.done 0, sh) := by
  by_cases h : sh.lock = pid
  · have e : run_proc m p 5 (PC.force_cas pid, sh)
        = run_proc m p 4 (PC.wake_test 1, { sh with lock := 0 }) := by
      simp [run_proc, step_proc, h]
    rw [e, wakeup_alone, if_pos h]
  · simp [run_proc, step_proc, h]

/-- The call of `ngx_shmtx_trylock` running alone, no other process acting
between its actions: it returns within two actions, with non-zero exactly if
the lock word was 0 at the call, in which case the lock word becomes the
caller's pid, and otherwise unchanged.  So, alone, while a process `a` with a
non-zero pid holds the lock a trylock by `b` returns 0 and changes nothing,
and right after the unlock of `a` the trylock of `b` returns non-zero and
makes `b` the holder. -/
theorem ngx_shmtx_trylock_spec (m : Mtx) :
    (∀ p sh, ∃ r sh1, run_proc m p 2 (PC.try_read, sh) = (PC.done r, sh1) ∧
      (r ≠ 0 ↔ sh.lock = 0) ∧
      sh1 = (if sh.lock = 0 then { sh with lock := p } else sh)) ∧
    (∀ a b sh, a ≠ 0 → sh.lock = a →
      run_proc m b 2 (PC.try_read, sh) = (PC.done 0, sh) ∧
      (run_proc m a 5 (PC.unlock_cas, sh)).1 = PC.done 0 ∧
      run_proc m b 2 (PC.try_read, (run_proc m a 5 (PC.unlock_cas, sh)).2) =
        (PC.done 1, { (run_proc m a 5 (PC.unlock_cas, sh)).2 with lock := b })) ∧
    (∀ p sh, (step_proc m p Choice.tick PC.try_read sh).isSome = true ∧
      ∃ r sh1 ev, step_proc m p Choice.tick PC.try_cas sh = some (PC.done r, sh1, ev)) := by
  refine ⟨?_, ?_, ?_⟩
  · intro p sh
    rw [trylock_alone]
    by_cases h : sh.lock = 0
    · exact ⟨1, _, by rw [if_pos h], by simp [h], by rw [if_pos h]⟩
    · exact ⟨0, _, by rw [if_neg h], by simp [h], by rw [if_neg h]⟩
  · intro a b sh ha hl
    have hne : ¬ sh.lock = 0 := by rw [hl]; exact ha
    refine ⟨by rw [trylock_alone, if_neg hne], ?_, ?_⟩
    · rw [unlock_alone, if_pos hl]
    · have h0 : (run_proc m a 5 (PC.unlock_cas, sh)).2.lock = 0 := by
        rw [unlock_alone, if_pos hl]
        unfold woken
        split <;> rfl
      rw [trylock_alone, if_pos h0]
  · intro p sh
    by_cases h : sh.lock = 0
    · exact ⟨by simp [step_proc, h], 1, { sh with lock := p }, some (Ev.acquire p),
        by simp only [step_proc, if_pos h]⟩
    · exact ⟨by simp [step_proc, h], 0, sh, none, by simp only [step_proc, if_neg h]⟩

/-- An instance of the run alone: process 1 holds the lock, process 2 tries. -/
theorem ngx_shmtx_trylock_spec_witness :
    ((1 : Nat) ≠ 0 ∧ (Shared.mk 1 0 0).lock = 1) ∧
    (run_proc ⟨1, 2048, 2⟩ 2 2 (PC.try_read, ⟨1, 0, 0⟩) = (PC.done 0, ⟨1, 0, 0⟩) ∧
      (run_proc ⟨1, 2048, 2⟩ 1 5 (PC.unlock_cas, ⟨1, 0, 0⟩)).1 = PC.done 0 ∧
      run_proc ⟨1, 2048, 2⟩ 2 2
          (PC.try_read, (run_proc ⟨1, 2048, 2⟩ 1 5 (PC.unlock_cas, ⟨1, 0, 0⟩)).2) =
        (PC.done 1, { (run_proc ⟨1, 2048, 2⟩ 1 5 (PC.unlock_cas, ⟨1, 0, 0⟩)).2
          with lock := 2 })) :=
  ⟨⟨by decide, rfl⟩,
   (ngx_shmtx_trylock_spec ⟨1, 2048, 2⟩).2.1 1 2 ⟨1, 0, 0⟩ (by decide) rfl⟩

/-- The call of `ngx_shmtx_unlock` running alone, no other process acting
between its actions.  Called by the holder (lock word = `ngx_pid`) it sets the
lock word to 0 and, when the semaphore is enabled, decrements a positive
waiter count by one and posts the semaphore once, and with a count of zero it
decrements and posts nothing; without the semaphore only the lock word
changes.  Called by a process that is not the holder, it changes nothing. -/
theorem ngx_shmtx_unlock_spec (m : Mtx) (p : Nat) (sh : Shared) :
    (sh.lock = p → m.semaphore ≠ 0 → 0 < sh.wait → sh.wait < WORD / 2 →
      run_proc m p 5 (PC.unlock_cas, sh) = (PC.done 0, ⟨0, sh.wait - 1, sh.sem + 1⟩)) ∧
    (sh.lock = p → m.semaphore ≠ 0 → sh.wait = 0 →
      run_proc m p 5 (PC.unlock_cas, sh) = (PC.done 0, ⟨0, sh.wait, sh.sem⟩)) ∧
    (sh.lock = p → m.semaphore = 0 →
      run_proc m p 5 (PC.unlock_cas, sh) = (PC.done 0, ⟨0, sh.wait, sh.sem⟩)) ∧
    (sh.lock ≠ p → run_proc m p 5 (PC.unlock_cas, sh) = (PC.done 0, sh)) := by
  refine ⟨?_, ?_, ?_, ?_⟩
  · intro h hs h1 h2
    rw [unlock_alone, if_pos h]
    have hw : ¬ (signed_le_zero sh.wait = true) := by
      unfold signed_le_zero
      simp only [Bool.or_eq_true, decide_eq_true_eq, not_or]
      omega
    have e : (sh.wait + WORD - 1) % WORD = sh.wait - 1 := by
      unfold WORD at *
      omega
    simp [woken, hs, hw, e]
  · intro h hs h0
    rw [unlock_alone, if_pos h]
    have hw : signed_le_zero sh.wait = true := by
      unfold signed_le_zero
      simp [h0]
    simp [woken, hw]
  · intro h hs
    rw [unlock_alone, if_pos h]
    simp [woken, hs]
  · intro h
    rw [unlock_alone, if_neg h]

/-- An instance of the run alone: the holder 1 unlocks with two waiters counted. -/
theorem ngx_shmtx_unlock_spec_witness :
    ((Shared.mk 1 2 0).lock = 1 ∧ (Mtx.mk 1 2048 2).semaphore ≠ 0 ∧
      0 < (Shared.mk 1 2 0).wait ∧ (Shared.mk 1 2 0).wait < WORD / 2) ∧
    run_proc ⟨1, 2048, 2⟩ 1 5 (PC.unlock_cas, ⟨1, 2, 0⟩) = (PC.done 0, ⟨0, 2 - 1, 0 + 1⟩) ∧
    run_proc ⟨1, 2048, 2⟩ 1 5 (PC.unlock_cas, ⟨1, 0, 0⟩) = (PC.done 0, ⟨0, 0, 0⟩) ∧
    run_proc ⟨0, 2048, 2⟩ 1 5 (PC.unlock_cas, ⟨1, 2, 0⟩) = (PC.done 0, ⟨0, 2, 0⟩) ∧
    run_proc ⟨1, 2048, 2⟩ 3 5 (PC.unlock_cas, ⟨1, 2, 0⟩) = (PC.done 0, ⟨1, 2, 0⟩) :=
  ⟨⟨rfl, by decide, by decide, by decide⟩,
   (ngx_shmtx_unlock_spec ⟨1, 2048, 2⟩ 1 ⟨1, 2, 0⟩).1 rfl (by decide) (by decide) (by decide),
   (ngx_shmtx_unlock_spec ⟨1, 2048, 2⟩ 1 ⟨1, 0, 0⟩).2.1 rfl (by decide) rfl,
   (ngx_shmtx_unlock_spec ⟨0, 2048, 2⟩ 1 ⟨1, 2, 0⟩).2.2.1 rfl rfl,
   (ngx_shmtx_unlock_spec ⟨1, 2048, 2⟩ 3 ⟨1, 2, 0⟩).2.2.2 (by decide)⟩

/-- The call of `ngx_shmtx_force_unlock(mtx, pid)` running alone, no other
process acting between its actions: it returns 1 exactly if the lock word
equals `pid` at the call, in which case the lock word becomes 0 and the
memory is left as `ngx_shmtx_unlock` by the holder leaves it; otherwise it
returns 0 and changes nothing. -/
theorem ngx_shmtx_force_unlock_spec (m : Mtx) (p pid : Nat) (sh : Shared) :
    (∃ r sh1, run_proc m p 5 (PC.force_cas pid, sh) = (PC.done r, sh1) ∧
      (r = 1 ↔ sh.lock = pid) ∧ (r = 0 ∨ r = 1)) ∧
    (sh.lock = pid →
      (run_proc m p 5 (PC.force_cas pid, sh)).2
        = (run_proc m pid 5 (PC.unlock_cas, sh)).2 ∧
      (run_proc m p 5 (PC.force_cas pid, sh)).2 = woken m { sh with lock := 0 }) ∧
    (sh.lock ≠ pid → run_proc m p 5 (PC.force_cas pid, sh) = (PC.done 0, sh)) := by
  refine ⟨?_, ?_, ?_⟩
  · rw [force_unlock_alone]
    by_cases h : sh.lock = pid
    · exact ⟨1, _, by rw [if_pos h], by simp [h], Or.inr rfl⟩
    · exact ⟨0, _, by rw [if_neg h], by simp [h], Or.inl rfl⟩
  · intro h
    rw [force_unlock_alone, unlock_alone, if_pos h, if_pos h]
    exact ⟨rfl, rfl⟩
  · intro h
    rw [force_unlock_alone, if_neg h]

/-- An instance of the run alone: process 3 clears the lock of the holder 1,
one waiter counted. -/
theorem ngx_shmtx_force_unlock_spec_witness :
    (Shared.mk 1 1 0).lock = 1 ∧
    ((run_proc ⟨1, 2048, 2⟩ 3 5 (PC.force_cas 1, ⟨1, 1, 0⟩)).2
        = (run_proc ⟨1, 2048, 2⟩ 1 5 (PC.unlock_cas, ⟨1, 1, 0⟩)).2 ∧
      (run_proc ⟨1, 2048, 2⟩ 3 5 (PC.force_cas 1, ⟨1, 1, 0⟩)).2
        = woken ⟨1, 2048, 2⟩ { (Shared.mk 1 1 0) with lock := 0 }) ∧
    run_proc ⟨1, 2048, 2⟩ 3 5 (PC.force_cas 1, ⟨1, 1, 0⟩) = (PC.done 1, ⟨0, 0, 1⟩) ∧
    run_proc ⟨1, 2048, 2⟩ 3 5 (PC.force_cas 2, ⟨1, 1, 0⟩) = (PC.done 0, ⟨1, 1, 0⟩) :=
  ⟨rfl, (ngx_shmtx_force_unlock_spec ⟨1, 2048, 2⟩ 3 1 ⟨1, 1, 0⟩).2.1 rfl,
   by decide, by decide⟩

/-- Nothing follows the return of a call but another call. -/
theorem run_env_done (m : Mtx) (p r : Nat) (shs : List Shared) :
    run_env m p (PC.done r) shs = (PC.done r, []) := by
  cases shs with
  | nil => rfl
  | cons sh rest => simp [run_env, step_proc]

/-- In a schedule in which the process `p` makes no call, its actions are the
run of `run_env` in the memory states it meets. -/
theorem exec_run_env (m : Mtx) (p : Nat) :
    ∀ (sched : List (Nat × Choice)) (st st1 : State),
      exec m st sched = some st1 →
      (∀ x ∈ sched, x.1 = p → x.2 = Choice.tick) →
      run_env m p (st.pcs p) ((view m p st sched).map Prod.fst)
        = (st1.pcs p, view m p st sched) := by
  intro sched
  induction sched with
  | nil =>
    intro st st1 h _
    simp only [exec, Option.some.injEq] at h
    subst h
    rfl
  | cons a rest ih =>
    intro st st1 h hs
    unfold exec at h
    cases h1 : exec1 m st a with
    | none => rw [h1] at h; exact absurd h (by simp)
    | some st2 =>
      rw [h1] at h
      have ih1 := ih st2 st1 h (fun x hx => hs x (List.mem_cons_of_mem _ hx))
      have h1c := h1
      unfold exec1 at h1
      cases hstep : step_proc m a.1 a.2 (st.pcs a.1) st.sh with
      | none => rw [hstep] at h1; exact absurd h1 (by simp)
      | some r =>
        obtain ⟨pc1, sh1, ev⟩ := r
        rw [hstep] at h1
        simp only [Option.some.injEq] at h1
        by_cases hp : a.1 = p
        · have ht : a.2 = Choice.tick := hs a (List.mem_cons_self _ _) hp
          have e2 : st2.pcs p = pc1 := by rw [← h1]; simp [hp]
          have e3 : st2.sh = sh1 := by rw [← h1]
          rw [hp, ht] at hstep
          simp only [view, h1c, hp, if_true, List.map_cons, run_env, hstep]
          rw [← e2, ih1, e3]
        · have e2 : st2.pcs p = st.pcs p := by
            rw [← h1]
            have : ¬ p = a.1 := fun e => hp e.symm
            simp [this]
          simp only [view, h1c, hp, if_false]
          rw [← e2, ih1]

/-- Under every interference `ngx_shmtx_trylock` is a read of the lock word
and, if the read gave 0, a compare-and-set that returns. -/
theorem trylock_env (m : Mtx) (p : Nat) (shs : List Shared) :
    run_env m p PC.try_read shs =
      match shs with
      | [] => (PC.try_read, [])
      | [sh1] =>
        if sh1.lock = 0 then (PC.try_cas, [(sh1, sh1)]) else (PC.done 0, [(sh1, sh1)])
      | sh1 :: sh2 :: _ =>
        if sh1.lock = 0 then
          (if sh2.lock = 0 then (PC.done 1, [(sh1, sh1), (sh2, { sh2 with lock := p })])
           else (PC.done 0, [(sh1, sh1), (sh2, sh2)]))
        else (PC.done 0, [(sh1, sh1)]) := by
  match shs with
  | [] => rfl
  | [sh1] =>
    by_cases h : sh1.lock = 0 <;> simp [run_env, step_proc, h]
  | sh1 :: sh2 :: rest =>
    by_cases h : sh1.lock = 0 <;> by_cases h2 : sh2.lock = 0 <;>
      simp [run_env, step_proc, h, h2, run_env_done]

theorem run_env_wake_test (m : Mtx) (p r : Nat) (sh : Shared) (rest : List Shared) :
    run_env m p (PC.wake_test r) (sh :: rest) =
      if m.semaphore = 0 then (PC.done r, [(sh, sh)])
      else ((run_env m p (PC.wake_read r) rest).1,
        (sh, sh) :: (run_env m p (PC.wake_read r) rest).2) := by
  by_cases hs : m.semaphore = 0
  · simp only [run_env, step_proc, hs, if_true, run_env_done]
  · simp only [run_env, step_proc, hs, if_false]

theorem run_env_wake_read (m : Mtx) (p r : Nat) (sh : Shared) (rest : List Shared) :
    run_env m p (PC.wake_read r) (sh :: rest) =
      if signed_le_zero sh.wait = true then (PC.done r, [(sh, sh)])
      else ((run_env m p (PC.wake_cas r sh.wait) rest).1,
        (sh, sh) :: (run_env m p (PC.wake_cas r sh.wait) rest).2) := by
  by_cases hs : signed_le_zero sh.wait = true
  · simp only [run_env, step_proc, hs, if_true, run_env_done]
  · simp [run_env, step_proc, hs]

theorem run_env_wake_cas (m : Mtx) (p r w : Nat) (sh : Shared) (rest : List Shared) :
    run_env m p (PC.wake_cas r w) (sh :: rest) =
      if sh.wait = w then
        ((run_env m p (PC.wake_post r) rest).1,
          (sh, { sh with wait := (w + WORD - 1) % WORD })
            :: (run_env m p (PC.wake_post r) rest).2)
      else ((run_env m p (PC.wake_read r) rest).1,
        (sh, sh) :: (run_env m p (PC.wake_read r) rest).2) := by
  by_cases hs : sh.wait = w
  · simp only [run_env, step_proc, hs, if_true]
  · simp only [run_env, step_proc, hs, if_false]

/-- From the `sem_post` of `ngx_shmtx_wakeup` one action ends the call. -/
theorem wake_post_env (m : Mtx) (p r : Nat) (shs : List Shared) :
    run_env m p (PC.wake_post r) shs =
      match shs with
      | [] => (PC.wake_post r, [])
      | sh :: _ => (PC.done r, [(sh, { sh with sem := sh.sem + 1 })]) := by
  match shs with
  | [] => rfl
  | sh :: rest => simp [run_env, step_proc, run_env_done]

theorem decs_cons_same (sh : Shared) (v : List (Shared × Shared)) :
    decs ((sh, sh) :: v) = decs v ∧ posts ((sh, sh) :: v) = posts v := by
  simp [decs, posts, dec_step, post_step]

theorem wake_step_same (sh : Shared) : wake_step (sh, sh) := by
  simp [wake_step, dec_step, post_step]

theorem signed_pos (w : Nat) (hw : signed_le_zero w = false) : w ≠ 0 ∧ w < WORD / 2 := by
  unfold signed_le_zero at hw
  simp only [Bool.or_eq_false_iff, decide_eq_false_iff_not, not_le] at hw
  exact hw

theorem word_pred (w : Nat) (h1 : w ≠ 0) (h2 : w < WORD / 2) :
    (w + WORD - 1) % WORD + 1 = w := by
  unfold WORD at h2 ⊢
  omega

theorem wake_step_dec (sh : Shared) (x : Nat) (hw : signed_le_zero sh.wait = false)
    (hd : x + 1 = sh.wait) :
    wake_step (sh, { sh with wait := x }) ∧
    dec_step (sh, { sh with wait := x }) = true ∧
    post_step (sh, { sh with wait := x }) = false := by
  have hne : ¬ x = sh.wait := by omega
  refine ⟨?_, ?_, ?_⟩
  · unfold wake_step
    refine ⟨rfl, fun _ => ⟨hw, hd, rfl⟩, fun h => ?_⟩
    simp [post_step] at h
  · simp [dec_step, hne]
  · simp [post_step]

theorem wake_step_post (sh : Shared) :
    wake_step (sh, { sh with sem := sh.sem + 1 }) ∧
    dec_step (sh, { sh with sem := sh.sem + 1 }) = false ∧
    post_step (sh, { sh with sem := sh.sem + 1 }) = true := by
  refine ⟨?_, ?_, ?_⟩
  · unfold wake_step
    refine ⟨rfl, fun h => ?_, fun _ => ⟨rfl, rfl⟩⟩
    simp [dec_step] at h
  · simp [dec_step]
  · simp [post_step]

theorem decs_cons (e : Shared × Shared) (v : List (Shared × Shared)) :
    decs (e :: v) = (if dec_step e = true then 1 else 0) + decs v ∧
    posts (e :: v) = (if post_step e = true then 1 else 0) + posts v := by
  unfold decs posts
  constructor
  · by_cases h : dec_step e = true
    · rw [List.filter_cons_of_pos h, if_pos h, List.length_cons, Nat.add_comm]
    · rw [List.filter_cons_of_neg h, if_neg h, Nat.zero_add]
  · by_cases h : post_step e = true
    · rw [List.filter_cons_of_pos h, if_pos h, List.length_cons, Nat.add_comm]
    · rw [List.filter_cons_of_neg h, if_neg h, Nat.zero_add]

/-- What is known of a run of `ngx_shmtx_wakeup`, `v` being its actions and
`pc` the program point reached, for a caller that returns `r`. -/
theorem wake_keep (m : Mtx) (r : Nat) (sh : Shared) (pc : PC) (v : List (Shared × Shared))
    (i1 : ∀ e ∈ v, wake_step e)
    (i2 : (pc = PC.done r ∧ posts v = decs v ∧ decs v ≤ 1 ∧
          (decs v = 0 → m.semaphore = 0 ∨ ∃ x ∈ v, signed_le_zero x.1.wait = true) ∧
          (m.semaphore = 0 → decs v = 0)) ∨
        (pc = PC.wake_post r ∧ m.semaphore ≠ 0 ∧ decs v = 1 ∧ posts v = 0) ∨
        (wake_pc m r pc ∧ decs v = 0 ∧ posts v = 0)) :
    (∀ e ∈ (sh, sh) :: v, wake_step e) ∧
      ((pc = PC.done r ∧ posts ((sh, sh) :: v) = decs ((sh, sh) :: v) ∧
          decs ((sh, sh) :: v) ≤ 1 ∧
          (decs ((sh, sh) :: v) = 0 → m.semaphore = 0 ∨
            ∃ x ∈ (sh, sh) :: v, signed_le_zero x.1.wait = true) ∧
          (m.semaphore = 0 → decs ((sh, sh) :: v) = 0)) ∨
        (pc = PC.wake_post r ∧ m.semaphore ≠ 0 ∧
          decs ((sh, sh) :: v) = 1 ∧ posts ((sh, sh) :: v) = 0) ∨
        (wake_pc m r pc ∧ decs ((sh, sh) :: v) = 0 ∧ posts ((sh, sh) :: v) = 0)) := by
  rw [(decs_cons_same sh v).1, (decs_cons_same sh v).2]
  refine ⟨?_, ?_⟩
  · intro x hx
    rcases List.mem_cons.1 hx with rfl | hx
    · exact wake_step_same sh
    · exact i1 x hx
  · rcases i2 with ⟨a, b, c, d, f⟩ | h | h
    · refine Or.inl ⟨a, b, c, fun h0 => ?_, f⟩
      rcases d h0 with h | ⟨x, hx, hxs⟩
      · exact Or.inl h
      · exact Or.inr ⟨x, List.mem_cons_of_mem _ hx, hxs⟩
    · exact Or.inr (Or.inl h)
    · exact Or.inr (Or.inr h)

/-- The wake-up under every interference: whatever the other processes do
between its actions, `ngx_shmtx_wakeup` never touches the lock word, changes
the waiter count at most once (from a positive value, by one) and posts the
semaphore at most once, after that change; when it has returned it has posted
exactly if it has changed the count, and if it has not, the semaphore is not
in use or it has read a count that was not positive. -/
theorem wake_env (m : Mtx) (p r : Nat) :
    ∀ (shs : List Shared) (pc : PC), wake_pc m r pc →
      (∀ e ∈ (run_env m p pc shs).2, wake_step e) ∧
      (((run_env m p pc shs).1 = PC.done r ∧
          posts (run_env m p pc shs).2 = decs (run_env m p pc shs).2 ∧
          decs (run_env m p pc shs).2 ≤ 1 ∧
          (decs (run_env m p pc shs).2 = 0 → m.semaphore = 0 ∨
            ∃ x ∈ (run_env m p pc shs).2, signed_le_zero x.1.wait = true) ∧
          (m.semaphore = 0 → decs (run_env m p pc shs).2 = 0)) ∨
        ((run_env m p pc shs).1 = PC.wake_post r ∧ m.semaphore ≠ 0 ∧
          decs (run_env m p pc shs).2 = 1 ∧ posts (run_env m p pc shs).2 = 0) ∨
        (wake_pc m r (run_env m p pc shs).1 ∧
          decs (run_env m p pc shs).2 = 0 ∧ posts (run_env m p pc shs).2 = 0)) := by
  intro shs
  induction shs with
  | nil =>
    intro pc hpc
    refine ⟨by simp [run_env], Or.inr (Or.inr ⟨by simpa [run_env] using hpc, rfl, rfl⟩)⟩
  | cons sh rest ih =>
    intro pc hpc
    have same : ∀ (sh0 : Shared), (∀ e ∈ [(sh0, sh0)], wake_step e) := by
      intro sh0 x hx
      simp only [List.mem_singleton] at hx
      subst hx
      exact wake_step_same sh0
    have d0 : decs [(sh, sh)] = 0 := (decs_cons_same sh []).1
    have p0 : posts [(sh, sh)] = 0 := (decs_cons_same sh []).2
    rcases hpc with rfl | ⟨hsem, rfl | ⟨w, rfl, hw⟩⟩
    · -- the test of the semaphore field
      rw [run_env_wake_test]
      by_cases hs : m.semaphore = 0
      · rw [if_pos hs]
        refine ⟨same sh, Or.inl ⟨rfl, ?_, ?_, fun _ => Or.inl hs, fun _ => d0⟩⟩
        · rw [d0, p0]
        · rw [d0]
          exact Nat.zero_le 1
      · rw [if_neg hs]
        obtain ⟨i1, i2⟩ := ih (PC.wake_read r) (Or.inr ⟨hs, Or.inl rfl⟩)
        exact wake_keep m r sh _ _ i1 i2
    · -- the read of the waiter count
      rw [run_env_wake_read]
      by_cases hz : signed_le_zero sh.wait = true
      · rw [if_pos hz]
        refine ⟨same sh, Or.inl ⟨rfl, ?_, ?_,
          fun _ => Or.inr ⟨(sh, sh), List.mem_singleton.2 rfl, hz⟩, fun _ => d0⟩⟩
        · rw [d0, p0]
        · rw [d0]
          exact Nat.zero_le 1
      · rw [if_neg hz]
        have hz2 : signed_le_zero sh.wait = false := by simpa using hz
        obtain ⟨i1, i2⟩ := ih (PC.wake_cas r sh.wait) (Or.inr ⟨hsem, Or.inr ⟨_, rfl, hz2⟩⟩)
        exact wake_keep m r sh _ _ i1 i2
    · -- the compare-and-set
      rw [run_env_wake_cas]
      by_cases hc : sh.wait = w
      · subst hc
        rw [if_pos rfl, wake_post_env]
        have h1 := signed_pos sh.wait hw
        have hd := word_pred sh.wait h1.1 h1.2
        generalize (sh.wait + WORD - 1) % WORD = x at hd ⊢
        obtain ⟨k1, d1, p1⟩ := wake_step_dec sh x hw hd
        have np1 : ¬ post_step (sh, { sh with wait := x }) = true := by
          rw [p1]
          exact Bool.false_ne_true
        cases rest with
        | nil =>
          dsimp only
          refine ⟨?_, Or.inr (Or.inl ⟨rfl, hsem, ?_, ?_⟩)⟩
          · intro e he
            simp only [List.mem_singleton] at he
            subst he
            exact k1
          · rw [(decs_cons _ _).1, if_pos d1]
            rfl
          · rw [(decs_cons _ _).2, if_neg np1]
            rfl
        | cons sh2 rest2 =>
          dsimp only
          obtain ⟨k2, d2, p2⟩ := wake_step_post sh2
          have nd2 : ¬ dec_step (sh2, { sh2 with sem := sh2.sem + 1 }) = true := by
            rw [d2]
            exact Bool.false_ne_true
          have e1 : decs [(sh, { sh with wait := x }), (sh2, { sh2 with sem := sh2.sem + 1 })]
              = 1 := by
            rw [(decs_cons _ _).1, if_pos d1, (decs_cons _ _).1, if_neg nd2]
            rfl
          have e2 : posts [(sh, { sh with wait := x }), (sh2, { sh2 with sem := sh2.sem + 1 })]
              = 1 := by
            rw [(decs_cons _ _).2, if_neg np1, (decs_cons _ _).2, if_pos p2]
            rfl
          refine ⟨?_, Or.inl ⟨rfl, ?_, ?_, ?_, ?_⟩⟩
          · intro e he
            simp only [List.mem_cons, List.mem_singleton, List.not_mem_nil, or_false] at he
            rcases he with rfl | rfl
            · exact k1
            · exact k2
          · rw [e1, e2]
          · rw [e1]
          · intro h0
            rw [e1] at h0
            exact absurd h0 (by decide)
          · intro h0
            exact absurd h0 hsem
      · rw [if_neg hc]
        obtain ⟨i1, i2⟩ := ih (PC.wake_read r) (Or.inr ⟨hsem, Or.inl rfl⟩)
        exact wake_keep m r sh _ _ i1 i2

/-- The wake-up does not depend on the process that runs it nor on the value
its caller returns: in the same memory states it takes the same actions. -/
theorem wake_same (m : Mtx) (p q r s : Nat) :
    ∀ (shs : List Shared),
      (run_env m p (PC.wake_test r) shs).2 = (run_env m q (PC.wake_test s) shs).2 ∧
      (run_env m p (PC.wake_read r) shs).2 = (run_env m q (PC.wake_read s) shs).2 ∧
      (∀ w, (run_env m p (PC.wake_cas r w) shs).2 = (run_env m q (PC.wake_cas s w) shs).2) ∧
      (run_env m p (PC.wake_post r) shs).2 = (run_env m q (PC.wake_post s) shs).2 := by
  intro shs
  induction shs with
  | nil => exact ⟨rfl, rfl, fun _ => rfl, rfl⟩
  | cons sh rest ih =>
    obtain ⟨i1, i2, i3, i4⟩ := ih
    refine ⟨?_, ?_, ?_, ?_⟩
    · rw [run_env_wake_test, run_env_wake_test]
      by_cases hs : m.semaphore = 0
      · rw [if_pos hs, if_pos hs]
      · rw [if_neg hs, if_neg hs]
        dsimp only
        rw [i2]
    · rw [run_env_wake_read, run_env_wake_read]
      by_cases hz : signed_le_zero sh.wait = true
      · rw [if_pos hz, if_pos hz]
      · rw [if_neg hz, if_neg hz]
        dsimp only
        rw [i3 sh.wait]
    · intro w
      rw [run_env_wake_cas, run_env_wake_cas]
      by_cases hc : sh.wait = w
      · rw [if_pos hc, if_pos hc]
        dsimp only
        rw [i4]
      · rw [if_neg hc, if_neg hc]
        dsimp only
        rw [i2]
    · rw [wake_post_env, wake_post_env]

/-- What a finished or unfinished run of the wake-up has done, whatever the
other processes did between its actions. -/
theorem wake_facts (m : Mtx) (p r : Nat) (shs : List Shared) (pc1 : PC)
    (v : List (Shared × Shared))
    (h : run_env m p (PC.wake_test r) shs = (pc1, v)) :
    (∀ x ∈ v, wake_step x) ∧ decs v ≤ 1 ∧ posts v ≤ decs v ∧
    (m.semaphore = 0 → decs v = 0) ∧
    (∀ r1, pc1 = PC.done r1 → r1 = r ∧ posts v = decs v ∧
      (decs v = 0 → m.semaphore = 0 ∨ ∃ x ∈ v, signed_le_zero x.1.wait = true)) := by
  obtain ⟨i1, i2⟩ := wake_env m p r shs (PC.wake_test r) (Or.inl rfl)
  rw [h] at i1 i2
  simp only at i1 i2
  refine ⟨i1, ?_, ?_, ?_, ?_⟩
  · rcases i2 with ⟨_, _, c, _, _⟩ | ⟨_, _, c, _⟩ | ⟨_, c, _⟩
    · exact c
    · rw [c]
    · rw [c]
      exact Nat.zero_le 1
  · rcases i2 with ⟨_, b, _, _, _⟩ | ⟨_, _, c, d⟩ | ⟨_, c, d⟩
    · rw [b]
    · rw [c, d]
      exact Nat.zero_le 1
    · rw [c, d]
  · intro hs
    rcases i2 with ⟨_, _, _, _, f⟩ | ⟨_, b, _, _⟩ | ⟨_, c, _⟩
    · exact f hs
    · exact absurd hs b
    · exact c
  · intro r1 hr
    rcases i2 with ⟨a, b, _, d, _⟩ | ⟨a, _, _, _⟩ | ⟨a, _, _⟩
    · rw [hr] at a
      exact ⟨by injection a, b, d⟩
    · rw [hr] at a
      exact absurd a (by simp)
    · rw [hr] at a
      rcases a with a | ⟨_, a | ⟨w, a, _⟩⟩ <;> exact absurd a (by simp)

theorem run_env_unlock_cas (m : Mtx) (p : Nat) (sh : Shared) (rest : List Shared) :
    run_env m p PC.unlock_cas (sh :: rest) =
      if sh.lock = p then
        ((run_env m p (PC.wake_test 0) rest).1,
          (sh, { sh with lock := 0 }) :: (run_env m p (PC.wake_test 0) rest).2)
      else (PC.done 0, [(sh, sh)]) := by
  by_cases hs : sh.lock = p
  · simp only [run_env, step_proc, hs, if_true]
  · simp only [run_env, step_proc, hs, if_false, run_env_done]

theorem run_env_force_cas (m : Mtx) (p pid : Nat) (sh : Shared) (rest : List Shared) :
    run_env m p (PC.force_cas pid) (sh :: rest) =
      if sh.lock = pid then
        ((run_env m p (PC.wake_test 1) rest).1,
          (sh, { sh with lock := 0 }) :: (run_env m p (PC.wake_test 1) rest).2)
      else (PC.done 0, [(sh, sh)]) := by
  by_cases hs : sh.lock = pid
  · simp only [run_env, step_proc, hs, if_true]
  · simp only [run_env, step_proc, hs, if_false, run_env_done]

/-- The actions of a process in a schedule and the program point it reaches,
as a run of `run_env`. -/
theorem exec_view (m : Mtx) (p : Nat) (st : State) (sched : List (Nat × Choice)) (pc1 : PC)
    (hs : ∀ x ∈ sched, x.1 = p → x.2 = Choice.tick)
    (h1 : (exec m st sched).map (fun s => s.pcs p) = some pc1) :
    run_env m p (st.pcs p) ((view m p st sched).map Prod.fst) = (pc1, view m p st sched) := by
  cases he : exec m st sched with
  | none => rw [he] at h1; exact absurd h1 (by simp)
  | some st1 =>
    rw [he] at h1
    simp only [Option.map_some', Option.some.injEq] at h1
    rw [← h1]
    exact exec_run_env m p sched st st1 he hs

/-- A counterexample to C25 as stated.  In the schedule `trylock_race` the lock
word is 0 when process 2 calls `ngx_shmtx_trylock` and when it reads the
word, process 1 takes the mutex before the compare-and-set of process 2, and
the call of process 2 returns 0.  In the schedule `trylock_third` process 1
has unlocked (lock word 0 after nine steps), process 3 takes the mutex, and
the next `ngx_shmtx_trylock` of process 2 after the unlock returns 0. -/
theorem trylock_fails_on_free_mutex :
    (exec ⟨1, 2048, 1⟩ init (trylock_race.take 1)).map (fun s => (s.sh, s.pcs 2))
      = some (⟨0, 0, 0⟩, PC.try_read) ∧
    (exec ⟨1, 2048, 1⟩ init trylock_race).map (fun s => (s.sh, s.pcs 1, s.pcs 2))
      = some (⟨1, 0, 0⟩, PC.done 1, PC.done 0) ∧
    view ⟨1, 2048, 1⟩ 2 init trylock_race
      = [(⟨0, 0, 0⟩, ⟨0, 0, 0⟩), (⟨0, 0, 0⟩, ⟨0, 0, 0⟩), (⟨1, 0, 0⟩, ⟨1, 0, 0⟩)] ∧
    (exec ⟨1, 2048, 1⟩ init (trylock_third.take 9)).map (fun s => (s.sh, s.pcs 1, s.pcs 2))
      = some (⟨0, 0, 0⟩, PC.done 0, PC.done 0) ∧
    (exec ⟨1, 2048, 1⟩ init trylock_third).map (fun s => (s.sh, s.pcs 2, s.pcs 3))
      = some (⟨3, 0, 0⟩, PC.done 0, PC.done 1) := by
  refine ⟨by decide, by decide, by decide, by decide, by decide⟩

/-- Claim C25, amended: `ngx_shmtx_trylock` never blocks: it is a read of the lock
word and, if the read gave 0, a compare-and-set, and each of the two can be
taken in every state of the shared memory.  In every schedule, whatever the
other processes do before, between and after the two actions: the read
changes nothing; the call returns 0 after the read if the lock word is not 0
then; otherwise it returns at the compare-and-set, with 1 and the lock word
set to the caller's pid if the lock word is 0 at that moment too, and with 0
and no change if not.  So the call returns non-zero exactly if the lock word
is 0 at both of its actions; while a process with a non-zero pid holds the
lock, a trylock of another process meets a non-zero lock word and returns 0;
and after the unlock of the holder a trylock returns non-zero unless another
process takes the lock before its compare-and-set.  Running alone the call
returns within two actions, with non-zero exactly if the lock word was 0 at
the call. -/
theorem ngx_shmtx_trylock_races (m : Mtx) (p : Nat) (st : State)
    (sched : List (Nat × Choice)) (pc1 : PC)
    (h0 : st.pcs p = PC.try_read)
    (hs : ∀ x ∈ sched, x.1 = p → x.2 = Choice.tick)
    (h1 : (exec m st sched).map (fun s => s.pcs p) = some pc1) :
    (∀ sh, (step_proc m p Choice.tick PC.try_read sh).isSome = true ∧
      ∃ r sh1 ev, step_proc m p Choice.tick PC.try_cas sh = some (PC.done r, sh1, ev)) ∧
    (view m p st sched).length ≤ 2 ∧
    (view m p st sched = [] → pc1 = PC.try_read) ∧
    (∀ e1, view m p st sched = [e1] →
      e1.2 = e1.1 ∧ pc1 = (if e1.1.lock = 0 then PC.try_cas else PC.done 0)) ∧
    (∀ e1 e2, view m p st sched = [e1, e2] →
      e1.2 = e1.1 ∧ e1.1.lock = 0 ∧
      (e2.1.lock = 0 → pc1 = PC.done 1 ∧ e2.2 = { e2.1 with lock := p }) ∧
      (e2.1.lock ≠ 0 → pc1 = PC.done 0 ∧ e2.2 = e2.1)) ∧
    (∀ sh, run_proc m p 2 (PC.try_read, sh) =
      if sh.lock = 0 then (PC.done 1, { sh with lock := p }) else (PC.done 0, sh)) := by
  have hv := exec_view m p st sched pc1 hs h1
  rw [h0, trylock_env] at hv
  refine ⟨?_, ?_, ?_, ?_, ?_, trylock_alone m p⟩
  · intro sh
    by_cases h : sh.lock = 0
    · exact ⟨by simp [step_proc, h], 1, { sh with lock := p }, some (Ev.acquire p),
        by simp only [step_proc, if_pos h]⟩
    · exact ⟨by simp [step_proc, h], 0, sh, none, by simp only [step_proc, if_neg h]⟩
  · match hm : view m p st sched with
    | [] => simp
    | [_] => simp
    | [_, _] => simp
    | e1 :: e2 :: e3 :: rest =>
      rw [hm] at hv
      simp only [List.map_cons] at hv
      split_ifs at hv <;> simp at hv
  · intro hm
    rw [hm] at hv
    simp only [List.map_nil, Prod.mk.injEq] at hv
    exact hv.1.symm
  · intro e1 hm
    rw [hm] at hv
    simp only [List.map_cons, List.map_nil] at hv
    split_ifs at hv with h <;>
      simp only [Prod.mk.injEq, List.cons.injEq, and_true] at hv
    · exact ⟨by rw [← hv.2], by rw [if_pos h]; exact hv.1.symm⟩
    · exact ⟨by rw [← hv.2], by rw [if_neg h]; exact hv.1.symm⟩
  · intro e1 e2 hm
    rw [hm] at hv
    simp only [List.map_cons, List.map_nil] at hv
    split_ifs at hv with h h2 <;>
      simp only [Prod.mk.injEq, List.cons.injEq, and_true] at hv
    · refine ⟨by rw [← hv.2.1], h, fun _ => ⟨hv.1.symm, by rw [← hv.2.2]⟩,
        fun hn => absurd h2 hn⟩
    · refine ⟨by rw [← hv.2.1], h, fun hn => absurd hn h2,
        fun _ => ⟨hv.1.symm, by rw [← hv.2.2]⟩⟩
    · exact absurd hv.2.2 (by simp)

/-- Witness of C25 (amended): process 2 is about to read the lock word of a free
mutex; process 1 takes the mutex between the read and the compare-and-set of
process 2, whose call returns 0. -/
theorem ngx_shmtx_trylock_races_witness :
    ((at_pc 2 PC.try_read ⟨0, 0, 0⟩).pcs 2 = PC.try_read ∧
      (∀ x ∈ trylock_race.drop 1, x.1 = 2 → x.2 = Choice.tick) ∧
      (exec ⟨1, 2048, 1⟩ (at_pc 2 PC.try_read ⟨0, 0, 0⟩) (trylock_race.drop 1)).map
          (fun s => s.pcs 2) = some (PC.done 0)) ∧
    view ⟨1, 2048, 1⟩ 2 (at_pc 2 PC.try_read ⟨0, 0, 0⟩) (trylock_race.drop 1)
      = [(⟨0, 0, 0⟩, ⟨0, 0, 0⟩), (⟨1, 0, 0⟩, ⟨1, 0, 0⟩)] ∧
    (∀ e1 e2, view ⟨1, 2048, 1⟩ 2 (at_pc 2 PC.try_read ⟨0, 0, 0⟩) (trylock_race.drop 1)
        = [e1, e2] →
      e1.2 = e1.1 ∧ e1.1.lock = 0 ∧
      (e2.1.lock = 0 → PC.done 0 = PC.done 1 ∧ e2.2 = { e2.1 with lock := 2 }) ∧
      (e2.1.lock ≠ 0 → PC.done 0 = PC.done 0 ∧ e2.2 = e2.1)) :=
  ⟨⟨rfl, by decide, by decide⟩, by decide,
   (ngx_shmtx_trylock_races ⟨1, 2048, 1⟩ 2 (at_pc 2 PC.try_read ⟨0, 0, 0⟩)
      (trylock_race.drop 1) (PC.done 0) rfl (by decide) (by decide)).2.2.2.2.1⟩

/-- A counterexample to C26 as stated.  After the schedule `one_waiter` process 1
holds the mutex and the waiter count is 1.  Process 1 then calls
`ngx_shmtx_unlock` (lock word 1, count 1 at the call) and clears the lock
word; process 2 makes its re-check, takes the mutex and decrements the count;
process 1 reads the count 0 and returns.  The call of the holder, made with a
positive waiter count, has not decremented the count and has posted nothing:
of its four actions only the first changed the shared memory, and the
semaphore is at 0 at the end. -/
theorem unlock_posts_nothing :
    (exec ⟨1, 2048, 1⟩ init (one_waiter ++ (release_race 1 Call.unlock).take 1)).map
        (fun s => (s.sh, s.pcs 1, s.pcs 2))
      = some (⟨1, 1, 0⟩, PC.unlock_cas, PC.recheck_read) ∧
    (exec ⟨1, 2048, 1⟩ init (one_waiter ++ release_race 1 Call.unlock)).map
        (fun s => (s.sh, s.pcs 1, s.pcs 2))
      = some (⟨2, 0, 0⟩, PC.done 0, PC.sem_wait) ∧
    (view ⟨1, 2048, 1⟩ 1 init (one_waiter ++ release_race 1 Call.unlock)).drop 3
      = [(⟨1, 1, 0⟩, ⟨1, 1, 0⟩), (⟨1, 1, 0⟩, ⟨0, 1, 0⟩), (⟨2, 0, 0⟩, ⟨2, 0, 0⟩),
         (⟨2, 0, 0⟩, ⟨2, 0, 0⟩)] := by
  refine ⟨by decide, by decide, by decide⟩

/-- Claim C26, amended: in every schedule, whatever the other processes do between
the actions of the call, `ngx_shmtx_unlock` starts with one compare-and-set.
If the lock word is not the caller's pid then, the call returns at once and
none of its actions changes the lock word, the waiter count or the semaphore.
If it is, the lock word becomes 0 and `ngx_shmtx_wakeup` runs: none of its
actions touches the lock word; it changes the waiter count at most once, from
a value that is positive as a signed integer to one less, and posts the
semaphore at most once, only after that change; when the call has returned
it has posted exactly once if it has decremented the count and not at all
otherwise, and it has not decremented only if the semaphore is not in use or
it has read a count that was not positive; without the semaphore it changes
nothing but the lock word.  Running alone it ends within five actions, and it
then decrements and posts exactly if the semaphore is in use and the count is
positive at the call (`woken`). -/
theorem ngx_shmtx_unlock_races (m : Mtx) (p : Nat) (st : State)
    (sched : List (Nat × Choice)) (pc1 : PC)
    (h0 : st.pcs p = PC.unlock_cas)
    (hs : ∀ x ∈ sched, x.1 = p → x.2 = Choice.tick)
    (h1 : (exec m st sched).map (fun s => s.pcs p) = some pc1) :
    (view m p st sched = [] → pc1 = PC.unlock_cas) ∧
    (∀ e v, view m p st sched = e :: v → e.1.lock ≠ p →
      e.2 = e.1 ∧ v = [] ∧ pc1 = PC.done 0) ∧
    (∀ e v, view m p st sched = e :: v → e.1.lock = p →
      e.2 = { e.1 with lock := 0 } ∧
      (∀ x ∈ v, wake_step x) ∧ decs v ≤ 1 ∧ posts v ≤ decs v ∧
      (m.semaphore = 0 → decs v = 0) ∧
      (∀ r, pc1 = PC.done r → r = 0 ∧ posts v = decs v ∧
        (decs v = 0 → m.semaphore = 0 ∨ ∃ x ∈ v, signed_le_zero x.1.wait = true))) ∧
    (∀ sh, run_proc m p 5 (PC.unlock_cas, sh) =
      if sh.lock = p then (PC.done 0, woken m { sh with lock := 0 }) else (PC.done 0, sh)) := by
  have hv := exec_view m p st sched pc1 hs h1
  rw [h0] at hv
  refine ⟨?_, ?_, ?_, unlock_alone m p⟩
  · intro hm
    rw [hm] at hv
    simp only [List.map_nil, run_env, Prod.mk.injEq] at hv
    exact hv.1.symm
  · intro e v hm hl
    rw [hm, List.map_cons, run_env_unlock_cas, if_neg hl] at hv
    simp only [Prod.mk.injEq, List.cons.injEq] at hv
    exact ⟨by rw [← hv.2.1], hv.2.2.symm, hv.1.symm⟩
  · intro e v hm hl
    rw [hm, List.map_cons, run_env_unlock_cas, if_pos hl] at hv
    simp only [Prod.mk.injEq, List.cons.injEq] at hv
    obtain ⟨a, b, c⟩ := hv
    have hw := wake_facts m p 0 (v.map Prod.fst) pc1 v (Prod.ext a c)
    exact ⟨by rw [← b], hw⟩

/-- Witness of C26 (amended): process 1 is about to unlock with one waiter counted;
process 2 takes the mutex with `ngx_shmtx_trylock` right after the lock word
was cleared; process 1 then decrements the count and posts once. -/
theorem ngx_shmtx_unlock_races_witness :
    ((at_pc 1 PC.unlock_cas ⟨1, 1, 0⟩).pcs 1 = PC.unlock_cas ∧
      (∀ x ∈ [(1, Choice.tick), (2, Choice.call Call.trylock), (2, Choice.tick),
          (2, Choice.tick), (1, Choice.tick), (1, Choice.tick), (1, Choice.tick),
          (1, Choice.tick)], x.1 = 1 → x.2 = Choice.tick) ∧
      (exec ⟨1, 2048, 1⟩ (at_pc 1 PC.unlock_cas ⟨1, 1, 0⟩)
          [(1, Choice.tick), (2, Choice.call Call.trylock), (2, Choice.tick),
           (2, Choice.tick), (1, Choice.tick), (1, Choice.tick), (1, Choice.tick),
           (1, Choice.tick)]).map (fun s => s.pcs 1) = some (PC.done 0)) ∧
    view ⟨1, 2048, 1⟩ 1 (at_pc 1 PC.unlock_cas ⟨1, 1, 0⟩)
        [(1, Choice.tick), (2, Choice.call Call.trylock), (2, Choice.tick),
         (2, Choice.tick), (1, Choice.tick), (1, Choice.tick), (1, Choice.tick),
         (1, Choice.tick)]
      = [(⟨1, 1, 0⟩, ⟨0, 1, 0⟩), (⟨2, 1, 0⟩, ⟨2, 1, 0⟩), (⟨2, 1, 0⟩, ⟨2, 1, 0⟩),
         (⟨2, 1, 0⟩, ⟨2, 0, 0⟩), (⟨2, 0, 0⟩, ⟨2, 0, 1⟩)] ∧
    (∀ e v, view ⟨1, 2048, 1⟩ 1 (at_pc 1 PC.unlock_cas ⟨1, 1, 0⟩)
        [(1, Choice.tick), (2, Choice.call Call.trylock), (2, Choice.tick),
         (2, Choice.tick), (1, Choice.tick), (1, Choice.tick), (1, Choice.tick),
         (1, Choice.tick)] = e :: v → e.1.lock = 1 →
      e.2 = { e.1 with lock := 0 } ∧
      (∀ x ∈ v, wake_step x) ∧ decs v ≤ 1 ∧ posts v ≤ decs v ∧
      ((Mtx.mk 1 2048 1).semaphore = 0 → decs v = 0) ∧
      (∀ r, PC.done 0 = PC.done r → r = 0 ∧ posts v = decs v ∧
        (decs v = 0 → (Mtx.mk 1 2048 1).semaphore = 0 ∨
          ∃ x ∈ v, signed_le_zero x.1.wait = true))) :=
  ⟨⟨rfl, by decide, by decide⟩, by decide,
   (ngx_shmtx_unlock_races ⟨1, 2048, 1⟩ 1 (at_pc 1 PC.unlock_cas ⟨1, 1, 0⟩)
      [(1, Choice.tick), (2, Choice.call Call.trylock), (2, Choice.tick),
       (2, Choice.tick), (1, Choice.tick), (1, Choice.tick), (1, Choice.tick),
       (1, Choice.tick)] (PC.done 0) rfl (by decide) (by decide)).2.2.1⟩

/-- A counterexample to C29 as stated.  In the schedule `force_unlock_late` the
lock word is 1 when process 3 calls `ngx_shmtx_force_unlock(mtx, 1)`; process
1 unlocks before the compare-and-set of process 3, and the call of process 3
returns 0.  In the second schedule process 3 calls it with the lock word 1
and the waiter count 1, clears the lock word and returns 1, but the waiter
has decremented the count in between: process 3 has neither decremented the
count nor posted the semaphore. -/
theorem force_unlock_misses :
    (exec ⟨1, 2048, 1⟩ init (force_unlock_late.take 4)).map (fun s => (s.sh, s.pcs 3))
      = some (⟨1, 0, 0⟩, PC.force_cas 1) ∧
    (exec ⟨1, 2048, 1⟩ init force_unlock_late).map (fun s => (s.sh, s.pcs 3))
      = some (⟨0, 0, 0⟩, PC.done 0) ∧
    (exec ⟨1, 2048, 1⟩ init (one_waiter ++ (release_race 3 (Call.force_unlock 1)).take 1)).map
        (fun s => (s.sh, s.pcs 3))
      = some (⟨1, 1, 0⟩, PC.force_cas 1) ∧
    (exec ⟨1, 2048, 1⟩ init (one_waiter ++ release_race 3 (Call.force_unlock 1))).map
        (fun s => (s.sh, s.pcs 3))
      = some (⟨2, 0, 0⟩, PC.done 1) ∧
    view ⟨1, 2048, 1⟩ 3 init (one_waiter ++ release_race 3 (Call.force_unlock 1))
      = [(⟨1, 1, 0⟩, ⟨1, 1, 0⟩), (⟨1, 1, 0⟩, ⟨0, 1, 0⟩), (⟨2, 0, 0⟩, ⟨2, 0, 0⟩),
         (⟨2, 0, 0⟩, ⟨2, 0, 0⟩)] := by
  refine ⟨by decide, by decide, by decide, by decide, by decide⟩

/-- Claim C29, amended: in every schedule, whatever the other processes do between
the actions of the call, `ngx_shmtx_force_unlock(mtx, pid)` starts with one
compare-and-set.  If the lock word is not `pid` then, the call returns 0 at
once and none of its actions changes the lock word, the waiter count or the
semaphore.  If it is, the lock word becomes 0, `ngx_shmtx_wakeup` runs, and a
call that returns returns 1.  The wake-up is the one of `ngx_shmtx_unlock`:
in the same memory states it takes the same actions as after an unlock by any
process; it never touches the lock word, changes the waiter count at most
once, from a positive value to one less, and posts the semaphore at most
once, only after that change; when the call has returned it has posted
exactly once if it has decremented the count and not at all otherwise.
Running alone the call ends within five actions and leaves the memory that
`ngx_shmtx_unlock` by the holder leaves. -/
theorem ngx_shmtx_force_unlock_races (m : Mtx) (p pid : Nat) (st : State)
    (sched : List (Nat × Choice)) (pc1 : PC)
    (h0 : st.pcs p = PC.force_cas pid)
    (hs : ∀ x ∈ sched, x.1 = p → x.2 = Choice.tick)
    (h1 : (exec m st sched).map (fun s => s.pcs p) = some pc1) :
    (view m p st sched = [] → pc1 = PC.force_cas pid) ∧
    (∀ e v, view m p st sched = e :: v → e.1.lock ≠ pid →
      e.2 = e.1 ∧ v = [] ∧ pc1 = PC.done 0) ∧
    (∀ e v, view m p st sched = e :: v → e.1.lock = pid →
      e.2 = { e.1 with lock := 0 } ∧
      (∀ x ∈ v, wake_step x) ∧ decs v ≤ 1 ∧ posts v ≤ decs v ∧
      (m.semaphore = 0 → decs v = 0) ∧
      (∀ r, pc1 = PC.done r → r = 1 ∧ posts v = decs v ∧
        (decs v = 0 → m.semaphore = 0 ∨ ∃ x ∈ v, signed_le_zero x.1.wait = true))) ∧
    (∀ q shs, (run_env m p (PC.wake_test 1) shs).2 = (run_env m q (PC.wake_test 0) shs).2) ∧
    (∀ sh, run_proc m p 5 (PC.force_cas pid, sh) =
        (if sh.lock = pid then (PC.done 1, woken m { sh with lock := 0 })
         else (PC.done 0, sh)) ∧
      (sh.lock = pid →
        (run_proc m p 5 (PC.force_cas pid, sh)).2 = (run_proc m pid 5 (PC.unlock_cas, sh)).2)) := by
  have hv := exec_view m p st sched pc1 hs h1
  rw [h0] at hv
  refine ⟨?_, ?_, ?_, fun q shs => (wake_same m p q 1 0 shs).1, fun sh => ⟨?_, ?_⟩⟩
  · intro hm
    rw [hm] at hv
    simp only [List.map_nil, run_env, Prod.mk.injEq] at hv
    exact hv.1.symm
  · intro e v hm hl
    rw [hm, List.map_cons, run_env_force_cas, if_neg hl] at hv
    simp only [Prod.mk.injEq, List.cons.injEq] at hv
    exact ⟨by rw [← hv.2.1], hv.2.2.symm, hv.1.symm⟩
  · intro e v hm hl
    rw [hm, List.map_cons, run_env_force_cas, if_pos hl] at hv
    simp only [Prod.mk.injEq, List.cons.injEq] at hv
    obtain ⟨a, b, c⟩ := hv
    have hw := wake_facts m p 1 (v.map Prod.fst) pc1 v (Prod.ext a c)
    exact ⟨by rw [← b], hw⟩
  · exact force_unlock_alone m p pid sh
  · intro h
    rw [force_unlock_alone, unlock_alone, if_pos h, if_pos h]

/-- Witness of C29 (amended): process 3 is about to clear the lock of the holder 1
with one waiter counted; process 2 takes the mutex with `ngx_shmtx_trylock`
right after the lock word was cleared; process 3 then decrements the count,
posts once and returns 1. -/
theorem ngx_shmtx_force_unlock_races_witness :
    ((at_pc 3 (PC.force_cas 1) ⟨1, 1, 0⟩).pcs 3 = PC.force_cas 1 ∧
      (∀ x ∈ [(3, Choice.tick), (2, Choice.call Call.trylock), (2, Choice.tick),
          (2, Choice.tick), (3, Choice.tick), (3, Choice.tick), (3, Choice.tick),
          (3, Choice.tick)], x.1 = 3 → x.2 = Choice.tick) ∧
      (exec ⟨1, 2048, 1⟩ (at_pc 3 (PC.force_cas 1) ⟨1, 1, 0⟩)
          [(3, Choice.tick), (2, Choice.call Call.trylock), (2, Choice.tick),
           (2, Choice.tick), (3, Choice.tick), (3, Choice.tick), (3, Choice.tick),
           (3, Choice.tick)]).map (fun s => s.pcs 3) = some (PC.done 1)) ∧
    view ⟨1, 2048, 1⟩ 3 (at_pc 3 (PC.force_cas 1) ⟨1, 1, 0⟩)
        [(3, Choice.tick), (2, Choice.call Call.trylock), (2, Choice.tick),
         (2, Choice.tick), (3, Choice.tick), (3, Choice.tick), (3, Choice.tick),
         (3, Choice.tick)]
      = [(⟨1, 1, 0⟩, ⟨0, 1, 0⟩), (⟨2, 1, 0⟩, ⟨2, 1, 0⟩), (⟨2, 1, 0⟩, ⟨2, 1, 0⟩),
         (⟨2, 1, 0⟩, ⟨2, 0, 0⟩), (⟨2, 0, 0⟩, ⟨2, 0, 1⟩)] ∧
    (∀ e v, view ⟨1, 2048, 1⟩ 3 (at_pc 3 (PC.force_cas 1) ⟨1, 1, 0⟩)
        [(3, Choice.tick), (2, Choice.call Call.trylock), (2, Choice.tick),
         (2, Choice.tick), (3, Choice.tick), (3, Choice.tick), (3, Choice.tick),
         (3, Choice.tick)] = e :: v → e.1.lock = 1 →
      e.2 = { e.1 with lock := 0 } ∧
      (∀ x ∈ v, wake_step x) ∧ decs v ≤ 1 ∧ posts v ≤ decs v ∧
      ((Mtx.mk 1 2048 1).semaphore = 0 → decs v = 0) ∧
      (∀ r, PC.done 1 = PC.done r → r = 1 ∧ posts v = decs v ∧
        (decs v = 0 → (Mtx.mk 1 2048 1).semaphore = 0 ∨
          ∃ x ∈ v, signed_le_zero x.1.wait = true))) :=
  ⟨⟨rfl, by decide, by decide⟩, by decide,
   (ngx_shmtx_force_unlock_races ⟨1, 2048, 1⟩ 3 1 (at_pc 3 (PC.force_cas 1) ⟨1, 1, 0⟩)
      [(3, Choice.tick), (2, Choice.call Call.trylock), (2, Choice.tick),
       (2, Choice.tick), (3, Choice.tick), (3, Choice.tick), (3, Choice.tick),
       (3, Choice.tick)] (PC.done 1) rfl (by decide) (by decide)).2.2.1⟩

/-- Running `a + b` actions is running `a` and then `b`. -/
theorem run_proc_add (m : Mtx) (p : Nat) :
    ∀ (a b : Nat) (s : PC × Shared),
      run_proc m p (a + b) s = run_proc m p b (run_proc m p a s) := by
  intro a
  induction a with
  | zero => intro b s; simp [run_proc]
  | succ a ih =>
    intro b s
    obtain ⟨pc, sh⟩ := s
    have e : a + 1 + b = (a + b) + 1 := by omega
    rw [e]
    cases h : step_proc m p Choice.tick pc sh with
    | none =>
      simp only [run_proc, h]
      exact (run_proc_blocked m p pc sh h b).symm
    | some r =>
      obtain ⟨pc1, sh1, ev⟩ := r
      simp only [run_proc, h]
      exact ih b (pc1, sh1)

/-- Claim C27, evaluated: after the waiter count was incremented, a re-check that
succeeds is followed by the decrement of the waiter count and then by
`sem_wait` (there is no `return` after ngx_shmtx.c:158).  Process 2, alone
with a free mutex at the point after line 155, takes the lock, restores the
waiter count and stays blocked in `sem_wait` for every amount of fuel, holding
the lock. -/
theorem lock_recheck_success_blocks :
    (∀ (m : Mtx) (p : Nat) (sh : Shared),
      step_proc m p Choice.tick PC.wait_dec sh
        = some (PC.sem_wait, { sh with wait := (sh.wait + WORD - 1) % WORD }, none)) ∧
    run_proc ⟨1, 1, 1⟩ 2 1 (PC.wait_inc, ⟨0, 0, 0⟩) = (PC.recheck_read, ⟨0, 1, 0⟩) ∧
    run_proc ⟨1, 1, 1⟩ 2 3 (PC.wait_inc, ⟨0, 0, 0⟩) = (PC.wait_dec, ⟨2, 1, 0⟩) ∧
    (∀ fuel, run_proc ⟨1, 1, 1⟩ 2 (4 + fuel) (PC.wait_inc, ⟨0, 0, 0⟩)
      = (PC.sem_wait, ⟨2, 0, 0⟩)) := by
  refine ⟨fun m p sh => rfl, by decide, by decide, ?_⟩
  intro fuel
  rw [run_proc_add]
  have e : run_proc ⟨1, 1, 1⟩ 2 4 (PC.wait_inc, ⟨0, 0, 0⟩) = (PC.sem_wait, ⟨2, 0, 0⟩) := by
    decide
  rw [e]
  exact run_proc_blocked _ _ _ _ (by decide) fuel

end NgxShmtx

namespace NgxShmtx

open NgxPalloc (WORD)

/-- What one atomic action does to the lock word: nothing when it changes no
ownership, 0 to `p` at an acquisition by `p`, and `q` to 0 at a release of `q`. -/
theorem step_proc_lock (m : Mtx) (p : Nat) (ch : Choice) (pc : PC) (sh : Shared)
    (pc1 : PC) (sh1 : Shared) (ev : Option Ev)
    (h : step_proc m p ch pc sh = some (pc1, sh1, ev)) :
    (ev = none ∧ sh1.lock = sh.lock) ∨
    (ev = some (Ev.acquire p) ∧ sh.lock = 0 ∧ sh1.lock = p) ∨
    (∃ q, ev = some (Ev.release q) ∧ sh.lock = q ∧ sh1.lock = 0) := by
  cases pc <;> cases ch <;> simp only [step_proc] at h <;> (try split_ifs at h) <;>
    cases h <;> simp_all

/-- One step of the system keeps the lock word equal to the holder of the
history, and a non-zero lock word is the pid of the latest acquisition. -/
theorem exec1_holder (m : Mtx) (st st1 : State) (a : Nat × Choice)
    (h : exec1 m st a = some st1)
    (inv : st.sh.lock = holder st.hist ∧
      (st.sh.lock ≠ 0 → st.hist.getLast? = some (Ev.acquire st.sh.lock))) :
    st1.sh.lock = holder st1.hist ∧
      (st1.sh.lock ≠ 0 → st1.hist.getLast? = some (Ev.acquire st1.sh.lock)) := by
  unfold exec1 at h
  cases hs : step_proc m a.1 a.2 (st.pcs a.1) st.sh with
  | none => rw [hs] at h; exact absurd h (by simp)
  | some r =>
    obtain ⟨pc1, sh1, ev⟩ := r
    rw [hs] at h
    simp only [Option.some.injEq] at h
    subst h
    obtain ⟨i1, i2⟩ := inv
    rcases step_proc_lock m a.1 a.2 (st.pcs a.1) st.sh pc1 sh1 ev hs with
      ⟨he, hl⟩ | ⟨he, h0, hl⟩ | ⟨q, he, hq, hl⟩
    · subst he
      simp only [Option.toList, List.append_nil, hl]
      exact ⟨i1, i2⟩
    · subst he
      simp only [Option.toList, holder, List.foldl_append, List.foldl_cons, List.foldl_nil,
        own, hl]
      exact ⟨trivial, fun _ => by simp⟩
    · subst he
      have hh : holder st.hist = q := by rw [← i1, hq]
      simp only [Option.toList, holder, List.foldl_append, List.foldl_cons, List.foldl_nil,
        own, hl]
      unfold holder at hh
      rw [hh]
      simp

/-- Every schedule keeps the lock word equal to the holder of the history. -/
theorem exec_holder (m : Mtx) :
    ∀ (sched : List (Nat × Choice)) (st0 st : State),
      exec m st0 sched = some st →
      (st0.sh.lock = holder st0.hist ∧
        (st0.sh.lock ≠ 0 → st0.hist.getLast? = some (Ev.acquire st0.sh.lock))) →
      st.sh.lock = holder st.hist ∧
        (st.sh.lock ≠ 0 → st.hist.getLast? = some (Ev.acquire st.sh.lock)) := by
  intro sched
  induction sched with
  | nil =>
    intro st0 st h inv
    simp only [exec, Option.some.injEq] at h
    subst h
    exact inv
  | cons a rest ih =>
    intro st0 st h inv
    unfold exec at h
    cases h1 : exec1 m st0 a with
    | none => rw [h1] at h; exact absurd h (by simp)
    | some st1 =>
      rw [h1] at h
      exact ih st1 st h (exec1_holder m st0 st1 a h1 inv)

/-- Claim C28, counterexample: the schedule `recheck_race` of the processes 1 and 2,
from `lock = 0`, `wait = 0`, ends with process 2 holding the lock and the
waiter count at 18446744073709551615, which is -1 as a signed integer. -/
theorem wait_negative_after_recheck_race :
    (exec ⟨1, 1, 1⟩ init recheck_race).map (fun st => (st.sh, st.hist))
      = some (⟨2, 18446744073709551615, 1⟩,
          [Ev.acquire 1, Ev.release 1, Ev.acquire 2]) ∧
    as_signed 18446744073709551615 = -1 := by
  refine ⟨by decide, by decide⟩

/-- Claim C28, amended: in every state reached from `lock = 0`, `wait = 0` by atomic
actions of `ngx_shmtx_trylock`, `ngx_shmtx_lock`, `ngx_shmtx_unlock` and
`ngx_shmtx_force_unlock`, the lock word is the holder according to the history
of acquisitions and releases (0 when there is none), and a non-zero lock word
is the pid of the process whose acquisition is the latest change of ownership,
so that process acquired the lock and it has not been released since. -/
theorem lock_word_is_holder (m : Mtx) (sched : List (Nat × Choice)) (sh : Shared)
    (hist : List Ev)
    (h : (exec m init sched).map (fun st => (st.sh, st.hist)) = some (sh, hist)) :
    sh.lock = holder hist ∧ (sh.lock ≠ 0 → hist.getLast? = some (Ev.acquire sh.lock)) := by
  cases he : exec m init sched with
  | none => rw [he] at h; exact absurd h (by simp)
  | some st =>
    rw [he] at h
    simp only [Option.map_some', Option.some.injEq, Prod.mk.injEq] at h
    obtain ⟨h1, h2⟩ := h
    subst h1
    subst h2
    exact exec_holder m sched init st he ⟨rfl, fun h0 => absurd rfl h0⟩

/-- Witness of C28: the schedule `handover`, after which process 2 holds the mutex. -/
theorem lock_word_is_holder_witness :
    (exec ⟨0, 2048, 2⟩ init handover).map (fun st => (st.sh, st.hist))
      = some (⟨2, 0, 0⟩, [Ev.acquire 1, Ev.release 1, Ev.acquire 2]) ∧
    ((Shared.mk 2 0 0).lock = holder [Ev.acquire 1, Ev.release 1, Ev.acquire 2] ∧
      ((Shared.mk 2 0 0).lock ≠ 0 →
        [Ev.acquire 1, Ev.release 1, Ev.acquire 2].getLast?
          = some (Ev.acquire (Shared.mk 2 0 0).lock))) :=
  ⟨by decide, lock_word_is_holder ⟨0, 2048, 2⟩ handover ⟨2, 0, 0⟩ _ (by decide)⟩

end NgxShmtx

namespace NgxShmtx

open NgxPalloc (WORD)

/-! ## The spin phase -/

/-- The inner loop `for (i = 0; i < n; i++) ngx_cpu_pause()`: from the counter `i`
the remaining `j = n - i` pauses lead to the counter `n`. -/
theorem pause_run (m : Mtx) (p n : Nat) (sh : Shared) (hn : n < WORD) :
    ∀ (j i : Nat), i + j = n →
      run_proc m p j (PC.spin_pause n i, sh) = (PC.spin_pause n n, sh) := by
  intro j
  induction j with
  | zero => intro i h; simp only [Nat.add_zero] at h; subst h; rfl
  | succ j ih =>
    intro i h
    have hlt : i < n := by omega
    have hmod : (i + 1) % WORD = i + 1 := Nat.mod_eq_of_lt (by omega)
    simp only [run_proc, step_proc, if_pos hlt, hmod]
    exact ih (i + 1) (by omega)

/-- One round of the spin phase while the lock stays held: `n` pauses, one look at
the lock word, and `n` doubled. -/
theorem spin_round (m : Mtx) (p n : Nat) (sh : Shared) (hl : sh.lock ≠ 0)
    (hs : n < m.spin) (hn : n < WORD / 2) :
    run_proc m p (n + 1) (PC.spin_test n, sh) = (PC.spin_pause n n, sh) ∧
    run_proc m p (n + 2) (PC.spin_test n, sh) = (PC.spin_read n, sh) ∧
    run_proc m p (n + 3) (PC.spin_test n, sh) = (PC.spin_test (2 * n), sh) := by
  have hW : n < WORD := by unfold WORD at *; omega
  have h1 : run_proc m p (n + 1) (PC.spin_test n, sh) = (PC.spin_pause n n, sh) := by
    have e : n + 1 = 1 + n := by omega
    rw [e, run_proc_add]
    have e1 : run_proc m p 1 (PC.spin_test n, sh) = (PC.spin_pause n 0, sh) := by
      simp [run_proc, step_proc, hs]
    rw [e1]
    exact pause_run m p n sh hW n 0 (by omega)
  have h2 : run_proc m p (n + 2) (PC.spin_test n, sh) = (PC.spin_read n, sh) := by
    have e : n + 2 = (n + 1) + 1 := by omega
    rw [e, run_proc_add, h1]
    simp [run_proc, step_proc]
  have h3 : run_proc m p (n + 3) (PC.spin_test n, sh) = (PC.spin_test (2 * n), sh) := by
    have e : n + 3 = (n + 2) + 1 := by omega
    rw [e, run_proc_add, h2]
    have hsh : (n <<< 1) % WORD = 2 * n := by
      rw [Nat.shiftLeft_eq]
      unfold WORD at *
      omega
    simp [run_proc, step_proc, hl, hsh]
  exact ⟨h1, h2, h3⟩

/-- After `k` full rounds the spin phase is at the test of the round `k`. -/
theorem spin_rounds (m : Mtx) (p : Nat) (sh : Shared) (hc : 1 < m.ngx_ncpu)
    (hl : sh.lock ≠ 0) (hs : m.spin ≤ 2 ^ 63) :
    ∀ k, k ≤ Nat.clog 2 m.spin →
      run_proc m p (2 ^ k + 3 * k) (PC.lock_ncpu, sh) = (PC.spin_test (2 ^ k), sh) := by
  intro k
  induction k with
  | zero =>
    intro _
    simp [run_proc, step_proc, hc]
  | succ k ih =>
    intro hk
    have hlt : 2 ^ k < m.spin := (Nat.pow_lt_iff_lt_clog (by decide)).mpr (by omega)
    have hn : 2 ^ k < WORD / 2 := by unfold WORD; omega
    have e : 2 ^ (k + 1) + 3 * (k + 1) = (2 ^ k + 3 * k) + (2 ^ k + 3) := by
      rw [Nat.pow_succ]; omega
    rw [e, run_proc_add, ih (by omega), (spin_round m p (2 ^ k) sh hl hlt hn).2.2]
    rw [Nat.pow_succ, Nat.mul_comm]

/-- With `spin = (ngx_uint_t) -1` and the lock held, no amount of fuel takes
the process out of the spin phase: every value of `n` is below `spin`. -/
theorem spin_forever (p : Nat) (sh : Shared) (hl : sh.lock ≠ 0) :
    ∀ (fuel n : Nat), n < WORD - 1 →
      (∀ i, in_spin (run_proc ⟨1, WORD - 1, 2⟩ p fuel (PC.spin_pause n i, sh)).1 = true ∧
        (run_proc ⟨1, WORD - 1, 2⟩ p fuel (PC.spin_pause n i, sh)).2 = sh) ∧
      (in_spin (run_proc ⟨1, WORD - 1, 2⟩ p fuel (PC.spin_test n, sh)).1 = true ∧
        (run_proc ⟨1, WORD - 1, 2⟩ p fuel (PC.spin_test n, sh)).2 = sh) ∧
      (in_spin (run_proc ⟨1, WORD - 1, 2⟩ p fuel (PC.spin_read n, sh)).1 = true ∧
        (run_proc ⟨1, WORD - 1, 2⟩ p fuel (PC.spin_read n, sh)).2 = sh) := by
  intro fuel
  induction fuel with
  | zero => intro n _; exact ⟨fun i => ⟨rfl, rfl⟩, ⟨rfl, rfl⟩, ⟨rfl, rfl⟩⟩
  | succ f ih =>
    intro n hn
    have hnext : (n <<< 1) % WORD < WORD - 1 := by
      rw [Nat.shiftLeft_eq]
      unfold WORD
      omega
    refine ⟨fun i => ?_, ?_, ?_⟩
    · by_cases hi : i < n
      · simp only [run_proc, step_proc, if_pos hi]
        exact (ih n hn).1 _
      · simp only [run_proc, step_proc, if_neg hi]
        exact (ih n hn).2.2
    · simp only [run_proc, step_proc, if_pos hn]
      exact (ih n hn).1 0
    · simp only [run_proc, step_proc, if_neg hl]
      exact (ih _ hnext).2.1

/-- Claim C30, counterexample: with `mtx->spin = (ngx_uint_t) -1`, `ngx_ncpu = 2` and
the lock held by process 1, the spin phase of process 2 never ends: after
every number of actions the process is still inside the loop of
ngx_shmtx.c:113 and has changed nothing.  The shift `n <<= 1` takes
`n = 2^63` to 0, and from then on every round has no pause at all and `n`
stays 0, below `spin`. -/
theorem spin_phase_unbounded :
    (∀ fuel, in_spin (run_proc ⟨1, 18446744073709551615, 2⟩ 2 (fuel + 1)
        (PC.lock_ncpu, ⟨1, 0, 0⟩)).1 = true ∧
      (run_proc ⟨1, 18446744073709551615, 2⟩ 2 (fuel + 1) (PC.lock_ncpu, ⟨1, 0, 0⟩)).2
        = ⟨1, 0, 0⟩) ∧
    run_proc ⟨1, 18446744073709551615, 2⟩ 2 1 (PC.spin_read 9223372036854775808, ⟨1, 0, 0⟩)
      = (PC.spin_test 0, ⟨1, 0, 0⟩) ∧
    run_proc ⟨1, 18446744073709551615, 2⟩ 2 3 (PC.spin_test 0, ⟨1, 0, 0⟩)
      = (PC.spin_test 0, ⟨1, 0, 0⟩) := by
  refine ⟨fun fuel => ?_, by decide, by decide⟩
  have h := (spin_forever 2 ⟨1, 0, 0⟩ (by decide) fuel 1 (by decide)).2.1
  have e : run_proc ⟨1, 18446744073709551615, 2⟩ 2 (fuel + 1) (PC.lock_ncpu, ⟨1, 0, 0⟩)
      = run_proc ⟨1, WORD - 1, 2⟩ 2 fuel (PC.spin_test 1, ⟨1, 0, 0⟩) := by
    simp [run_proc, step_proc, WORD]
  rw [e]
  exact h

/-- Claim C30, amended: for every `mtx->spin` up to 2^63 and `ngx_ncpu > 1`, the spin
phase of one pass of `ngx_shmtx_lock` is bounded.  While the lock stays held,
round `k` (started with `n = 2^k < spin`) performs exactly `2^k` pauses, then
one look at the lock word, and goes on to the test of round `k + 1`; with
`r` the number of `k` such that `2^k < spin` (`k < r` if and only if
`2^k < spin`), the phase started at line 111 reaches the semaphore/yield step
after exactly `r` rounds, in `2^r + 3 r + 1` actions, the shared memory
unchanged. -/
theorem spin_phase_bounded (m : Mtx) (p : Nat) (sh : Shared) (hc : 1 < m.ngx_ncpu)
    (hl : sh.lock ≠ 0) (hs : m.spin ≤ 2 ^ 63) :
    (∀ k, k < Nat.clog 2 m.spin ↔ 2 ^ k < m.spin) ∧
    (∀ k, k < Nat.clog 2 m.spin →
      run_proc m p (2 ^ k + 3 * k) (PC.lock_ncpu, sh) = (PC.spin_test (2 ^ k), sh) ∧
      run_proc m p (2 ^ k + 1) (PC.spin_test (2 ^ k), sh)
        = (PC.spin_pause (2 ^ k) (2 ^ k), sh) ∧
      run_proc m p (2 ^ k + 2) (PC.spin_test (2 ^ k), sh) = (PC.spin_read (2 ^ k), sh) ∧
      run_proc m p (2 ^ k + 3) (PC.spin_test (2 ^ k), sh)
        = (PC.spin_test (2 ^ (k + 1)), sh)) ∧
    run_proc m p (2 ^ Nat.clog 2 m.spin + 3 * Nat.clog 2 m.spin) (PC.lock_ncpu, sh)
      = (PC.spin_test (2 ^ Nat.clog 2 m.spin), sh) ∧
    run_proc m p (2 ^ Nat.clog 2 m.spin + 3 * Nat.clog 2 m.spin + 1) (PC.lock_ncpu, sh)
      = (PC.sem_test, sh) := by
  have hiff : ∀ k, k < Nat.clog 2 m.spin ↔ 2 ^ k < m.spin :=
    fun k => (Nat.pow_lt_iff_lt_clog (by decide)).symm
  refine ⟨hiff, ?_, spin_rounds m p sh hc hl hs _ (Nat.le_refl _), ?_⟩
  · intro k hk
    have hlt : 2 ^ k < m.spin := (hiff k).mp hk
    have hn : 2 ^ k < WORD / 2 := by unfold WORD; omega
    obtain ⟨r1, r2, r3⟩ := spin_round m p (2 ^ k) sh hl hlt hn
    refine ⟨spin_rounds m p sh hc hl hs k (Nat.le_of_lt hk), r1, r2, ?_⟩
    rw [r3, Nat.pow_succ, Nat.mul_comm]
  · rw [run_proc_add, spin_rounds m p sh hc hl hs _ (Nat.le_refl _)]
    have hge : ¬ 2 ^ Nat.clog 2 m.spin < m.spin := by
      intro h
      exact absurd ((hiff _).mpr h) (Nat.lt_irrefl _)
    simp [run_proc, step_proc, hge]

/-- Witness of C30: `spin = 8`, two processors, the lock held by process 1. -/
theorem spin_phase_bounded_witness :
    (1 < (Mtx.mk 1 8 2).ngx_ncpu ∧ (Shared.mk 1 0 0).lock ≠ 0 ∧ (Mtx.mk 1 8 2).spin ≤ 2 ^ 63) ∧
    Nat.clog 2 8 = 3 ∧
    run_proc ⟨1, 8, 2⟩ 2 (2 ^ Nat.clog 2 (Mtx.mk 1 8 2).spin + 3 * Nat.clog 2 (Mtx.mk 1 8 2).spin + 1)
      (PC.lock_ncpu, ⟨1, 0, 0⟩) = (PC.sem_test, ⟨1, 0, 0⟩) ∧
    run_proc ⟨1, 8, 2⟩ 2 18 (PC.lock_ncpu, ⟨1, 0, 0⟩) = (PC.sem_test, ⟨1, 0, 0⟩) :=
  ⟨⟨by decide, by decide, by decide⟩, Nat.clog_pow 2 3 (by decide),
   (spin_phase_bounded ⟨1, 8, 2⟩ 2 ⟨1, 0, 0⟩ (by decide) (by decide) (by decide)).2.2.2,
   by decide⟩

end NgxShmtx

/-!
# Facts about the reuse of large entries, the size thresholds, the free-page
accounting and the dynamic array
-/

namespace NgxPalloc

/-- Claim C33, evaluated.  The local `n` of `ngx_palloc_large` is read by `n++ > 3`
without ever being assigned, so the number of entries the loop inspects
depends on what it holds.  Holding 0, the loop inspects five entries: on the
pool whose first four large entries are live and whose fifth is released, the
address 40000 is stored in the fifth entry and no entry is allocated (the
cursor stays at 8352).  Holding 4, the loop inspects one entry: on the pool
whose second entry is released, a new entry is allocated at 8304 and put at
the head, the released entry staying empty.  Only when `n` holds 1 are exactly
four entries inspected. -/
theorem large_reuse_depends_on_unassigned_n :
    ngx_palloc pool_large5 5000 ⟨40000, 0, 0⟩
      = (40000, { pool_large5 with
          large := [⟨8272, 20000⟩, ⟨8288, 24000⟩, ⟨8304, 28000⟩, ⟨8320, 32000⟩,
            ⟨8336, 40000⟩] }, []) ∧
    ngx_palloc pool_large2 5000 ⟨40000, 0, 4⟩
      = (40000, { pool_large2 with
          blocks := [⟨8192, 8320, 12288, 0⟩]
          large := [⟨8304, 40000⟩, ⟨8272, 20000⟩, ⟨8288, 0⟩] }, []) ∧
    ngx_palloc pool_large5 5000 ⟨40000, 0, 1⟩
      = (40000, { pool_large5 with
          blocks := [⟨8192, 8368, 12288, 0⟩]
          large := ⟨8352, 40000⟩ :: pool_large5.large }, []) ∧
    (∀ (p : Nat) (l : Large) (ls : List Large) (n : Nat), l.alloc ≠ 0 → 3 < n →
      ngx_palloc_large_scan p (l :: ls) n = none) := by
  refine ⟨by decide, by decide, by decide, ?_⟩
  intro p l ls n h0 h3
  simp only [ngx_palloc_large_scan, if_neg h0, if_pos h3]

end NgxPalloc

namespace NgxSlab

open NgxPalloc (WORD)

/-- Claim C34, counterexample: with a 4096-byte page and 8-byte pointers, one
`ngx_slab_sizes_init` from the zeroed static state leaves
`ngx_slab_exact_shift = 6`, not 7; `2^7` is 128, twice `ngx_slab_exact_size`. -/
theorem exact_shift_4096_not_7 :
    cfg4096.ngx_pagesize = 4096 ∧
    (ngx_slab_sizes_init cfg4096 ⟨0, 0, 0⟩).ngx_slab_exact_shift = 6 ∧
    (ngx_slab_sizes_init cfg4096 ⟨0, 0, 0⟩).ngx_slab_exact_shift ≠ 7 ∧
    2 ^ 7 ≠ (ngx_slab_sizes_init cfg4096 ⟨0, 0, 0⟩).ngx_slab_exact_size := by
  refine ⟨by decide, by decide, by decide, by decide⟩

/-- Claim C34, amended: with a 4096-byte page and 8-byte pointers, `ngx_slab_sizes_init`
(run once from the zeroed static state) yields `ngx_slab_max_size = 2048`,
`ngx_slab_exact_size = 64` and `ngx_slab_exact_shift = 6`. -/
theorem ngx_slab_sizes_init_4096 (cfg : Cfg) (h : cfg.ngx_pagesize = 4096) :
    ngx_slab_sizes_init cfg ⟨0, 0, 0⟩ = ⟨2048, 64, 6⟩ := by
  unfold ngx_slab_sizes_init
  rw [h]
  decide

/-- Witness of C34 (amended): the platform `cfg4096`. -/
theorem ngx_slab_sizes_init_4096_witness :
    cfg4096.ngx_pagesize = 4096 ∧ ngx_slab_sizes_init cfg4096 ⟨0, 0, 0⟩ = ⟨2048, 64, 6⟩ :=
  ⟨by decide, ngx_slab_sizes_init_4096 cfg4096 (by decide)⟩

/-- Claim C39, evaluated.  After `ngx_slab_init` on the pool of 16 pages the runs
reachable from `pool->free.next` are the one run of 16 pages, and `pfree = 16`.
After `ngx_slab_alloc_pages(pool, 1)` (split) `pfree` is 15 but no run is
reachable: the sum of the run lengths is 0.  On the pool of one page,
`ngx_slab_alloc_pages(pool, 1)` (exact fit, an empty branch) returns `pages[0]`
and leaves `pool->free.next` referring to it, so the returned descriptor is
still the head of the free list; its `next` is `NULL`, so the walk from
`pool->free.next` never comes back to the sentinel. -/
theorem free_page_accounting_broken :
    (free_runs 20 pool16 pool16.free.next = some [(PageRef.page 0, 16)] ∧
      pool16.pfree = 16) ∧
    (ngx_slab_alloc_pages 10 pool16 1).value?.map
        (fun r => (r.2.pfree, free_runs 20 r.2 r.2.free.next)) = some (15, some []) ∧
    (free_runs 20 pool1 pool1.free.next = some [(PageRef.page 0, 1)] ∧ pool1.pfree = 1) ∧
    (ngx_slab_alloc_pages 10 pool1 1).value?.map
        (fun r => (r.1, r.2.pfree, r.2.free.next, (r.2.pages[0]?).map (fun d => d.next)))
      = some (PageRef.page 0, 0, PageRef.page 0, some PageRef.null) ∧
    (ngx_slab_alloc_pages 10 pool1 1).value?.map
        (fun r => free_runs 20 r.2 r.2.free.next) = some none := by
  refine ⟨⟨by decide, by decide⟩, by decide, ⟨by decide, by decide⟩, by decide, by decide⟩

end NgxSlab

namespace NgxArray

open NgxPalloc

/-- Claim C35, evaluated.  `ngx_array_push` never changes `a->nelts`: line 138 is
the expression statement `a->nelts;`.  On the array of capacity 2 with 8-byte
elements created in the pool of 4096 bytes (structure at 8272, buffer at
8312), the first push returns the slot 8312 and leaves `nelts = 0`, and the
second push returns the same slot 8312. -/
theorem ngx_array_push_keeps_nelts :
    (∀ (a : ngx_array_t) (p : Pool) (env : Env), (ngx_array_push a p env).a.nelts = a.nelts) ∧
    ngx_array_create pool4096 2 8 ⟨0, 0, 0⟩ ⟨0, 0, 0⟩
      = (some (8272, ⟨8312, 0, 8, 2, 8192⟩),
         { pool4096 with blocks := [⟨8192, 8328, 12288, 0⟩] }, []) ∧
    ngx_array_push ⟨8312, 0, 8, 2, 8192⟩
        { pool4096 with blocks := [⟨8192, 8328, 12288, 0⟩] } ⟨0, 0, 0⟩
      = ⟨8312, ⟨8312, 0, 8, 2, 8192⟩,
         { pool4096 with blocks := [⟨8192, 8328, 12288, 0⟩] }, [], none⟩ ∧
    (ngx_array_push
        (ngx_array_push ⟨8312, 0, 8, 2, 8192⟩
          { pool4096 with blocks := [⟨8192, 8328, 12288, 0⟩] } ⟨0, 0, 0⟩).a
        (ngx_array_push ⟨8312, 0, 8, 2, 8192⟩
          { pool4096 with blocks := [⟨8192, 8328, 12288, 0⟩] } ⟨0, 0, 0⟩).pool
        ⟨0, 0, 0⟩).elt = 8312 := by
  refine ⟨?_, by decide, by decide, by decide⟩
  intro a p env
  unfold ngx_array_push
  simp only
  split
  · split
    · rfl
    · split <;> rfl
  · rfl

/-- Claim C40, evaluated.  `ngx_array_push_n` reads `p->d.last` through the local `p`,
which is never assigned (there is no `p = a->pool`), and tests
`a->elts + n * a->size == p->d.last && p->d.last + a->size <= p->d.end`.
The array of capacity 2 with 8-byte elements holds 2 elements (buffer
`[8312, 8328)`).

* `p` holding anything but the pool's address: the call is undefined.
* `p` holding the pool's address, pool of 144 bytes (cursor 8328, end 8336),
  `n = 2`: the buffer is extended in place by 16 bytes, the cursor becomes
  8344, past the end 8336, and the returned slots `[8328, 8344)` leave the block.
* Pool of 4096 bytes, an 8-byte allocation at 8328 made after the array,
  `n = 3`: the buffer does not end at the cursor, yet it is extended in place;
  the returned slot 8328 is the other allocation.
* Pool of 4096 bytes, nothing allocated after the array, `n = 1`: the buffer
  ends at the cursor and one element fits, yet a new buffer is taken. -/
theorem ngx_array_push_n_leaves_memory :
    ngx_array_push_n ⟨8312, 2, 8, 2, 8192⟩ 0
        { pool144 with blocks := [⟨8192, 8328, 8336, 0⟩] } 2 ⟨0, 0, 0⟩
      = NgxSlab.Outcome.undefined ∧
    ngx_array_push_n ⟨8312, 2, 8, 2, 8192⟩ 8192
        { pool144 with blocks := [⟨8192, 8328, 8336, 0⟩] } 2 ⟨0, 0, 0⟩
      = NgxSlab.Outcome.done ⟨8328, ⟨8312, 4, 8, 4, 8192⟩,
          { pool144 with blocks := [⟨8192, 8344, 8336, 0⟩] }, [], none⟩ ∧
    ngx_palloc { pool4096 with blocks := [⟨8192, 8328, 12288, 0⟩] } 8 ⟨0, 0, 0⟩
      = (8328, { pool4096 with blocks := [⟨8192, 8336, 12288, 0⟩] }, []) ∧
    ngx_array_push_n ⟨8312, 2, 8, 2, 8192⟩ 8192
        { pool4096 with blocks := [⟨8192, 8336, 12288, 0⟩] } 3 ⟨0, 0, 0⟩
      = NgxSlab.Outcome.done ⟨8328, ⟨8312, 5, 8, 5, 8192⟩,
          { pool4096 with blocks := [⟨8192, 8360, 12288, 0⟩] }, [], none⟩ ∧
    ngx_array_push_n ⟨8312, 2, 8, 2, 8192⟩ 8192
        { pool4096 with blocks := [⟨8192, 8328, 12288, 0⟩] } 1 ⟨0, 0, 0⟩
      = NgxSlab.Outcome.done ⟨8344, ⟨8328, 3, 8, 4, 8192⟩,
          { pool4096 with blocks := [⟨8192, 8360, 12288, 0⟩] }, [], some (8328, 8312, 16)⟩ := by
  refine ⟨by decide, by decide, by decide, by decide, by decide⟩

end NgxArray

/-!
# Facts about number formatting
-/

namespace NgxString

open NgxPalloc (WORD ptr_add ptr_diff)

/-- The digit loop on a non-zero value with enough room in `temp` produces the
digits of the value, most significant first, in front of what is there. -/
theorem dec_loop_digits :
    ∀ (room v : Nat) (acc : List Nat), 0 < v → (Nat.digits 10 v).length ≤ room →
      dec_loop room v acc = some ((Nat.digits 10 v).reverse.map (fun x => x + 48) ++ acc) := by
  intro room
  induction room with
  | zero =>
    intro v acc hv hlen
    have hne : Nat.digits 10 v ≠ [] := Nat.digits_ne_nil_iff_ne_zero.mpr (by omega)
    have : (Nat.digits 10 v).length ≠ 0 := fun h => hne (List.eq_nil_of_length_eq_zero h)
    omega
  | succ room ih =>
    intro v acc hv hlen
    have hd : Nat.digits 10 v = (v % 10) :: Nat.digits 10 (v / 10) :=
      Nat.digits_def' (by decide) hv
    have hc : (v % 10 + 48) % 256 = v % 10 + 48 := by omega
    rw [hd] at hlen ⊢
    simp only [List.length_cons] at hlen
    simp only [dec_loop, hc]
    by_cases h0 : v / 10 = 0
    · rw [if_neg (by simp [h0]), h0, Nat.digits_zero]
      simp
    · rw [if_pos h0, ih (v / 10) _ (by omega) (by omega)]
      simp

/-- A 64-bit value has at most 20 decimal digits. -/
theorem digits_length_le (v : Nat) (hv : v < WORD) : (Nat.digits 10 v).length ≤ 20 := by
  by_cases h0 : v = 0
  · subst h0; simp
  · have h1 := Nat.base_pow_length_digits_le 10 v (by decide) h0
    have h2 : 10 ^ (Nat.digits 10 v).length < 10 ^ 21 := by
      unfold WORD at hv
      have : 10 * v < 10 ^ 21 := by norm_num; omega
      omega
    have h3 := (Nat.pow_lt_pow_iff_right (by decide : 1 < 10)).mp h2
    omega

/-- The digit loop of `ngx_sprintf_num` produces the decimal representation of
every 64-bit value. -/
theorem dec_loop_decimal (v : Nat) (hv : v < WORD) :
    dec_loop NGX_INT64_LEN v [] = some (decimal v) := by
  unfold decimal NGX_INT64_LEN
  by_cases h0 : v = 0
  · subst h0; rfl
  · rw [if_neg h0, dec_loop_digits 20 v [] (by omega) (digits_length_le v hv)]
    simp

/-- The padding loop writes `min (width - len) (last - buf)` bytes. -/
theorem pad_loop_spec (width last z : Nat) (hw : width < WORD) (hl : last < WORD) :
    ∀ (fuel len buf : Nat), buf ≤ last → min (width - len) (last - buf) < fuel →
      pad_loop fuel len width buf last z
        = some (buf + min (width - len) (last - buf),
            List.replicate (min (width - len) (last - buf)) z) := by
  intro fuel
  induction fuel with
  | zero => intro len buf _ hf; omega
  | succ fuel ih =>
    intro len buf hb hf
    by_cases hc : len < width ∧ buf < last
    · have e1 : (len + 1) % WORD = len + 1 := Nat.mod_eq_of_lt (by omega)
      have e2 : ptr_add buf 1 = buf + 1 := by
        unfold ptr_add
        exact Nat.mod_eq_of_lt (by omega)
      have e3 : min (width - len) (last - buf)
          = min (width - (len + 1)) (last - (buf + 1)) + 1 := by omega
      simp only [pad_loop, if_pos hc, e1, e2]
      rw [ih (len + 1) (buf + 1) (by omega) (by omega), e3]
      simp only [Option.map_some', List.replicate_succ]
      congr 2
      omega
    · have e3 : min (width - len) (last - buf) = 0 := by omega
      simp only [pad_loop, if_neg hc, e3]
      rfl

/-- The decimal representation has between 1 and 20 digits, all of them ASCII
digits, no leading zero except for the single digit of zero, and reads back as
the value. -/
theorem decimal_spec (v : Nat) (hv : v < WORD) :
    1 ≤ (decimal v).length ∧ (decimal v).length ≤ NGX_INT64_LEN ∧
    (∀ c ∈ decimal v, 48 ≤ c ∧ c ≤ 57) ∧
    (v = 0 → decimal v = [48]) ∧
    (v ≠ 0 → (decimal v).head? ≠ some 48) ∧
    read_decimal (decimal v) = v := by
  unfold decimal NGX_INT64_LEN read_decimal
  by_cases h0 : v = 0
  · subst h0
    simp
  · rw [if_neg h0]
    have hne : Nat.digits 10 v ≠ [] := Nat.digits_ne_nil_iff_ne_zero.mpr h0
    have hlen := digits_length_le v hv
    refine ⟨?_, ?_, ?_, fun h => absurd h h0, fun _ => ?_, ?_⟩
    · simp only [List.length_map, List.length_reverse]
      have : (Nat.digits 10 v).length ≠ 0 := fun h => hne (List.eq_nil_of_length_eq_zero h)
      omega
    · simpa using hlen
    · intro c hc
      simp only [List.mem_map, List.mem_reverse] at hc
      obtain ⟨x, hx, rfl⟩ := hc
      have := Nat.digits_lt_base (by decide : 1 < 10) hx
      omega
    · have hlast := Nat.getLast_digit_ne_zero 10 h0
      rw [← List.dropLast_append_getLast hne]
      simp only [List.reverse_append, List.reverse_singleton, List.singleton_append,
        List.map_cons, List.head?_cons, ne_eq, Option.some.injEq]
      omega
    · have hfold : ∀ (l : List Nat),
          List.foldl (fun acc c => 10 * acc + (c - 48)) 0 (l.reverse.map (fun x => x + 48))
            = Nat.ofDigits 10 l := by
        intro l
        induction l with
        | nil => rfl
        | cons d l ih =>
          simp only [List.reverse_cons, List.map_append, List.map_cons, List.map_nil,
            List.foldl_append, List.foldl_cons, List.foldl_nil, ih, Nat.ofDigits_cons]
          omega
      rw [hfold, Nat.ofDigits_digits]

/-- Claim C37: for every 64-bit `ui64`, every `width`, every pad character and every
buffer with `buf <= last` (ending at least `NGX_INT64_LEN` bytes below the top
of the address space), `ngx_sprintf_num` with `hexadecimal = 0` returns, given
fuel for `last - buf` padding steps.  With `ds` the decimal representation of
`ui64` (between 1 and 20 ASCII digits, no leading zero, the single digit `0`
for zero, reading back as `ui64`) and `d` its length, the bytes written from
`buf` on are `width - d` pad characters followed by `ds`, cut off after
`last - buf` bytes, so nothing is written at or beyond `last`; the returned
pointer `r` is `buf` plus the number of bytes written and `buf <= r <= last`.
When `last - buf >= max(width, d)` the output is complete and
`r = buf + max(width, d)`. -/
theorem ngx_sprintf_num_decimal (max32 fuel buf last ui64 z width : Nat)
    (hmax : max32 < 2 ^ 32) (hu : ui64 < WORD) (hw : width < WORD) (hb : buf ≤ last)
    (hl : last + NGX_INT64_LEN < WORD) (hf : last - buf < fuel) :
    (1 ≤ (decimal ui64).length ∧ (decimal ui64).length ≤ NGX_INT64_LEN ∧
      (∀ c ∈ decimal ui64, 48 ≤ c ∧ c ≤ 57) ∧
      (ui64 = 0 → decimal ui64 = [48]) ∧
      (ui64 ≠ 0 → (decimal ui64).head? ≠ some 48) ∧
      read_decimal (decimal ui64) = ui64) ∧
    ∃ r out, ngx_sprintf_num max32 fuel buf last ui64 z 0 width = some (r, out) ∧
      out = (List.replicate (width - (decimal ui64).length) z ++ decimal ui64).take
        (last - buf) ∧
      r = buf + out.length ∧ buf ≤ r ∧ r ≤ last ∧
      (max width (decimal ui64).length ≤ last - buf →
        out = List.replicate (width - (decimal ui64).length) z ++ decimal ui64 ∧
        r = buf + max width (decimal ui64).length) := by
  have hspec := decimal_spec ui64 hu
  refine ⟨hspec, ?_⟩
  obtain ⟨hd1, hd20, _⟩ := hspec
  unfold NGX_INT64_LEN at hd20 hl
  have hdigits : (if ui64 ≤ max32 then dec_loop NGX_INT64_LEN (ui64 % 2 ^ 32) []
      else dec_loop NGX_INT64_LEN ui64 []) = some (decimal ui64) := by
    by_cases h32 : ui64 ≤ max32
    · rw [if_pos h32, Nat.mod_eq_of_lt (by omega)]
      exact dec_loop_decimal ui64 hu
    · rw [if_neg h32]
      exact dec_loop_decimal ui64 hu
  generalize hds : decimal ui64 = ds at hdigits hd1 hd20 ⊢
  generalize hdl : ds.length = d at hd1 hd20 ⊢
  have hpad := pad_loop_spec width last z hw (by omega) fuel d buf hb (by omega)
  have hk : min (width - d) (last - buf) ≤ last - buf := Nat.min_le_right _ _
  generalize hkdef : min (width - d) (last - buf) = k at hpad hk
  have hadd : ptr_add (buf + k) d = buf + k + d := by
    unfold ptr_add
    exact Nat.mod_eq_of_lt (by omega)
  have hdiff : ptr_diff last (buf + k) = last - (buf + k) := by
    unfold ptr_diff
    unfold WORD at *
    omega
  have hlen2 : (if last < buf + k + d then last - (buf + k) else d)
      = min d (last - (buf + k)) := by
    split <;> omega
  have hadd2 : ptr_add (buf + k) (min d (last - (buf + k)))
      = buf + k + min d (last - (buf + k)) := by
    unfold ptr_add
    exact Nat.mod_eq_of_lt (by omega)
  have hout : List.replicate k z ++ ds.take (min d (last - (buf + k)))
      = (List.replicate (width - d) z ++ ds).take (last - buf) := by
    rw [List.take_append_eq_append_take, List.take_replicate, List.length_replicate]
    have e1 : min (last - buf) (width - d) = k := by omega
    rw [e1]
    congr 1
    by_cases hx : d ≤ last - buf - (width - d)
    · rw [List.take_of_length_le (by omega), List.take_of_length_le (by omega)]
    · have e2 : min d (last - (buf + k)) = last - buf - (width - d) := by omega
      rw [e2]
  refine ⟨buf + k + min d (last - (buf + k)),
    List.replicate k z ++ ds.take (min d (last - (buf + k))), ?_, hout, ?_, ?_, ?_, ?_⟩
  · unfold ngx_sprintf_num
    simp only [if_true]
    rw [hdigits]
    simp only [hdl, hpad, hadd, hdiff, hlen2, hadd2]
  · simp only [List.length_append, List.length_replicate, List.length_take, hdl]
    omega
  · omega
  · omega
  · intro hroom
    rw [hout]
    constructor
    · exact List.take_of_length_le (by
        simp only [List.length_append, List.length_replicate, hdl]
        omega)
    · omega

/-- Witness of C37: `1234` with width 6 and pad character `'0'` into the buffer
`[100, 110)` gives `001234` and returns 106. -/
theorem ngx_sprintf_num_decimal_witness :
    ((4294967295 : Nat) < 2 ^ 32 ∧ (1234 : Nat) < WORD ∧ (6 : Nat) < WORD ∧ (100 : Nat) ≤ 110 ∧
      110 + NGX_INT64_LEN < WORD ∧ 110 - 100 < 11) ∧
    ngx_sprintf_num 4294967295 11 100 110 1234 48 0 6 = some (106, [48, 48, 49, 50, 51, 52]) ∧
    ngx_sprintf_num 4294967295 11 100 103 1234 32 0 6 = some (103, [32, 32, 49]) ∧
    ∃ r out, ngx_sprintf_num 4294967295 11 100 110 1234 48 0 6 = some (r, out) ∧
      out = (List.replicate (6 - (decimal 1234).length) 48 ++ decimal 1234).take
        (110 - 100) ∧
      r = 100 + out.length ∧ 100 ≤ r ∧ r ≤ 110 ∧
      (max 6 (decimal 1234).length ≤ 110 - 100 →
        out = List.replicate (6 - (decimal 1234).length) 48 ++ decimal 1234 ∧
        r = 100 + max 6 (decimal 1234).length) :=
  ⟨⟨by decide, by decide, by decide, by decide, by decide, by decide⟩, by decide, by decide,
   (ngx_sprintf_num_decimal 4294967295 11 100 110 1234 48 6 (by decide) (by decide)
      (by decide) (by decide) (by decide) (by decide)).2⟩

end NgxString

/-!
# Facts about cleanup registration, the failure counters and the array round trip
-/

namespace NgxPalloc

/-- Claim C31, evaluated at a failing input: the pool of 4096 bytes at 8192 after one
registration (8 bytes of data at 8296, handler 1, cell at 8272) and
`ngx_reset_pool`; its list holds the cell at 8272, which lies in the free
part of the block.  `ngx_pool_cleanup_add(p, 0)` returns 8272, that same
cell: the writes `c->data = NULL`, `c->handler = NULL`, `c->next = p->cleanup`
go to the listed cell, so the old entry (handler 1, data 8296) is gone and
the `next` of the new head is the head itself; the walk from `p->cleanup`
never ends.  `ngx_pool_cleanup_add(p, 5000)` with a failing `malloc` returns
`NULL`, but line 471 has stored `NULL` in `c->data` of the same cell before:
the listed entry has lost its data pointer 8296. -/
theorem cleanup_add_overwrites_listed_cell :
    register (Pool.mk [⟨8192, 8272, 12288, 0⟩] 4016 0 [] []) ⟨8, 1, ⟨0, 0, 0⟩, ⟨0, 0, 0⟩⟩
      = some (Pool.mk [⟨8192, 8304, 12288, 0⟩] 4016 0 [] [⟨8272, 1, 8296⟩], (1, 8296)) ∧
    ngx_reset_pool (Pool.mk [⟨8192, 8304, 12288, 0⟩] 4016 0 [] [⟨8272, 1, 8296⟩])
      = (Pool.mk [⟨8192, 8272, 12288, 0⟩] 4016 0 [] [⟨8272, 1, 8296⟩], []) ∧
    ngx_pool_cleanup_add (Pool.mk [⟨8192, 8272, 12288, 0⟩] 4016 0 [] [⟨8272, 1, 8296⟩])
        0 ⟨0, 0, 0⟩ ⟨0, 0, 0⟩
      = (8272, Pool.mk [⟨8192, 8296, 12288, 0⟩] 4016 0 [] [⟨8272, 0, 0⟩, ⟨8272, 0, 0⟩], []) ∧
    ([⟨8272, 0, 0⟩, ⟨8272, 0, 0⟩] : List Cleanup) ≠ [⟨8272, 0, 0⟩, ⟨8272, 1, 8296⟩] ∧
    run_cleanup [⟨8272, 0, 0⟩, ⟨8272, 0, 0⟩] = [Event.forever] ∧
    ngx_pool_cleanup_add (Pool.mk [⟨8192, 8272, 12288, 0⟩] 4016 0 [] [⟨8272, 1, 8296⟩])
        5000 ⟨0, 0, 0⟩ ⟨0, 0, 0⟩
      = (0, Pool.mk [⟨8192, 8296, 12288, 0⟩] 4016 0 [] [⟨8272, 1, 0⟩], []) ∧
    ([⟨8272, 1, 0⟩] : List Cleanup) ≠ [⟨8272, 1, 8296⟩] := by
  refine ⟨by decide, by decide, by decide, by decide, by decide, by decide, by decide⟩

/-- Where the cell that `ngx_pool_cleanup_add` is given lies apart from the
cells that are listed, the call does what is expected of it: the new entry,
with a null handler and with `data = NULL` for `size = 0` and the non-null
result of `ngx_palloc(p, size)` otherwise, is the head and the old list
follows it unchanged. -/
theorem ngx_pool_cleanup_add_fresh (p : Pool) (size : Nat) (env1 env2 : Env)
    (hok : (ngx_pool_cleanup_add p size env1 env2).1 ≠ 0)
    (ha : Apart (ngx_pool_cleanup_add p size env1 env2).2.1.cleanup) :
    (ngx_pool_cleanup_add p size env1 env2).1 = (ngx_palloc p sizeof_ngx_pool_cleanup_t env1).1 ∧
    ∃ data, (ngx_pool_cleanup_add p size env1 env2).2.1.cleanup =
        ⟨(ngx_pool_cleanup_add p size env1 env2).1, 0, data⟩ :: p.cleanup ∧
      (size = 0 → data = 0) ∧
      (size ≠ 0 → data ≠ 0 ∧
        data = (ngx_palloc (ngx_palloc p sizeof_ngx_pool_cleanup_t env1).2.1 size env2).1) := by
  obtain ⟨h1, data, hd, h2, h3⟩ := ngx_pool_cleanup_add_head p size env1 env2 hok
  refine ⟨h1, data, ?_, h2, h3⟩
  rw [hd] at ha ⊢
  unfold link at ha ⊢
  rw [relink_apart _ _ ha]

/-- The `failed++` loop on a chain `mid ++ [t]`: every block of `mid` is counted and
the last block `t` is not. -/
theorem failed_loop_blocks :
    ∀ (mid : List Block) (t : Block) (i cur : Nat),
      (ngx_palloc_block_failed (mid ++ [t]) i cur).1
        = mid.map (fun b => { b with failed := (b.failed + 1) % WORD }) ++ [t] := by
  intro mid
  induction mid with
  | nil => intro t i cur; rfl
  | cons b mid ih =>
    intro t i cur
    cases mid with
    | nil =>
      have := ih t (i + 1) (if 4 < b.failed then i + 1 else cur)
      simp only [List.nil_append] at this
      simp only [List.cons_append, List.nil_append, ngx_palloc_block_failed, this,
        List.map_cons, List.map_nil]
    | cons b1 mid =>
      have := ih t (i + 1) (if 4 < b.failed then i + 1 else cur)
      simp only [List.cons_append] at this
      simp only [List.cons_append, ngx_palloc_block_failed, List.append_eq, this, List.map_cons]

/-- The `failed++` loop leaves `current` alone when no counted block had a
counter above 4. -/
theorem failed_loop_current_same :
    ∀ (mid : List Block) (t : Block) (i cur : Nat), (∀ b ∈ mid, b.failed ≤ 4) →
      (ngx_palloc_block_failed (mid ++ [t]) i cur).2 = cur := by
  intro mid
  induction mid with
  | nil => intro t i cur _; rfl
  | cons b mid ih =>
    intro t i cur h
    have hb : ¬ 4 < b.failed := by
      have := h b (List.mem_cons_self _ _)
      omega
    have hrest : ∀ x ∈ mid, x.failed ≤ 4 := fun x hx => h x (List.mem_cons_of_mem _ hx)
    cases mid with
    | nil =>
      simp only [List.cons_append, List.nil_append, ngx_palloc_block_failed, if_neg hb]
    | cons b1 mid =>
      have := ih t (i + 1) cur hrest
      simp only [List.cons_append] at this
      simp only [List.cons_append, ngx_palloc_block_failed, List.append_eq, if_neg hb, this]

/-- The `failed++` loop moves `current` right after the last counted block whose
counter was above 4. -/
theorem failed_loop_current_moved :
    ∀ (m1 : List Block) (b : Block) (m2 : List Block) (t : Block) (i cur : Nat),
      4 < b.failed → (∀ x ∈ m2, x.failed ≤ 4) →
      (ngx_palloc_block_failed (m1 ++ b :: m2 ++ [t]) i cur).2 = i + m1.length + 1 := by
  intro m1
  induction m1 with
  | nil =>
    intro b m2 t i cur hb h2
    have hsame := failed_loop_current_same m2 t (i + 1) (i + 1) h2
    cases m2 with
    | nil =>
      simp only [List.nil_append, List.cons_append, ngx_palloc_block_failed, if_pos hb,
        List.length_nil, Nat.add_zero]
    | cons c m2 =>
      simp only [List.cons_append] at hsame
      simp only [List.nil_append, List.cons_append, ngx_palloc_block_failed, List.append_eq,
        if_pos hb, hsame, List.length_nil, Nat.add_zero]
  | cons a m1 ih =>
    intro b m2 t i cur hb h2
    cases m1 with
    | nil =>
      have := ih b m2 t (i + 1) (if 4 < a.failed then i + 1 else cur) hb h2
      simp only [List.nil_append, List.cons_append, List.length_nil] at this
      simp only [List.cons_append, List.nil_append, ngx_palloc_block_failed, List.append_eq,
        this, List.length_cons, List.length_nil]
    | cons a1 m1 =>
      have := ih b m2 t (i + 1) (if 4 < a.failed then i + 1 else cur) hb h2
      simp only [List.cons_append, List.length_cons] at this
      simp only [List.cons_append, ngx_palloc_block_failed, List.append_eq, this,
        List.length_cons]
      omega

/-- Claim C32, counterexample: on a pool whose chain is the single block at 8192
(`pool->current` is that block, the old tail), `ngx_palloc_block` appends the
block at 16384 and serves the request at 16416, but counts no failure: the
counter of the block at 8192 stays 0.  On a chain of two blocks with
`pool->current` the first, the first block is counted and the old tail, at
16384, is not.  A counted block whose counter was 4 gets 5 and does not move
`pool->current`; a counter of 5 gets 6 and does. -/
theorem palloc_block_skips_old_tail :
    ngx_palloc_block (Pool.mk [⟨8192, 12280, 12288, 0⟩] 4016 0 [] []) 100 16384
      = (16416, Pool.mk [⟨8192, 12280, 12288, 0⟩, ⟨16384, 16516, 20480, 0⟩] 4016 0 [] []) ∧
    ngx_palloc_block
        (Pool.mk [⟨8192, 12280, 12288, 0⟩, ⟨16384, 20470, 20480, 0⟩] 4016 0 [] []) 100 24576
      = (24608, Pool.mk [⟨8192, 12280, 12288, 1⟩, ⟨16384, 20470, 20480, 0⟩,
          ⟨24576, 24708, 28672, 0⟩] 4016 0 [] []) ∧
    ngx_palloc_block
        (Pool.mk [⟨8192, 12280, 12288, 4⟩, ⟨16384, 20470, 20480, 0⟩] 4016 0 [] []) 100 24576
      = (24608, Pool.mk [⟨8192, 12280, 12288, 5⟩, ⟨16384, 20470, 20480, 0⟩,
          ⟨24576, 24708, 28672, 0⟩] 4016 0 [] []) ∧
    ngx_palloc_block
        (Pool.mk [⟨8192, 12280, 12288, 5⟩, ⟨16384, 20470, 20480, 0⟩] 4016 0 [] []) 100 24576
      = (24608, Pool.mk [⟨8192, 12280, 12288, 6⟩, ⟨16384, 20470, 20480, 0⟩,
          ⟨24576, 24708, 28672, 0⟩] 4016 1 [] []) := by
  refine ⟨by decide, by decide, by decide, by decide⟩

/-- Claim C32, amended: let the chain be `pre ++ mid ++ [t]` with `pool->current` the
first block after `pre` and `t` the old tail.  When `ngx_palloc_block` appends a
block (the heap returned `m`, not `NULL`), it counts one more failure on every
block of `mid`, that is from `pool->current` up to but not including the old
tail; the counters of `pre` and of `t` are unchanged.  `pool->current` becomes
the block right after the last block of `mid` whose counter was above 4 before
this call, and is left untouched when `mid` has no such block.  The new block
`[m, m + psize)`, with counter 0, is appended after `t`, and the request is
served from it, at the word-aligned address after its `ngx_pool_data_t`
header. -/
theorem ngx_palloc_block_spec (pool : Pool) (size m : Nat) (pre mid : List Block) (t : Block)
    (hb : pool.blocks = pre ++ mid ++ [t]) (hc : pool.current = pre.length) (hm : m ≠ 0) :
    (ngx_palloc_block pool size m).1
      = ngx_align_ptr (ptr_add m sizeof_ngx_pool_data_t) NGX_ALIGMENT ∧
    (ngx_palloc_block pool size m).2.blocks
      = pre ++ mid.map (fun b => { b with failed := (b.failed + 1) % WORD })
        ++ [t, ⟨m, ptr_add (ngx_palloc_block pool size m).1 size,
              ptr_add m (ptr_diff pool.d.end_ pool.d.addr), 0⟩] ∧
    ((∀ b ∈ mid, b.failed ≤ 4) → (ngx_palloc_block pool size m).2.current = pool.current) ∧
    (∀ m1 b m2, mid = m1 ++ b :: m2 → 4 < b.failed → (∀ x ∈ m2, x.failed ≤ 4) →
      (ngx_palloc_block pool size m).2.current = pool.current + m1.length + 1) := by
  have hdrop : pool.blocks.drop pool.current = mid ++ [t] := by
    rw [hb, hc, List.append_assoc, List.drop_left]
  have htake : pool.blocks.take pool.current = pre := by
    rw [hb, hc, List.append_assoc, List.take_left]
  unfold ngx_palloc_block
  simp only [if_neg hm, hdrop, htake]
  refine ⟨trivial, ?_, ?_, ?_⟩
  · rw [failed_loop_blocks]
    simp only [List.append_assoc, List.singleton_append]
  · intro h
    exact failed_loop_current_same mid t _ _ h
  · intro m1 b m2 hmid hb4 h2
    subst hmid
    exact failed_loop_current_moved m1 b m2 t _ _ hb4 h2

/-- Witness of C32 (amended): a chain of three blocks with `pool->current` the
first; the counters of the first two are 5 and 2. -/
theorem ngx_palloc_block_spec_witness :
    ((Pool.mk [⟨8192, 12280, 12288, 5⟩, ⟨16384, 20470, 20480, 2⟩, ⟨24576, 28670, 28672, 0⟩]
        4016 0 [] []).blocks
      = [] ++ [⟨8192, 12280, 12288, 5⟩, ⟨16384, 20470, 20480, 2⟩] ++ [⟨24576, 28670, 28672, 0⟩] ∧
      (Pool.mk [⟨8192, 12280, 12288, 5⟩, ⟨16384, 20470, 20480, 2⟩, ⟨24576, 28670, 28672, 0⟩]
        4016 0 [] []).current = ([] : List Block).length ∧ (32768 : Nat) ≠ 0) ∧
    ngx_palloc_block
        (Pool.mk [⟨8192, 12280, 12288, 5⟩, ⟨16384, 20470, 20480, 2⟩, ⟨24576, 28670, 28672, 0⟩]
          4016 0 [] []) 100 32768
      = (32800, Pool.mk [⟨8192, 12280, 12288, 6⟩, ⟨16384, 20470, 20480, 3⟩,
          ⟨24576, 28670, 28672, 0⟩, ⟨32768, 32900, 36864, 0⟩] 4016 1 [] []) ∧
    (ngx_palloc_block
        (Pool.mk [⟨8192, 12280, 12288, 5⟩, ⟨16384, 20470, 20480, 2⟩, ⟨24576, 28670, 28672, 0⟩]
          4016 0 [] []) 100 32768).1
      = ngx_align_ptr (ptr_add 32768 sizeof_ngx_pool_data_t) NGX_ALIGMENT :=
  ⟨⟨by decide, by decide, by decide⟩, by decide,
   (ngx_palloc_block_spec
      (Pool.mk [⟨8192, 12280, 12288, 5⟩, ⟨16384, 20470, 20480, 2⟩, ⟨24576, 28670, 28672, 0⟩]
        4016 0 [] []) 100 32768 []
      [⟨8192, 12280, 12288, 5⟩, ⟨16384, 20470, 20480, 2⟩] ⟨24576, 28670, 28672, 0⟩
      (by decide) (by decide) (by decide)).1⟩

/-- An aligned small request that the first block of the chain can serve. -/
theorem ngx_palloc_first_block (pool : Pool) (b : Block) (rest : List Block) (size : Nat)
    (env : Env) (hb : pool.blocks = b :: rest) (hc : pool.current = 0) (hs : size ≤ pool.max)
    (hfit : size ≤ ptr_diff b.end_ (ngx_align_ptr b.last NGX_ALIGMENT)) :
    ngx_palloc pool size env
      = (ngx_align_ptr b.last NGX_ALIGMENT,
         { pool with blocks :=
            { b with last := ptr_add (ngx_align_ptr b.last NGX_ALIGMENT) size } :: rest },
         []) := by
  unfold ngx_palloc
  rw [if_pos hs]
  unfold ngx_palloc_small
  simp only [hc, hb, List.drop_zero, List.take_zero, List.nil_append, ngx_palloc_small_scan,
    if_true, if_pos hfit]

end NgxPalloc

namespace NgxSlab

open NgxPalloc (WORD)

/-- The loop of ngx_slab.c:246 never ends once it meets an occupied chunk: `m << 1`
changes nothing, so the same bit is tested again and again. -/
theorem bitmap_loop_stuck (m mask slab : Nat) (h1 : m &&& mask ≠ 0) (h2 : slab &&& m ≠ 0) :
    ∀ fuel i, bitmap_loop fuel m mask slab i = none := by
  intro fuel
  induction fuel with
  | zero => intro i; rfl
  | succ f ih =>
    intro i
    simp only [bitmap_loop]
    rw [if_pos h1, if_pos h2]
    exact ih _

/-- Claim C38, refuted for every pool: a request of `size > pool->min_size` bytes with
`size >= 3` never leaves the size-class loop `for (s = size - 1; s >> 1; shift++)`
(ngx_slab.c:209), whatever the fuel, so `ngx_slab_alloc_locked` does not
terminate; the loop has no bound of word-size iterations.  The bitmap scan
(line 246) does not end either once the tested chunk is occupied, since
`m << 1` leaves `m` as it is. -/
theorem slab_alloc_locked_not_terminating (cfg : Cfg) (g : Sizes) (pool : ngx_slab_pool_t)
    (size : Nat) (h1 : pool.min_size < size) (h3 : 3 ≤ size) (hw : size < WORD) :
    (∀ fuel junk, ngx_slab_alloc_locked cfg g fuel junk pool size = Outcome.timeout) ∧
    (∀ fuel shift, shift_loop fuel ((size + WORD - 1) % WORD) shift = none) ∧
    (∀ m mask slab, m &&& mask ≠ 0 → slab &&& m ≠ 0 →
      ∀ fuel i, bitmap_loop fuel m mask slab i = none) := by
  refine ⟨?_, ?_, fun m mask slab hm hs => bitmap_loop_stuck m mask slab hm hs⟩
  · intro fuel junk
    unfold ngx_slab_alloc_locked
    rw [slab_class_stuck pool size fuel junk h1 h3 hw]
  · have hs : ((size + WORD - 1) % WORD) >>> 1 ≠ 0 := by
      have e : (size + WORD - 1) % WORD = size - 1 := by
        unfold WORD at *
        omega
      rw [e, Nat.shiftRight_eq_div_pow]
      omega
    exact shift_loop_stuck _ hs

/-- Witness of C38: `ngx_slab_alloc_locked(pool, 16)` on the pool of 16 pages. -/
theorem slab_alloc_locked_not_terminating_witness :
    (pool16.min_size < 16 ∧ 3 ≤ 16 ∧ 16 < WORD) ∧
    (∀ fuel junk,
      ngx_slab_alloc_locked cfg4096 sizes4096 fuel junk pool16 16 = Outcome.timeout) :=
  ⟨⟨by decide, by decide, by decide⟩,
   (slab_alloc_locked_not_terminating cfg4096 sizes4096 pool16 16 (by decide) (by decide)
      (by decide)).1⟩

end NgxSlab

namespace NgxArray

open NgxPalloc

/-- Claim C36, counterexample to the last part: on the pool of 4096 bytes an array
of capacity 2 with 8-byte elements is created (structure at 8272, buffer at
8312, cursor 8328); then `ngx_palloc(pool, 4000)` follows, which the first block
cannot serve, so a block at 16384 is appended and serves it at 16416, the
cursor of the first block staying 8328.  `ngx_array_destroy` then moves the
cursor `p->d.last` from 8328 back to 8272.  The same happens after a
following `ngx_palloc(pool, 0)`. -/
theorem array_destroy_after_other_allocation :
    ngx_array_create pool4096 2 8 ⟨0, 0, 0⟩ ⟨0, 0, 0⟩
      = (some (8272, ⟨8312, 0, 8, 2, 8192⟩),
         { pool4096 with blocks := [⟨8192, 8328, 12288, 0⟩] }, []) ∧
    ngx_palloc { pool4096 with blocks := [⟨8192, 8328, 12288, 0⟩] } 4000 ⟨0, 16384, 0⟩
      = (16416, { pool4096 with
          blocks := [⟨8192, 8328, 12288, 0⟩, ⟨16384, 20416, 20480, 0⟩] }, []) ∧
    ngx_array_destroy 8272 ⟨8312, 0, 8, 2, 8192⟩
        { pool4096 with blocks := [⟨8192, 8328, 12288, 0⟩, ⟨16384, 20416, 20480, 0⟩] }
      = { pool4096 with blocks := [⟨8192, 8272, 12288, 0⟩, ⟨16384, 20416, 20480, 0⟩] } ∧
    ngx_palloc { pool4096 with blocks := [⟨8192, 8328, 12288, 0⟩] } 0 ⟨0, 0, 0⟩
      = (8328, { pool4096 with blocks := [⟨8192, 8328, 12288, 0⟩] }, []) ∧
    ngx_array_destroy 8272 ⟨8312, 0, 8, 2, 8192⟩
        { pool4096 with blocks := [⟨8192, 8328, 12288, 0⟩] }
      = { pool4096 with blocks := [⟨8192, 8272, 12288, 0⟩] } := by
  refine ⟨by decide, by decide, by decide, by decide, by decide⟩

/-- Claim C36, amended.  Let the pool's first block `b` be `pool->current`, with a
non-null cursor, and let it have room for the array structure at the cursor
rounded up to a multiple of 8 (the address `a`) and for the buffer of
`n * size` bytes right after it, both requests being at most `pool->max`.
Then `ngx_array_create(p, n, size)` returns `a` with the buffer at `a + 40` and
the cursor after the buffer; `ngx_array_destroy` sets the cursor `p->d.last`
to `a` and changes nothing else, so the next `ngx_palloc` of
`sizeof(ngx_array_t)` bytes returns `a` again.  If an allocation of `s > 0`
bytes served from the first block followed the array, `ngx_array_destroy`
leaves the pool, the cursor included, unchanged. -/
theorem ngx_array_destroy_rewinds (pool : Pool) (b : Block) (rest : List Block)
    (n size : Nat) (env1 env2 : Env)
    (hb : pool.blocks = b :: rest) (hc : pool.current = 0) (h0 : 0 < b.last)
    (hroom : 8 * ((b.last + 7) / 8) + sizeof_ngx_array_t + (n * size) % WORD ≤ b.end_)
    (hend : b.end_ < WORD) (hmax1 : sizeof_ngx_array_t ≤ pool.max)
    (hmax2 : (n * size) % WORD ≤ pool.max) :
    ngx_array_create pool n size env1 env2
      = (some (8 * ((b.last + 7) / 8),
          ⟨8 * ((b.last + 7) / 8) + sizeof_ngx_array_t, 0, size, n, b.addr⟩),
         { pool with blocks :=
            { b with last := 8 * ((b.last + 7) / 8) + sizeof_ngx_array_t + (n * size) % WORD }
              :: rest }, []) ∧
    ngx_array_destroy (8 * ((b.last + 7) / 8))
        ⟨8 * ((b.last + 7) / 8) + sizeof_ngx_array_t, 0, size, n, b.addr⟩
        { pool with blocks :=
            { b with last := 8 * ((b.last + 7) / 8) + sizeof_ngx_array_t + (n * size) % WORD }
              :: rest }
      = { pool with blocks := { b with last := 8 * ((b.last + 7) / 8) } :: rest } ∧
    (∀ env, (ngx_palloc { pool with blocks := { b with last := 8 * ((b.last + 7) / 8) } :: rest }
        sizeof_ngx_array_t env).1 = 8 * ((b.last + 7) / 8)) ∧
    (∀ s env, 0 < s → s ≤ pool.max →
      8 * ((8 * ((b.last + 7) / 8) + sizeof_ngx_array_t + (n * size) % WORD + 7) / 8) + s
        ≤ b.end_ →
      (ngx_palloc { pool with blocks :=
            { b with last := 8 * ((b.last + 7) / 8) + sizeof_ngx_array_t + (n * size) % WORD }
              :: rest } s env).1
        = 8 * ((8 * ((b.last + 7) / 8) + sizeof_ngx_array_t + (n * size) % WORD + 7) / 8) ∧
      ngx_array_destroy (8 * ((b.last + 7) / 8))
          ⟨8 * ((b.last + 7) / 8) + sizeof_ngx_array_t, 0, size, n, b.addr⟩
          (ngx_palloc { pool with blocks :=
            { b with last := 8 * ((b.last + 7) / 8) + sizeof_ngx_array_t + (n * size) % WORD }
              :: rest } s env).2.1
        = (ngx_palloc { pool with blocks :=
            { b with last := 8 * ((b.last + 7) / 8) + sizeof_ngx_array_t + (n * size) % WORD }
              :: rest } s env).2.1) := by
  unfold sizeof_ngx_array_t at *
  generalize hS : (n * size) % WORD = S at *
  generalize ha : 8 * ((b.last + 7) / 8) = a at *
  have ha1 : b.last ≤ a := by omega
  have ha2 : a % 8 = 0 := by omega
  have hal : ngx_align_ptr b.last NGX_ALIGMENT = a := by
    rw [ngx_align_ptr_small _ (by unfold WORD at *; omega), ha]
  have hadd1 : ptr_add a 40 = a + 40 := by
    unfold ptr_add; exact Nat.mod_eq_of_lt (by unfold WORD at *; omega)
  have hal2 : ngx_align_ptr (a + 40) NGX_ALIGMENT = a + 40 := by
    rw [ngx_align_ptr_small _ (by unfold WORD at *; omega)]; omega
  have hadd2 : ptr_add (a + 40) S = a + 40 + S := by
    unfold ptr_add; exact Nat.mod_eq_of_lt (by unfold WORD at *; omega)
  -- the two allocations of `ngx_array_create`
  have e1 : ngx_palloc pool 40 env1
      = (a, { pool with blocks := { b with last := a + 40 } :: rest }, []) := by
    rw [ngx_palloc_first_block pool b rest 40 env1 hb hc hmax1
      (by rw [hal]; unfold ptr_diff WORD at *; omega), hal, hadd1]
  have e2 : ngx_palloc { pool with blocks := { b with last := a + 40 } :: rest } S env2
      = (a + 40, { pool with blocks := { b with last := a + 40 + S } :: rest }, []) := by
    rw [ngx_palloc_first_block { pool with blocks := { b with last := a + 40 } :: rest }
      { b with last := a + 40 } rest S env2 rfl hc hmax2
      (by simp only [hal2]; unfold ptr_diff WORD at *; omega)]
    simp only [hal2, hadd2]
  have hne : ¬ a = 0 := by omega
  have hne2 : ¬ a + 40 = 0 := by omega
  have hsz : (size * n) % WORD = S := by rw [Nat.mul_comm]; exact hS
  refine ⟨?_, ?_, ?_, ?_⟩
  · simp only [ngx_array_create, sizeof_ngx_array_t, ngx_array_init, hS, e1, e2, if_neg hne,
      if_neg hne2, Pool.d, List.headD_cons, ne_eq, not_true_eq_false, if_false,
      List.append_nil]
  · have hsub : (a + 40 + S + WORD - S) % WORD = a + 40 := by unfold WORD at *; omega
    simp only [ngx_array_destroy, sizeof_ngx_array_t, hsz, Pool.d, List.headD_cons, hadd2,
      hadd1, if_true, set_d_last, hsub]
  · intro env
    rw [ngx_palloc_first_block { pool with blocks := { b with last := a } :: rest }
      { b with last := a } rest 40 env rfl hc hmax1
      (by
        have : ngx_align_ptr a NGX_ALIGMENT = a := by
          rw [ngx_align_ptr_small _ (by unfold WORD at *; omega)]; omega
        simp only [this]; unfold ptr_diff WORD at *; omega)]
    simp only
    rw [ngx_align_ptr_small _ (by unfold WORD at *; omega)]
    omega
  · intro s env hs0 hsmax hfit
    generalize hm : 8 * ((a + 40 + S + 7) / 8) = m at *
    have hm1 : a + 40 + S ≤ m := by omega
    have hal3 : ngx_align_ptr (a + 40 + S) NGX_ALIGMENT = m := by
      rw [ngx_align_ptr_small _ (by unfold WORD at *; omega), hm]
    have hadd3 : ptr_add m s = m + s := by
      unfold ptr_add; exact Nat.mod_eq_of_lt (by unfold WORD at *; omega)
    have e3 : ngx_palloc { pool with blocks := { b with last := a + 40 + S } :: rest } s env
        = (m, { pool with blocks := { b with last := m + s } :: rest }, []) := by
      rw [ngx_palloc_first_block { pool with blocks := { b with last := a + 40 + S } :: rest }
        { b with last := a + 40 + S } rest s env rfl hc hsmax
        (by simp only [hal3]; unfold ptr_diff WORD at *; omega)]
      simp only [hal3, hadd3]
    rw [e3]
    refine ⟨rfl, ?_⟩
    have n1 : ¬ (a + 40 + S = m + s) := by omega
    have n2 : ¬ (a + 40 = m + s) := by omega
    simp only [ngx_array_destroy, sizeof_ngx_array_t, hsz, Pool.d, List.headD_cons, hadd2,
      hadd1, if_neg n1, if_neg n2]

/-- Witness of C36 (amended): the pool of 4096 bytes, capacity 2, 8-byte elements. -/
theorem ngx_array_destroy_rewinds_witness :
    (pool4096.blocks = ⟨8192, 8272, 12288, 0⟩ :: [] ∧ pool4096.current = 0 ∧
      0 < (Block.mk 8192 8272 12288 0).last ∧
      8 * (((Block.mk 8192 8272 12288 0).last + 7) / 8) + sizeof_ngx_array_t + (2 * 8) % WORD
        ≤ (Block.mk 8192 8272 12288 0).end_ ∧
      (Block.mk 8192 8272 12288 0).end_ < WORD ∧ sizeof_ngx_array_t ≤ pool4096.max ∧
      (2 * 8) % WORD ≤ pool4096.max) ∧
    ngx_array_destroy 8272 ⟨8312, 0, 8, 2, 8192⟩
        { pool4096 with blocks := [⟨8192, 8328, 12288, 0⟩] } = pool4096 ∧
    ngx_array_destroy (8 * (((Block.mk 8192 8272 12288 0).last + 7) / 8))
        ⟨8 * (((Block.mk 8192 8272 12288 0).last + 7) / 8) + sizeof_ngx_array_t, 0, 8, 2,
          (Block.mk 8192 8272 12288 0).addr⟩
        { pool4096 with blocks :=
            { (Block.mk 8192 8272 12288 0) with
              last := 8 * (((Block.mk 8192 8272 12288 0).last + 7) / 8) + sizeof_ngx_array_t
                + (2 * 8) % WORD } :: [] }
      = { pool4096 with blocks :=
            { (Block.mk 8192 8272 12288 0) with
              last := 8 * (((Block.mk 8192 8272 12288 0).last + 7) / 8) } :: [] } :=
  ⟨⟨by decide, by decide, by decide, by decide, by decide, by decide, by decide⟩, by decide,
   (ngx_array_destroy_rewinds pool4096 ⟨8192, 8272, 12288, 0⟩ [] 2 8 ⟨0, 0, 0⟩ ⟨0, 0, 0⟩
      (by decide) (by decide) (by decide) (by decide) (by decide) (by decide)
      (by decide)).2.1⟩

end NgxArray
